import Mathlib

/-!
# Newton controller, border exchange and black-oil indices

A shallow embedding of three parts of the repository, followed by theorems
about them:

* `Dumux::BoxNewtonController` (`dumux/boxmodels/common/boxnewtoncontroller.hh`):
  the update rule, the line search, the tolerance of the reassembly heuristic,
  the relative error and the hooks run at the end of a nonlinear solve;
* the classes of `dumux/boxmodels/pdelab/preconditionerpdelab.hh`: the
  `Exchanger` which sums the border entries of a matrix over the partitions, the
  `NonoverlappingWrappedPreconditioner` and the two linear solver backends;
* `Opm::BlackOilOnePhaseIndices` (`opm/models/blackoil/blackoilonephaseindices.hh`):
  the indices of the primary variables and the maps between the canonical and
  the active component index.

Conventions of the embedding:

* `Scalar` (a `double` in the source) is a rational number or one of the IEEE
  special values `+inf`, `-inf`, `NaN`.  A finite result is kept exact (no
  rounding), but a result whose magnitude reaches `2^1024 - 2^970`, from where a
  `double` rounds to an infinity, overflows to the infinity of its sign; the
  special values follow IEEE 754; comparisons with `NaN` are false.  Zero
  carries no sign.
* A `SolutionVector` / `GlobalEqVector` is a block vector with one block of
  `numEq` scalars per degree of freedom; the sizes are part of the type.
* The model and its Jacobian assembler, the grid, the sequential preconditioner
  and the Krylov solver are collaborators whose code is not part of the embedded
  files; they are parameters, acting on an explicit state where they have one.
* A C++ exception is the `thrown` component of a result; the state reached at
  the point of the `throw` is kept next to it.
* The types `unsigned` and `int` have 32 bits: sums of type `unsigned` are taken
  modulo `2^32`, and a value of type `unsigned` from `2^31` on converts to a
  negative `int`.
-/

namespace Dumux

/-! ## Scalars -/

/-- The values of the type `Scalar` of the source: finite values and the
IEEE 754 special values. -/
inductive Scalar where
  | fin (q : ℚ)
  | posInf
  | negInf
  | nan
  deriving DecidableEq

namespace Scalar

/-- The result of `std::isfinite`. -/
def isfinite : Scalar → Bool
  | fin _ => true
  | posInf => false
  | negInf => false
  | nan => false

/-- The magnitude from which the result of an operation on `double` values is
an infinity: `DBL_MAX` plus half a unit in its last place, `2^1024 - 2^970`. -/
def overflowThreshold : ℚ := 2 ^ 1024 - 2 ^ 970

/-- The result of an operation whose exact value is `q`: `q` itself below the
threshold of overflow in magnitude, the infinity of the sign of `q` from the
threshold on. -/
def ofRat (q : ℚ) : Scalar :=
  if overflowThreshold ≤ q then posInf
  else if q ≤ -overflowThreshold then negInf
  else fin q

/-- Unary minus. -/
def neg : Scalar → Scalar
  | fin q => fin (-q)
  | posInf => negInf
  | negInf => posInf
  | nan => nan

/-- Addition, `a + b`. -/
def add : Scalar → Scalar → Scalar
  | fin a, fin b => ofRat (a + b)
  | fin _, posInf => posInf
  | fin _, negInf => negInf
  | fin _, nan => nan
  | posInf, fin _ => posInf
  | posInf, posInf => posInf
  | posInf, negInf => nan
  | posInf, nan => nan
  | negInf, fin _ => negInf
  | negInf, posInf => nan
  | negInf, negInf => negInf
  | negInf, nan => nan
  | nan, fin _ => nan
  | nan, posInf => nan
  | nan, negInf => nan
  | nan, nan => nan

/-- Subtraction, `a - b`. -/
def sub (a b : Scalar) : Scalar := add a (neg b)

/-- The product of an infinity of the given sign (`true` is `+inf`) with the
finite value `q`. -/
def infTimes (positive : Bool) (q : ℚ) : Scalar :=
  if q = 0 then nan
  else if decide (0 < q) = positive then posInf
  else negInf

/-- Multiplication, `a * b`. -/
def mul : Scalar → Scalar → Scalar
  | fin a, fin b => ofRat (a * b)
  | fin a, posInf => infTimes true a
  | fin a, negInf => infTimes false a
  | fin _, nan => nan
  | posInf, fin b => infTimes true b
  | posInf, posInf => posInf
  | posInf, negInf => negInf
  | posInf, nan => nan
  | negInf, fin b => infTimes false b
  | negInf, posInf => negInf
  | negInf, negInf => posInf
  | negInf, nan => nan
  | nan, fin _ => nan
  | nan, posInf => nan
  | nan, negInf => nan
  | nan, nan => nan

/-- The quotient of an infinity of the given sign by the finite value `q`
(a zero divisor counts as `+0`). -/
def infOver (positive : Bool) (q : ℚ) : Scalar :=
  if decide (0 ≤ q) = positive then posInf else negInf

/-- Division, `a / b`.  The source only divides by the constants `8` and
`2.0`. -/
def div : Scalar → Scalar → Scalar
  | fin a, fin b =>
    if b = 0 then (if a = 0 then nan else infOver true a) else ofRat (a / b)
  | fin _, posInf => fin 0
  | fin _, negInf => fin 0
  | fin _, nan => nan
  | posInf, fin b => infOver true b
  | posInf, posInf => nan
  | posInf, negInf => nan
  | posInf, nan => nan
  | negInf, fin b => infOver false b
  | negInf, posInf => nan
  | negInf, negInf => nan
  | negInf, nan => nan
  | nan, fin _ => nan
  | nan, posInf => nan
  | nan, negInf => nan
  | nan, nan => nan

/-- The comparison `a < b`. -/
def lt : Scalar → Scalar → Bool
  | fin a, fin b => decide (a < b)
  | fin _, posInf => true
  | fin _, negInf => false
  | fin _, nan => false
  | posInf, fin _ => false
  | posInf, posInf => false
  | posInf, negInf => false
  | posInf, nan => false
  | negInf, fin _ => true
  | negInf, posInf => true
  | negInf, negInf => false
  | negInf, nan => false
  | nan, fin _ => false
  | nan, posInf => false
  | nan, negInf => false
  | nan, nan => false

/-- The comparison `a <= b`. -/
def le : Scalar → Scalar → Bool
  | fin a, fin b => decide (a ≤ b)
  | fin _, posInf => true
  | fin _, negInf => false
  | fin _, nan => false
  | posInf, fin _ => false
  | posInf, posInf => true
  | posInf, negInf => false
  | posInf, nan => false
  | negInf, fin _ => true
  | negInf, posInf => true
  | negInf, negInf => true
  | negInf, nan => false
  | nan, fin _ => false
  | nan, posInf => false
  | nan, negInf => false
  | nan, nan => false

/-- The comparison `a > b`. -/
def gt (a b : Scalar) : Bool := lt b a

end Scalar

/-- The function `std::max(a, b)`, that is `(a < b) ? b : a`. -/
def stdMax (a b : Scalar) : Scalar := if Scalar.lt a b then b else a

/-- The function `std::min(a, b)`, that is `(b < a) ? b : a`. -/
def stdMin (a b : Scalar) : Scalar := if Scalar.lt b a then b else a

/-! ## Vectors -/

/-- A block of `numEq` scalars (`Dune::FieldVector<Scalar, numEq>`): the
primary variables, or the equations, of one degree of freedom. -/
abbrev PrimaryVariables (numEq : Nat) := Fin numEq → Scalar

/-- A block vector with one block per degree of freedom. -/
abbrev SolutionVector (n numEq : Nat) := Fin n → PrimaryVariables numEq

/-- The vector of the equations of all degrees of freedom; same layout as a
`SolutionVector`. -/
abbrev GlobalEqVector (n numEq : Nat) := Fin n → PrimaryVariables numEq

/-- A counted loop `for (i = 0; i < n; ++i) body(i)` over a state. -/
def forLoop {σ : Type} (n : Nat) (body : Fin n → σ → σ) (s : σ) : σ :=
  (List.finRange n).foldl (fun acc i => body i acc) s

/-- The operator `x -= y` of a block: component-wise subtraction. -/
def fieldSubAssign {numEq : Nat} (x y : PrimaryVariables numEq) :
    PrimaryVariables numEq :=
  fun j => Scalar.sub (x j) (y j)

/-- The method `two_norm2` of a block: the sum of the squares of its
components. -/
def fieldTwoNorm2 {numEq : Nat} (x : PrimaryVariables numEq) : Scalar :=
  forLoop numEq (fun j sum => Scalar.add sum (Scalar.mul (x j) (x j))) (Scalar.fin 0)

/-- The method `two_norm2` of a block vector: the sum of `two_norm2` over its
blocks. -/
def two_norm2 {n numEq : Nat} (v : GlobalEqVector n numEq) : Scalar :=
  forLoop n (fun i sum => Scalar.add sum (fieldTwoNorm2 (v i))) (Scalar.fin 0)

/-- The assignment `u[i][j] = v` to one component of a block vector. -/
def setEntry {n numEq : Nat} (u : SolutionVector n numEq) (i : Fin n) (j : Fin numEq)
    (v : Scalar) : SolutionVector n numEq :=
  Function.update u i (Function.update (u i) j v)

/-! ## Collaborators of the controller -/

/-- The methods of the Jacobian assembler which the controller calls
(`model_().jacobianAssembler()`).  The assembler is not part of the embedded
file: its methods are parameters acting on the world state `W`. -/
structure JacobianAssembler (W : Type) (n numEq : Nat) where
  updateDiscrepancy : SolutionVector n numEq → GlobalEqVector n numEq → W → W
  computeColors : Scalar → W → W
  reassembleAll : W → W
  setMatrixReuseable : Bool → W → W

/-- The methods of the model which the controller calls (`model_()`).
`globalResidual (tmp, u)` fills the scratch vector `tmp`, which the controller
discards, and returns the norm of the residual at `u`; it may change the state
of the model. -/
structure Model (W : Type) (n numEq : Nat) where
  relativeErrorVertex :
    Fin n → PrimaryVariables numEq → PrimaryVariables numEq → Scalar
  globalResidual : SolutionVector n numEq → W → Scalar × W
  jacobianAssembler : JacobianAssembler W n numEq

/-- The exceptions raised by the controller with `DUNE_THROW`. -/
inductive Exception where
  | NumericalProblem
  deriving DecidableEq

/-- The members of the base class `NewtonController` which
`BoxNewtonController` reads or writes through `this->`. -/
structure NewtonController where
  error_ : Scalar
  absoluteError_ : Scalar
  lastAbsoluteError_ : Scalar
  tolerance_ : Scalar
  enableRelativeCriterion_ : Bool
  enableAbsoluteCriterion_ : Bool

/-- The methods of the base class which `BoxNewtonController` calls: the two
hooks `ParentType::newtonFail ()` and `ParentType::newtonSucceed ()`, which act
on the members of the base class, and the collective maximum `comm_.max`. -/
structure ParentType where
  newtonFail : NewtonController → NewtonController
  newtonSucceed : NewtonController → NewtonController
  commMax : Scalar → Scalar

/-- The controller: the base class and the three flags read by the
constructor. -/
structure BoxNewtonController extends NewtonController where
  enablePartialReassemble_ : Bool
  enableJacobianRecycling_ : Bool
  useLineSearch_ : Bool

/-- What a call of `newtonUpdate` leaves behind: the controller, the world of
the model, the vector `uCurrentIter`, and the exception if one was thrown.
`trials` lists the values of `lambda` at which the line search evaluated the
residual, in order (empty without line search). -/
structure UpdateResult (W : Type) (n numEq : Nat) where
  ctl : BoxNewtonController
  world : W
  uCurrentIter : SolutionVector n numEq
  thrown : Option Exception
  trials : List Scalar

namespace BoxNewtonController

variable {W : Type} {n numEq : Nat}

/-- Lines 167 to 174 of `newtonUpdateRelError`: the collective maximum of the
local error and the comparison with the parameter `NewtonMaxRelError`. -/
def reduceRelError (commMax : Scalar → Scalar) (maxError : Scalar) (error_ : Scalar) :
    Scalar × Option Exception :=
  let error_ := commMax error_
  if Scalar.gt error_ maxError then (error_, some Exception.NumericalProblem)
  else (error_, none)

/-- The method `newtonUpdateRelError`; `maxError` is the value of the parameter
`NewtonMaxRelError`. -/
def newtonUpdateRelError (p : ParentType) (m : Model W n numEq) (maxError : Scalar)
    (c : BoxNewtonController)
    (_uCurrentIter uLastIter : SolutionVector n numEq) (deltaU : GlobalEqVector n numEq) :
    BoxNewtonController × Option Exception :=
  if !c.enableRelativeCriterion_ && !c.enablePartialReassemble_ then (c, none)
  else
    let c := { c with error_ := Scalar.fin 0 }
    let c := forLoop n (fun i (c : BoxNewtonController) =>
      let uNewI := fieldSubAssign (uLastIter i) (deltaU i)
      let vertError := m.relativeErrorVertex i (uLastIter i) uNewI
      { c with error_ := stdMax c.error_ vertError }) c
    let r := reduceRelError p.commMax maxError c.error_
    ({ c with error_ := r.1 }, r.2)

/-- The method `newtonUpdateAbsError_`: the absolute error is the residual of
the model at `uCurrentIter`. -/
def newtonUpdateAbsError_ (m : Model W n numEq) (c : BoxNewtonController) (w : W)
    (uCurrentIter _uLastIter : SolutionVector n numEq) (_deltaU : GlobalEqVector n numEq) :
    BoxNewtonController × W :=
  let r := m.globalResidual uCurrentIter w
  ({ c with absoluteError_ := r.1 }, r.2)

/-- The method `newtonUpdateAbsError`. -/
def newtonUpdateAbsError (m : Model W n numEq) (c : BoxNewtonController) (w : W)
    (uCurrentIter uLastIter : SolutionVector n numEq) (deltaU : GlobalEqVector n numEq) :
    BoxNewtonController × W :=
  if !c.enableAbsoluteCriterion_ then (c, w)
  else if c.useLineSearch_ then (c, w)
  else newtonUpdateAbsError_ m c w uCurrentIter uLastIter deltaU

/-- The loop `while (true)` of `lineSearchUpdate_`, entered with the current
value of `lambda`.  `fuel` bounds the number of passes through the body; the
result is `none` when it is used up before the loop returns.  The text written
to `endIterMsg ()` is not modelled. -/
def lineSearchLoop (m : Model W n numEq) (uLastIter : SolutionVector n numEq)
    (deltaU : GlobalEqVector n numEq) :
    Nat → Scalar → List Scalar → BoxNewtonController → W → SolutionVector n numEq →
      Option (UpdateResult W n numEq)
  | 0, _, _, _, _, _ => none
  | fuel + 1, lambda, trials, c, w, uCurrentIter =>
    let uCurrentIter := forLoop n (fun i u =>
      forLoop numEq (fun j u =>
        setEntry u i j (Scalar.sub (uLastIter i j) (Scalar.mul lambda (deltaU i j)))) u)
      uCurrentIter
    let r := newtonUpdateAbsError_ m c w uCurrentIter uLastIter deltaU
    if Scalar.lt r.1.absoluteError_ r.1.lastAbsoluteError_
        || Scalar.le lambda (Scalar.div (Scalar.fin 1) (Scalar.fin 8)) then
      some { ctl := r.1, world := r.2, uCurrentIter := uCurrentIter, thrown := none,
             trials := trials ++ [lambda] }
    else
      lineSearchLoop m uLastIter deltaU fuel (Scalar.div lambda (Scalar.fin 2))
        (trials ++ [lambda]) r.1 r.2 uCurrentIter

/-- The method `lineSearchUpdate_`: the loop entered with `lambda = 1.0`. -/
def lineSearchUpdate_ (fuel : Nat) (m : Model W n numEq) (c : BoxNewtonController) (w : W)
    (uCurrentIter uLastIter : SolutionVector n numEq) (deltaU : GlobalEqVector n numEq) :
    Option (UpdateResult W n numEq) :=
  lineSearchLoop m uLastIter deltaU fuel (Scalar.fin 1) [] c w uCurrentIter

/-- The tolerance handed to `computeColors` in `newtonUpdate` (lines 226 to
231). -/
def reassembleTol (c : BoxNewtonController) : Scalar :=
  let minReasmTol := Scalar.mul (Scalar.fin 10) c.tolerance_
  let maxReasmTol := Scalar.fin (1 / 10000)
  let reassembleTol := Scalar.mul c.error_ c.error_
  stdMax minReasmTol (stdMin maxReasmTol reassembleTol)

/-- The method `newtonUpdate`.  `fuel` is handed to the line search. -/
def newtonUpdate (fuel : Nat) (m : Model W n numEq) (c : BoxNewtonController) (w : W)
    (uCurrentIter uLastIter : SolutionVector n numEq) (deltaU : GlobalEqVector n numEq) :
    Option (UpdateResult W n numEq) :=
  if !Scalar.isfinite (two_norm2 deltaU) then
    some { ctl := c, world := w, uCurrentIter := uCurrentIter,
           thrown := some Exception.NumericalProblem, trials := [] }
  else
    let w :=
      if c.enablePartialReassemble_ then
        let w := m.jacobianAssembler.updateDiscrepancy uLastIter deltaU w
        m.jacobianAssembler.computeColors (reassembleTol c) w
      else w
    if c.useLineSearch_ then
      lineSearchUpdate_ fuel m c w uCurrentIter uLastIter deltaU
    else
      let uCurrentIter := forLoop n (fun i (u : SolutionVector n numEq) =>
        let u := Function.update u i (uLastIter i)
        Function.update u i (fieldSubAssign (u i) (deltaU i))) uCurrentIter
      some { ctl := c, world := w, uCurrentIter := uCurrentIter, thrown := none,
             trials := [] }

/-- The method `newtonFail`. -/
def newtonFail (p : ParentType) (m : Model W n numEq) (c : BoxNewtonController) (w : W) :
    BoxNewtonController × W :=
  let c := { c with toNewtonController := p.newtonFail c.toNewtonController }
  (c, m.jacobianAssembler.reassembleAll w)

/-- The method `newtonSucceed`. -/
def newtonSucceed (p : ParentType) (m : Model W n numEq) (c : BoxNewtonController) (w : W) :
    BoxNewtonController × W :=
  let c := { c with toNewtonController := p.newtonSucceed c.toNewtonController }
  if c.enableJacobianRecycling_ then (c, m.jacobianAssembler.setMatrixReuseable true w)
  else (c, m.jacobianAssembler.reassembleAll w)

end BoxNewtonController

/-! ## A model which records what it is asked to do -/

/-- One call received by the model or by its Jacobian assembler. -/
inductive Event (n numEq : Nat) where
  | globalResidual (u : SolutionVector n numEq)
  | updateDiscrepancy (uLastIter : SolutionVector n numEq) (deltaU : GlobalEqVector n numEq)
  | computeColors (relTol : Scalar)
  | reassembleAll
  | setMatrixReuseable (yesno : Bool)

/-- The model whose world is the list of the calls received so far, oldest
first.  The value returned by the residual is given by `residual` and may
depend on the calls received before. -/
def recordingModel {n numEq : Nat}
    (relErr : Fin n → PrimaryVariables numEq → PrimaryVariables numEq → Scalar)
    (residual : List (Event n numEq) → SolutionVector n numEq → Scalar) :
    Model (List (Event n numEq)) n numEq where
  relativeErrorVertex := relErr
  globalResidual := fun u w => (residual w u, w ++ [Event.globalResidual u])
  jacobianAssembler :=
    { updateDiscrepancy := fun u d w => w ++ [Event.updateDiscrepancy u d]
      computeColors := fun tol w => w ++ [Event.computeColors tol]
      reassembleAll := fun w => w ++ [Event.reassembleAll]
      setMatrixReuseable := fun b w => w ++ [Event.setMatrixReuseable b] }

/-! ## A model of the state of the assembler -/

/-- Modelled from the spec: the state which the Jacobian assembler, whose code
is not among the embedded sources, keeps between Newton steps and nonlinear
solves: whether the assembled matrix is marked reusable for the next solve, and
the tolerance of the reassembly colouring in force (`none` when everything is
reassembled). -/
structure AssemblerState where
  matrixReuseable : Bool
  coloring : Option Scalar
  deriving DecidableEq

/-- Modelled from the spec: the methods of the Jacobian assembler on
`AssemblerState`.  `reassembleAll` marks the Jacobian for full reassembly and
discards the reusable mark and the colouring; `setMatrixReuseable` sets the
mark; `computeColors` puts a colouring of the given tolerance in force;
`updateDiscrepancy` changes neither. -/
def specAssembler (n numEq : Nat) : JacobianAssembler AssemblerState n numEq where
  updateDiscrepancy := fun _ _ s => s
  computeColors := fun tol s => { s with coloring := some tol }
  reassembleAll := fun _ => { matrixReuseable := false, coloring := none }
  setMatrixReuseable := fun yesno s => { s with matrixReuseable := yesno }

/-- Modelled from the spec: a model whose world is the state of its
assembler. -/
def specModel {n numEq : Nat}
    (relErr : Fin n → PrimaryVariables numEq → PrimaryVariables numEq → Scalar)
    (residual : SolutionVector n numEq → Scalar) : Model AssemblerState n numEq where
  relativeErrorVertex := relErr
  globalResidual := fun u s => (residual u, s)
  jacobianAssembler := specAssembler n numEq

/-! ## Vocabulary of the line search -/

/-- The candidate `uLast - lambda * deltaU`, component by component. -/
def candidate {n numEq : Nat} (uLastIter : SolutionVector n numEq)
    (deltaU : GlobalEqVector n numEq) (lambda : Scalar) : SolutionVector n numEq :=
  fun i j => Scalar.sub (uLastIter i j) (Scalar.mul lambda (deltaU i j))

/-- The sequence of damping factors `1, 1/2, 1/4, 1/8`. -/
def dampingFactors : List Scalar :=
  [Scalar.fin 1, Scalar.fin (1 / 2), Scalar.fin (1 / 4), Scalar.fin (1 / 8)]

/-- The accepted factor as the specification words it: the first factor of
the sequence `1, 1/2, 1/4, 1/8` for which the residual of the candidate is
strictly smaller than the last absolute error, or `1/8` when there is none. -/
def lambdaStar {n numEq : Nat} (residual : SolutionVector n numEq → Scalar)
    (lastAbsoluteError : Scalar) (uLastIter : SolutionVector n numEq)
    (deltaU : GlobalEqVector n numEq) : Scalar :=
  match dampingFactors.find?
      (fun l => Scalar.lt (residual (candidate uLastIter deltaU l)) lastAbsoluteError) with
  | some l => l
  | none => Scalar.fin (1 / 8)

/-- The events by which the recording model answers the evaluation of the
residual at the candidates of the given damping factors. -/
def residualEvents {n numEq : Nat} (uLastIter : SolutionVector n numEq)
    (deltaU : GlobalEqVector n numEq) (trials : List Scalar) : List (Event n numEq) :=
  trials.map (fun l => Event.globalResidual (candidate uLastIter deltaU l))

/-! ## Vocabulary of the relative error -/

/-- The relative deflection of the degree of freedom `i` between the previous
iterate and the candidate next iterate:
`relativeErrorVertex (i, uLastIter[i], uLastIter[i] - deltaU[i])`. -/
def vertexDeflection {W : Type} {n numEq : Nat} (m : Model W n numEq)
    (uLastIter : SolutionVector n numEq) (deltaU : GlobalEqVector n numEq) (i : Fin n) :
    Scalar :=
  m.relativeErrorVertex i (uLastIter i) (fieldSubAssign (uLastIter i) (deltaU i))

/-- The value `e` is the maximum of the values `vals i`, the maximum being
taken from `0`: it is `0` or one of the values, it is not below `0`, and no
value is above it.  A value which is `NaN` compares with nothing and is left
out. -/
def IsMaxFromZero {ι : Type} (vals : ι → Scalar) (e : Scalar) : Prop :=
  (e = Scalar.fin 0 ∨ ∃ i, e = vals i) ∧
  Scalar.le (Scalar.fin 0) e = true ∧
  ∀ i, vals i ≠ Scalar.nan → Scalar.le (vals i) e = true

/-- The statement "`newtonUpdateRelError` stores in `error_` the collective
maximum of the maximum, from `0`, of the deflections of all degrees of
freedom". -/
def RelErrorStored {W : Type} {n numEq : Nat} (p : ParentType) (m : Model W n numEq)
    (maxError : Scalar) (c : BoxNewtonController)
    (uCurrentIter uLastIter : SolutionVector n numEq) (deltaU : GlobalEqVector n numEq) : Prop :=
  ∃ e, IsMaxFromZero (vertexDeflection m uLastIter deltaU) e ∧
    (BoxNewtonController.newtonUpdateRelError p m maxError c uCurrentIter uLastIter deltaU).1.error_
      = p.commMax e

/-- The statement "`newtonUpdateRelError` throws `NumericalProblem` when the
collective maximum of the maximum deflection exceeds `maxError`, and returns
normally when it does not". -/
def RelErrorChecked {W : Type} {n numEq : Nat} (p : ParentType) (m : Model W n numEq)
    (maxError : Scalar) (c : BoxNewtonController)
    (uCurrentIter uLastIter : SolutionVector n numEq) (deltaU : GlobalEqVector n numEq) : Prop :=
  ∃ e, IsMaxFromZero (vertexDeflection m uLastIter deltaU) e ∧
    (BoxNewtonController.newtonUpdateRelError p m maxError c uCurrentIter uLastIter deltaU).2
      = if Scalar.gt (p.commMax e) maxError then some Exception.NumericalProblem else none

/-! ## The collective maximum over the partitions -/

/-- Modelled from the spec: the collective reduction `max` of the
communication context, whose code is not part of the repository.  Every
partition contributes its local value and every partition receives the same
aggregated value, the maximum of the contributions (taken in rank order with
`std::max`).  At least one partition takes part; the value for no partition at
all is never used. -/
def collectiveMax (locals : List Scalar) : Scalar :=
  match locals with
  | [] => Scalar.fin 0
  | e :: es => es.foldl stdMax e

/-- Lines 167 to 174 of `newtonUpdateRelError` run on every partition, the
partition of rank `k` holding the local error `locals[k]` and receiving
`collectiveMax locals` from the collective maximum: the reduced error and the
exception, if any, of every partition. -/
def reduceRelErrorAll (maxError : Scalar) (locals : List Scalar) :
    List (Scalar × Option Exception) :=
  locals.map (fun e =>
    BoxNewtonController.reduceRelError (fun _ => collectiveMax locals) maxError e)

/-! ## The grid as the exchanger sees it -/

/-- The partition type of a grid entity (`Dune::PartitionType`). -/
inductive PartitionType where
  | InteriorEntity
  | BorderEntity
  | OverlapEntity
  | FrontEntity
  | GhostEntity
  deriving DecidableEq

/-- Modelled from the spec: what the mesh substrate tells about a vertex of
the local partition: its partition-type tag, its local index
(`vertexMapper_.map`) and its partition-independent global identifier
(`globalIdSet ().id`). -/
structure Vertex where
  partitionType : PartitionType
  localIdx : Nat
  globalIdx : Nat
  deriving DecidableEq

/-- Modelled from the spec: the grid view of a partition: the vertices in the
order in which the vertex iterator visits them, and the number of partitions
(`comm ().size ()`). -/
structure GridView where
  vertices : List Vertex
  commSize : Nat

/-- The vertices of the grid view which lie on the partition interface. -/
def GridView.borderVertices (gridView : GridView) : List Vertex :=
  gridView.vertices.filter (fun e => e.partitionType = PartitionType.BorderEntity)

/-! ## The registry of border indices -/

/-- The method `insert` of a `std::map` from numbers to numbers: a key which is
present keeps its value. -/
def mapInsert (m : Nat → Option Nat) (key value : Nat) : Nat → Option Nat :=
  fun k =>
    if k = key then
      match m key with
      | some old => some old
      | none => some value
    else m k

/-- The members of the class `Exchanger`; the vertex mapper is part of the
vertices of the grid view. -/
structure Exchanger where
  gridView_ : GridView
  gid2Index_ : Nat → Option Nat
  index2GID_ : Nat → Option Nat
  borderIndices_ : List Nat

/-- The constructor of `Exchanger`: the loop over the vertices of the grid
view. -/
def Exchanger.construct (gridView : GridView) : Exchanger :=
  gridView.vertices.foldl (fun ex vertexIt =>
    if vertexIt.partitionType = PartitionType.BorderEntity then
      { ex with
        gid2Index_ := mapInsert ex.gid2Index_ vertexIt.globalIdx vertexIt.localIdx
        index2GID_ := mapInsert ex.index2GID_ vertexIt.localIdx vertexIt.globalIdx
        borderIndices_ := ex.borderIndices_ ++ [vertexIt.localIdx] }
    else ex)
    { gridView_ := gridView, gid2Index_ := fun _ => none, index2GID_ := fun _ => none,
      borderIndices_ := [] }

/-- The method `borderIndices`. -/
def Exchanger.borderIndices (ex : Exchanger) : List Nat := ex.borderIndices_

/-! ## Block matrices -/

/-- A block of the matrix (`Matrix::block_type`): `numEq` times `numEq`
scalars. -/
abbrev BlockType (numEq : Nat) := Fin numEq → Fin numEq → Scalar

/-- The operator `x += y` of a block. -/
def blockAdd {numEq : Nat} (x y : BlockType numEq) : BlockType numEq :=
  fun r c => Scalar.add (x r c) (y r c)

/-- A row of a compressed block matrix: the stored columns with their blocks,
in the order of the column iterator. -/
abbrev MatrixRow (numEq : Nat) := List (Nat × BlockType numEq)

/-- A compressed block matrix: its rows by row index. -/
abbrev Matrix (numEq : Nat) := Nat → MatrixRow numEq

/-- The block stored in a row at column `j`, if the column is stored. -/
def rowEntry {numEq : Nat} : MatrixRow numEq → Nat → Option (BlockType numEq)
  | [], _ => none
  | (c, v) :: rest, j => if c = j then some v else rowEntry rest j

/-- The statement `row[j] += x`.  A row has no block for a column which is not
stored: the access fails (with `ISTLError` in the matrix library) and the
result is `none`. -/
def rowAddAt {numEq : Nat} :
    MatrixRow numEq → Nat → BlockType numEq → Option (MatrixRow numEq)
  | [], _, _ => none
  | (c, v) :: rest, j, x =>
    if c = j then some ((c, blockAdd v x) :: rest)
    else (rowAddAt rest j x).map (fun rest' => (c, v) :: rest')

/-- The errors raised by the matrix and solver library: an access to a column
which a row does not store, and a breakdown of an iterative solver. -/
inductive ISTLError where
  | indexNotInCompressedArray
  | breakdown
  deriving DecidableEq

/-- The struct `MatEntry`: a global identifier and a block. -/
structure MatEntry (numEq : Nat) where
  first : Nat
  second : BlockType numEq

/-- The matrix while it is being written to, and the error if one was
raised. -/
structure ExchangeState (numEq : Nat) where
  A_ : Matrix numEq
  thrown : Option ISTLError

namespace MatEntryExchange

variable {numEq : Nat}

/-- The method `size`: the number of stored columns of the row of `e` which are
keys of `index2GID_`. -/
def size (ex : Exchanger) (A_ : Matrix numEq) (e : Vertex) : Nat :=
  let i := e.localIdx
  (A_ i).foldl (fun n j => if (ex.index2GID_ j.1).isSome then n + 1 else n) 0

/-- The method `gather`: the entries written to the message buffer, in
order. -/
def gather (ex : Exchanger) (A_ : Matrix numEq) (e : Vertex) : List (MatEntry numEq) :=
  let i := e.localIdx
  (A_ i).foldl (fun buff j =>
    match ex.index2GID_ j.1 with
    | some gid => buff ++ [{ first := gid, second := j.2 }]
    | none => buff) []

/-- One pass through the loop of `scatter` for the row `i` and the entry `m`
read from the buffer.  After an error nothing more is done. -/
def scatterEntry (ex : Exchanger) (i : Nat) (st : ExchangeState numEq) (m : MatEntry numEq) :
    ExchangeState numEq :=
  match st.thrown with
  | some _ => st
  | none =>
    match ex.gid2Index_ m.first with
    | none => st
    | some j =>
      match rowAddAt (st.A_ i) j m.second with
      | some row => { st with A_ := Function.update st.A_ i row }
      | none => { st with thrown := some ISTLError.indexNotInCompressedArray }

/-- The method `scatter`: `n` entries are read from the buffer. -/
def scatter (ex : Exchanger) (st : ExchangeState numEq) (buff : List (MatEntry numEq))
    (e : Vertex) (n : Nat) : ExchangeState numEq :=
  let i := e.localIdx
  (buff.take n).foldl (scatterEntry ex i) st

end MatEntryExchange

/-! ## Communication over the partition interface -/

/-- Modelled from the spec: the buffers which `communicate` gathers on a
partition, one for every entity of the interior/border interface (the border
vertices), each labelled with the global identifier of its entity.  All
buffers are gathered before anything is scattered. -/
def gatherAll {β : Type} (gridView : GridView) (gather : Vertex → List β) :
    List (Nat × List β) :=
  gridView.borderVertices.map (fun e => (e.globalIdx, gather e))

/-- Modelled from the spec: the receiving side of `communicate` with forward
communication over the interior/border interface, on one partition: every
buffer received from another partition is handed to `scatter` at the local
border vertex which has the global identifier of the buffer, with the number of
entries the sender wrote. -/
def communicate {σ β : Type} (gridView : GridView)
    (scatter : σ → List β → Vertex → Nat → σ) (st : σ) (received : List (Nat × List β)) : σ :=
  received.foldl (fun st msg =>
    (gridView.borderVertices.filter (fun e => e.globalIdx = msg.1)).foldl
      (fun st e => scatter st msg.2 e msg.2.length) st) st

/-- The method `sumEntries`; `received` is what the other partitions
gathered. -/
def Exchanger.sumEntries {numEq : Nat} (ex : Exchanger)
    (received : List (Nat × List (MatEntry numEq))) (A : Matrix numEq) : ExchangeState numEq :=
  if ex.gridView_.commSize > 1 then
    communicate ex.gridView_ (MatEntryExchange.scatter ex) { A_ := A, thrown := none } received
  else { A_ := A, thrown := none }

/-- Modelled from the spec: one pass of `sumEntries` on two partitions with
the grid views `gvP` and `gvQ` and the matrices `AP` and `AQ`: each partition
receives what the other gathered from its matrix as it was before the pass. -/
def sumEntriesPair {numEq : Nat} (gvP gvQ : GridView) (AP AQ : Matrix numEq) :
    ExchangeState numEq × ExchangeState numEq :=
  let exP := Exchanger.construct gvP
  let exQ := Exchanger.construct gvQ
  (exP.sumEntries (gatherAll gvQ (MatEntryExchange.gather exQ AQ)) AP,
   exQ.sumEntries (gatherAll gvP (MatEntryExchange.gather exP AP)) AQ)

/-- One write request: the row and the entry read from the buffer. -/
def scatterRequest {numEq : Nat} (ex : Exchanger) (st : ExchangeState numEq)
    (req : Nat × MatEntry numEq) : ExchangeState numEq :=
  MatEntryExchange.scatterEntry ex req.1 st req.2

/-- The write requests which `communicate` makes of the scatter loop for the
received buffers, in order. -/
def scatterRequests {β : Type} (gridView : GridView) (received : List (Nat × List β)) :
    List (Nat × β) :=
  received.flatMap (fun msg =>
    (gridView.borderVertices.filter (fun e => e.globalIdx = msg.1)).flatMap
      (fun e => msg.2.map (fun m => (e.localIdx, m))))

/-- The blocks which the write requests add to the entry of row `i` and column
`j`, in order. -/
def contributions {numEq : Nat} (ex : Exchanger) (reqs : List (Nat × MatEntry numEq))
    (i j : Nat) : List (BlockType numEq) :=
  reqs.filterMap (fun req =>
    if req.1 = i ∧ ex.gid2Index_ req.2.first = some j then some req.2.second else none)

/-- The vertex mapper and the global identifiers are injective on the vertices
of the grid view, each of which the enumeration visits once. -/
def GridView.Injective (gridView : GridView) : Prop :=
  (gridView.vertices.map Vertex.localIdx).Nodup ∧
  (gridView.vertices.map Vertex.globalIdx).Nodup

/-- A border entry shared by two partitions: the row vertex `eP` and the column
vertex `cP` of the one partition are border vertices, and so are `eQ` and `cQ`
of the other; `eP` and `eQ` are the same vertex of the mesh (they have the same
global identifier), and so are `cP` and `cQ`. -/
def SharedEntry (gvP gvQ : GridView) (eP cP eQ cQ : Vertex) : Prop :=
  eP ∈ gvP.borderVertices ∧ cP ∈ gvP.borderVertices ∧
  eQ ∈ gvQ.borderVertices ∧ cQ ∈ gvQ.borderVertices ∧
  eP.globalIdx = eQ.globalIdx ∧ cP.globalIdx = cQ.globalIdx

/-- A block of one scalar. -/
def constBlock (q : ℚ) : BlockType 1 := fun _ _ => Scalar.fin q

/-- Two partitions of a mesh which share the vertices with the global
identifiers `10` and `11`. -/
def sampleGridP : GridView where
  vertices := [⟨PartitionType.InteriorEntity, 0, 100⟩, ⟨PartitionType.BorderEntity, 1, 10⟩,
    ⟨PartitionType.BorderEntity, 2, 11⟩]
  commSize := 2

/-- The second partition; its local indices of the shared vertices differ from
those of the first. -/
def sampleGridQ : GridView where
  vertices := [⟨PartitionType.BorderEntity, 0, 11⟩, ⟨PartitionType.BorderEntity, 1, 10⟩,
    ⟨PartitionType.InteriorEntity, 2, 200⟩]
  commSize := 2

/-- The matrix assembled on the first partition; the entry of the row and the
column of the vertex `10` is `3`. -/
def sampleMatrixP : Matrix 1 := fun i =>
  match i with
  | 0 => [(0, constBlock 1), (1, constBlock 1)]
  | 1 => [(0, constBlock 1), (1, constBlock 3), (2, constBlock 5)]
  | 2 => [(1, constBlock 5), (2, constBlock 6)]
  | _ => []

/-- The matrix assembled on the second partition; the entry of the row and the
column of the vertex `10` is `4`. -/
def sampleMatrixQ : Matrix 1 := fun i =>
  match i with
  | 0 => [(0, constBlock 6), (1, constBlock 5)]
  | 1 => [(0, constBlock 5), (1, constBlock 4), (2, constBlock 1)]
  | 2 => [(1, constBlock 1), (2, constBlock 1)]
  | _ => []

/-- A grid view of a run on a single partition. -/
def sampleGridSerial : GridView where
  vertices := [⟨PartitionType.InteriorEntity, 0, 100⟩, ⟨PartitionType.BorderEntity, 1, 10⟩,
    ⟨PartitionType.BorderEntity, 2, 11⟩]
  commSize := 1

/-! ## The wrapped preconditioner -/

/-- A block vector of the linear solver (`domain_type`, `range_type`): its
blocks by index. -/
abbrev BlockVector (numEq : Nat) := Nat → PrimaryVariables numEq

/-- The operator `x += y` of a block of a vector. -/
def fieldAddAssign {numEq : Nat} (x y : PrimaryVariables numEq) : PrimaryVariables numEq :=
  fun j => Scalar.add (x j) (y j)

/-- The operator `x *= s` of a block of a vector. -/
def fieldScaleAssign {numEq : Nat} (x : PrimaryVariables numEq) (s : Scalar) :
    PrimaryVariables numEq :=
  fun j => Scalar.mul (x j) s

/-- Modelled from the spec: `set_constrained_dofs (cc, x, dd)` puts the value
`x` at every degree of freedom which is externally constrained; `cc k j` tells
whether the component `j` of the block `k` is constrained. -/
def set_constrained_dofs {numEq : Nat} (cc : Nat → Fin numEq → Bool) (x : Scalar)
    (dd : BlockVector numEq) : BlockVector numEq :=
  fun k j => if cc k j then x else dd k j

/-- The sequential preconditioner `P` which is wrapped: `apply (v, d)` gives the
new value of `v`.  Its code is not part of the repository; it is a
parameter. -/
structure SeqPreconditioner (numEq : Nat) where
  apply : BlockVector numEq → BlockVector numEq → BlockVector numEq

namespace AddDataHandle

variable {numEq : Nat}

/-- Modelled from the spec: the method `gather` of the data handle which adds:
the block of the vector at the vertex is written to the buffer. -/
def gather (v : BlockVector numEq) (e : Vertex) : List (PrimaryVariables numEq) :=
  [v e.localIdx]

/-- Modelled from the spec: the method `scatter` of the data handle which adds:
every block read from the buffer is added to the block of the vector at the
vertex. -/
def scatter (v : BlockVector numEq) (buff : List (PrimaryVariables numEq)) (e : Vertex)
    (n : Nat) : BlockVector numEq :=
  (buff.take n).foldl
    (fun v x => Function.update v e.localIdx (fieldAddAssign (v e.localIdx) x)) v

end AddDataHandle

/-- The members of `NonoverlappingWrappedPreconditioner`; `gfs` stands for the
grid view of the grid function space. -/
structure NonoverlappingWrappedPreconditioner (numEq : Nat) where
  gfs : GridView
  prec : SeqPreconditioner numEq
  cc : Nat → Fin numEq → Bool
  borderIndices_ : List Nat

/-- The two arguments of `apply` after the call. -/
structure ApplyResult (numEq : Nat) where
  v : BlockVector numEq
  d : BlockVector numEq

/-- The method `apply` of the wrapped preconditioner; `received` is what the
other partitions gathered from their local corrections. -/
def NonoverlappingWrappedPreconditioner.apply {numEq : Nat}
    (self : NonoverlappingWrappedPreconditioner numEq)
    (received : List (Nat × List (PrimaryVariables numEq)))
    (v d : BlockVector numEq) : ApplyResult numEq :=
  let dd := d
  let dd := set_constrained_dofs self.cc (Scalar.fin 0) dd
  let v := self.prec.apply v dd
  let v :=
    if self.gfs.commSize > 1 then communicate self.gfs AddDataHandle.scatter v received
    else v
  let v := self.borderIndices_.foldl
    (fun v k => Function.update v k (fieldScaleAssign (v k) (Scalar.fin (1 / 2)))) v
  { v := v, d := d }

/-- Modelled from the spec: `apply` on two partitions `P` and `Q`: each
receives what the other gathered from its local correction, the result of its
sequential preconditioner. -/
def applyPair {numEq : Nat} (precP precQ : NonoverlappingWrappedPreconditioner numEq)
    (vP dP vQ dQ : BlockVector numEq) : ApplyResult numEq × ApplyResult numEq :=
  let wP := precP.prec.apply vP (set_constrained_dofs precP.cc (Scalar.fin 0) dP)
  let wQ := precQ.prec.apply vQ (set_constrained_dofs precQ.cc (Scalar.fin 0) dQ)
  (precP.apply (gatherAll precQ.gfs (AddDataHandle.gather wQ)) vP dP,
   precQ.apply (gatherAll precP.gfs (AddDataHandle.gather wP)) vQ dQ)

/-! ## The linear solver backends -/

/-- The statistics of an iterative solver (`Dune::InverseOperatorResult`). -/
structure InverseOperatorResult where
  iterations : Nat
  reduction : Scalar
  converged : Bool
  conv_rate : Scalar
  elapsed : Scalar

/-- The result kept by a backend (`Dune::PDELab::LinearSolverResult`). -/
structure LinearSolverResult where
  converged : Bool
  iterations : Nat
  elapsed : Scalar
  reduction : Scalar

/-- How a call of the Krylov solver ends: it returns the new `z` and `r` and its
statistics, or it raises an error. -/
inductive SolverOutcome (numEq : Nat) where
  | returned (z r : BlockVector numEq) (stat : InverseOperatorResult)
  | threw (e : ISTLError)

/-- The classes of the solver library which the backends use; their code is
not part of the repository, they are parameters.  `seqILU0 B w` and
`seqPardiso B` build a sequential preconditioner from a matrix;
`biCGSTAB A parPreCond reduction maxiter verb z r` stands for the construction
of the operator over the matrix `A`, of the scalar product and of the solver,
followed by `solver.apply (z, r, stat)`. -/
structure SolverLibrary (numEq : Nat) where
  seqILU0 : Matrix numEq → Scalar → SeqPreconditioner numEq
  seqPardiso : Matrix numEq → SeqPreconditioner numEq
  biCGSTAB : Matrix numEq → NonoverlappingWrappedPreconditioner numEq → Scalar → Nat → Int →
    BlockVector numEq → BlockVector numEq → SolverOutcome numEq

/-- The members of the classes `ISTLBackend_NoOverlap_BCGS_ILU` and
`ISTLBackend_NoOverlap_Loop_Pardiso`, which are the same; `gfs` stands for the
grid view of the grid function space and `rank` for the rank of the
partition. -/
structure ISTLBackend (numEq : Nat) where
  gfs : GridView
  rank : Nat
  res : LinearSolverResult
  maxiter : Nat
  verbose : Int
  constraintsTrafo_ : Nat → Fin numEq → Bool
  exchanger_ : Exchanger

/-- What a call of `apply` of a backend leaves behind: the backend, the three
arguments passed by reference, the local copy `B` of the matrix, and the error
if one was raised. -/
structure BackendResult (numEq : Nat) where
  self : ISTLBackend numEq
  A : Matrix numEq
  z : BlockVector numEq
  r : BlockVector numEq
  B : Matrix numEq
  thrown : Option ISTLError

/-- The body shared by the method `apply` of the two backends, which differ in
the sequential preconditioner built from `B`. -/
def ISTLBackend.applyWith {numEq : Nat} (lib : SolverLibrary numEq)
    (seqPreCondOf : Matrix numEq → SeqPreconditioner numEq) (self : ISTLBackend numEq)
    (received : List (Nat × List (MatEntry numEq)))
    (A : Matrix numEq) (z r : BlockVector numEq) (reduction : Scalar) : BackendResult numEq :=
  let B := A
  let st := self.exchanger_.sumEntries received B
  let B := st.A_
  match st.thrown with
  | some e => { self := self, A := A, z := z, r := r, B := B, thrown := some e }
  | none =>
    let seqPreCond := seqPreCondOf B
    let parPreCond : NonoverlappingWrappedPreconditioner numEq :=
      { gfs := self.gfs, prec := seqPreCond, cc := self.constraintsTrafo_,
        borderIndices_ := self.exchanger_.borderIndices }
    let verb : Int := if self.rank = 0 then self.verbose else 0
    match lib.biCGSTAB A parPreCond reduction self.maxiter verb z r with
    | SolverOutcome.threw e => { self := self, A := A, z := z, r := r, B := B, thrown := some e }
    | SolverOutcome.returned z r stat =>
      { self := { self with res :=
          { converged := stat.converged, iterations := stat.iterations,
            elapsed := stat.elapsed, reduction := stat.reduction } },
        A := A, z := z, r := r, B := B, thrown := none }

/-- The method `ISTLBackend_NoOverlap_BCGS_ILU::apply`. -/
def ISTLBackend_NoOverlap_BCGS_ILU.apply {numEq : Nat} (lib : SolverLibrary numEq)
    (self : ISTLBackend numEq) (received : List (Nat × List (MatEntry numEq)))
    (A : Matrix numEq) (z r : BlockVector numEq) (reduction : Scalar) : BackendResult numEq :=
  self.applyWith lib (fun B => lib.seqILU0 B (Scalar.fin (9 / 10))) received A z r reduction

/-- The method `ISTLBackend_NoOverlap_BCGS_ILU::result`. -/
def ISTLBackend_NoOverlap_BCGS_ILU.result {numEq : Nat} (self : ISTLBackend numEq) :
    LinearSolverResult := self.res

/-- The method `ISTLBackend_NoOverlap_Loop_Pardiso::apply`. -/
def ISTLBackend_NoOverlap_Loop_Pardiso.apply {numEq : Nat} (lib : SolverLibrary numEq)
    (self : ISTLBackend numEq) (received : List (Nat × List (MatEntry numEq)))
    (A : Matrix numEq) (z r : BlockVector numEq) (reduction : Scalar) : BackendResult numEq :=
  self.applyWith lib (fun B => lib.seqPardiso B) received A z r reduction

/-- The method `ISTLBackend_NoOverlap_Loop_Pardiso::result`. -/
def ISTLBackend_NoOverlap_Loop_Pardiso.result {numEq : Nat} (self : ISTLBackend numEq) :
    LinearSolverResult := self.res

/-- The copy `dd` of the residual `d` in which every constrained degree of
freedom is set to `0`. -/
def NonoverlappingWrappedPreconditioner.constrainedResidual {numEq : Nat}
    (self : NonoverlappingWrappedPreconditioner numEq) (d : BlockVector numEq) :
    BlockVector numEq :=
  set_constrained_dofs self.cc (Scalar.fin 0) d

/-- The local correction `w`: the result of the wrapped sequential
preconditioner applied to `dd`. -/
def NonoverlappingWrappedPreconditioner.localCorrection {numEq : Nat}
    (self : NonoverlappingWrappedPreconditioner numEq) (v d : BlockVector numEq) :
    BlockVector numEq :=
  self.prec.apply v (self.constrainedResidual d)

/-- The vector `s`: the local correction synchronised additively over the
interior/border interface with what the other partitions sent; the local
correction itself when there is a single partition. -/
def NonoverlappingWrappedPreconditioner.synchronised {numEq : Nat}
    (self : NonoverlappingWrappedPreconditioner numEq)
    (received : List (Nat × List (PrimaryVariables numEq)))
    (v d : BlockVector numEq) : BlockVector numEq :=
  if self.gfs.commSize > 1 then
    communicate self.gfs AddDataHandle.scatter (self.localCorrection v d) received
  else self.localCorrection v d

/-- A wrapped preconditioner on the partition `sampleGridP` whose sequential
preconditioner returns the residual it is given, with the block `0`
constrained and the border indices of the exchanger. -/
def samplePreconditioner : NonoverlappingWrappedPreconditioner 1 where
  gfs := sampleGridP
  prec := { apply := fun _ dd => dd }
  cc := fun k _ => k == 0
  borderIndices_ := (Exchanger.construct sampleGridP).borderIndices

/-- The residual with the blocks `1, 2, 3`. -/
def sampleResidual : BlockVector 1 := fun k _ =>
  match k with
  | 0 => Scalar.fin 1
  | 1 => Scalar.fin 2
  | _ => Scalar.fin 3

/-- A wrapped preconditioner on the partition `sampleGridQ` whose sequential
preconditioner returns the residual it is given, without constraints. -/
def samplePreconditionerQ : NonoverlappingWrappedPreconditioner 1 where
  gfs := sampleGridQ
  prec := { apply := fun _ dd => dd }
  cc := fun _ _ => false
  borderIndices_ := (Exchanger.construct sampleGridQ).borderIndices

/-- A vector all of whose blocks are `q`. -/
def constVector (q : ℚ) : BlockVector 1 := fun _ _ => Scalar.fin q

/-- The parallel preconditioner which `apply` of a backend builds from the
sequential preconditioner `seqPreCond`. -/
def ISTLBackend.parPreCond {numEq : Nat} (self : ISTLBackend numEq)
    (seqPreCond : SeqPreconditioner numEq) : NonoverlappingWrappedPreconditioner numEq :=
  { gfs := self.gfs, prec := seqPreCond, cc := self.constraintsTrafo_,
    borderIndices_ := self.exchanger_.borderIndices }

/-- The verbosity which `apply` of a backend hands to the solver. -/
def ISTLBackend.verb {numEq : Nat} (self : ISTLBackend numEq) : Int :=
  if self.rank = 0 then self.verbose else 0

/-- A solver library whose sequential preconditioners return the residual they
are given and whose Krylov loop stops at the iteration cap without having
converged. -/
def sampleLibrary : SolverLibrary 1 where
  seqILU0 := fun _ _ => { apply := fun _ dd => dd }
  seqPardiso := fun _ => { apply := fun _ dd => dd }
  biCGSTAB := fun _ _ reduction maxiter _ z r =>
    SolverOutcome.returned z r
      { iterations := maxiter, reduction := reduction, converged := false,
        conv_rate := Scalar.fin 1, elapsed := Scalar.fin 2 }

/-- A backend on the partition `sampleGridP` with an iteration cap of `5000`. -/
def sampleBackend : ISTLBackend 1 where
  gfs := sampleGridP
  rank := 0
  res := { converged := true, iterations := 0, elapsed := Scalar.fin 0,
           reduction := Scalar.fin 0 }
  maxiter := 5000
  verbose := 1
  constraintsTrafo_ := fun _ _ => false
  exchanger_ := Exchanger.construct sampleGridP

/-! ## The indices of the one-phase black-oil model -/

/-- The conversion of an `int` to `unsigned`: the value modulo `2^32`.  Values
of type `unsigned` are integers from `0` to `2^32 - 1`. -/
def toUnsigned (x : Int) : Int := x % 4294967296

/-- The conversion of an `unsigned` to `int`: the values from `2^31` on are the
negative numbers. -/
def toInt (u : Int) : Int := if u < 2147483648 then u else u - 4294967296

/-- The sum of two `unsigned` values, which is taken modulo `2^32`. -/
def unsignedAdd (a b : Int) : Int := (a + b) % 4294967296

/-- The template parameters of `Opm::BlackOilOnePhaseIndices`
(`opm/models/blackoil/blackoilonephaseindices.hh`).  The parameters of type
`unsigned` are natural numbers; the language admits the values below `2^32`. -/
structure BlackOilOnePhaseIndices where
  numSolventsV : Nat
  numExtbosV : Nat
  numPolymersV : Nat
  numEnergyV : Nat
  enableFoam : Bool
  enableBrine : Bool
  PVOffset : Nat
  canonicalCompIdx : Nat
  numMICPsV : Nat
  deriving DecidableEq

/-- The template parameters are values of the type `unsigned`. -/
def BlackOilOnePhaseIndices.IsUnsigned (t : BlackOilOnePhaseIndices) : Prop :=
  t.numSolventsV < 4294967296 ∧ t.numExtbosV < 4294967296 ∧ t.numPolymersV < 4294967296 ∧
  t.numEnergyV < 4294967296 ∧ t.PVOffset < 4294967296 ∧ t.canonicalCompIdx < 4294967296 ∧
  t.numMICPsV < 4294967296

/-- The constant `oilEnabled`. -/
def BlackOilOnePhaseIndices.oilEnabled (t : BlackOilOnePhaseIndices) : Bool :=
  decide (t.canonicalCompIdx = 0)

/-- The constant `waterEnabled`. -/
def BlackOilOnePhaseIndices.waterEnabled (t : BlackOilOnePhaseIndices) : Bool :=
  decide (t.canonicalCompIdx = 1)

/-- The constant `gasEnabled`. -/
def BlackOilOnePhaseIndices.gasEnabled (t : BlackOilOnePhaseIndices) : Bool :=
  decide (t.canonicalCompIdx = 2)

/-- The constant `enableSolvent`. -/
def BlackOilOnePhaseIndices.enableSolvent (t : BlackOilOnePhaseIndices) : Bool :=
  decide (t.numSolventsV > 0)

/-- The constant `enableExtbo`. -/
def BlackOilOnePhaseIndices.enableExtbo (t : BlackOilOnePhaseIndices) : Bool :=
  decide (t.numExtbosV > 0)

/-- The constant `enablePolymer`. -/
def BlackOilOnePhaseIndices.enablePolymer (t : BlackOilOnePhaseIndices) : Bool :=
  decide (t.numPolymersV > 0)

/-- The constant `enableEnergy`. -/
def BlackOilOnePhaseIndices.enableEnergy (t : BlackOilOnePhaseIndices) : Bool :=
  decide (t.numEnergyV > 0)

/-- The constant `enableMICP`. -/
def BlackOilOnePhaseIndices.enableMICP (t : BlackOilOnePhaseIndices) : Bool :=
  decide (t.numMICPsV > 0)

/-- The constant `numSolvents = enableSolvent ? numSolventsV : 0`: the
conditional has the type `unsigned` and initialises an `int`. -/
def BlackOilOnePhaseIndices.numSolvents (t : BlackOilOnePhaseIndices) : Int :=
  toInt (if t.enableSolvent then (t.numSolventsV : Int) else toUnsigned 0)

/-- The constant `numExtbos`. -/
def BlackOilOnePhaseIndices.numExtbos (t : BlackOilOnePhaseIndices) : Int :=
  toInt (if t.enableExtbo then (t.numExtbosV : Int) else toUnsigned 0)

/-- The constant `numPolymers`. -/
def BlackOilOnePhaseIndices.numPolymers (t : BlackOilOnePhaseIndices) : Int :=
  toInt (if t.enablePolymer then (t.numPolymersV : Int) else toUnsigned 0)

/-- The constant `numEnergy`. -/
def BlackOilOnePhaseIndices.numEnergy (t : BlackOilOnePhaseIndices) : Int :=
  toInt (if t.enableEnergy then (t.numEnergyV : Int) else toUnsigned 0)

/-- The constant `numFoam`. -/
def BlackOilOnePhaseIndices.numFoam (t : BlackOilOnePhaseIndices) : Int :=
  if t.enableFoam then 1 else 0

/-- The constant `numBrine`. -/
def BlackOilOnePhaseIndices.numBrine (t : BlackOilOnePhaseIndices) : Int :=
  if t.enableBrine then 1 else 0

/-- The constant `numPhases`. -/
def BlackOilOnePhaseIndices.numPhases (_t : BlackOilOnePhaseIndices) : Int := 1

/-- The constant `numMICPs`. -/
def BlackOilOnePhaseIndices.numMICPs (t : BlackOilOnePhaseIndices) : Int :=
  toInt (if t.enableMICP then (t.numMICPsV : Int) else toUnsigned 0)

/-- The constant `numEq`, a sum of values of type `int`.  A sum outside the
range of `int` is no constant expression, so the class does not compile; the
sum is the exact one. -/
def BlackOilOnePhaseIndices.numEq (t : BlackOilOnePhaseIndices) : Int :=
  t.numPhases + t.numSolvents + t.numExtbos + t.numPolymers + t.numEnergy + t.numFoam
    + t.numBrine + t.numMICPs

/-- The constant `waterSwitchIdx`. -/
def BlackOilOnePhaseIndices.waterSwitchIdx (_t : BlackOilOnePhaseIndices) : Int := -10000

/-- The constant `pressureSwitchIdx = PVOffset + 0`: a sum of type `unsigned`
which initialises an `int`. -/
def BlackOilOnePhaseIndices.pressureSwitchIdx (t : BlackOilOnePhaseIndices) : Int :=
  toInt (unsignedAdd t.PVOffset (toUnsigned 0))

/-- The constant `compositionSwitchIdx`. -/
def BlackOilOnePhaseIndices.compositionSwitchIdx (_t : BlackOilOnePhaseIndices) : Int := -10000

/-- The sum `PVOffset + numPhases + numSolvents`, of type `unsigned`, at which
three of the indices start. -/
def BlackOilOnePhaseIndices.afterSolvents (t : BlackOilOnePhaseIndices) : Int :=
  unsignedAdd (unsignedAdd t.PVOffset (toUnsigned t.numPhases)) (toUnsigned t.numSolvents)

/-- The constant `solventSaturationIdx`; in the conditional `-1000` is
converted to `unsigned`. -/
def BlackOilOnePhaseIndices.solventSaturationIdx (t : BlackOilOnePhaseIndices) : Int :=
  toInt (if t.enableSolvent then unsignedAdd t.PVOffset (toUnsigned t.numPhases)
    else toUnsigned (-1000))

/-- The constant `zFractionIdx`. -/
def BlackOilOnePhaseIndices.zFractionIdx (t : BlackOilOnePhaseIndices) : Int :=
  toInt (if t.enableExtbo then t.afterSolvents else toUnsigned (-1000))

/-- The constant `polymerConcentrationIdx`. -/
def BlackOilOnePhaseIndices.polymerConcentrationIdx (t : BlackOilOnePhaseIndices) : Int :=
  toInt (if t.enablePolymer then t.afterSolvents else toUnsigned (-1000))

/-- The constant `polymerMoleWeightIdx`, computed in `int`. -/
def BlackOilOnePhaseIndices.polymerMoleWeightIdx (t : BlackOilOnePhaseIndices) : Int :=
  if t.numPolymers > 1 then t.polymerConcentrationIdx + 1 else -1000

/-- The constant `microbialConcentrationIdx`. -/
def BlackOilOnePhaseIndices.microbialConcentrationIdx (t : BlackOilOnePhaseIndices) : Int :=
  toInt (if t.enableMICP then t.afterSolvents else toUnsigned (-1000))

/-- The constant `oxygenConcentrationIdx`. -/
def BlackOilOnePhaseIndices.oxygenConcentrationIdx (t : BlackOilOnePhaseIndices) : Int :=
  if t.numMICPs > 1 then t.microbialConcentrationIdx + 1 else -1000

/-- The constant `ureaConcentrationIdx`. -/
def BlackOilOnePhaseIndices.ureaConcentrationIdx (t : BlackOilOnePhaseIndices) : Int :=
  if t.numMICPs > 2 then t.oxygenConcentrationIdx + 1 else -1000

/-- The constant `biofilmConcentrationIdx`. -/
def BlackOilOnePhaseIndices.biofilmConcentrationIdx (t : BlackOilOnePhaseIndices) : Int :=
  if t.numMICPs > 3 then t.ureaConcentrationIdx + 1 else -1000

/-- The constant `calciteConcentrationIdx`. -/
def BlackOilOnePhaseIndices.calciteConcentrationIdx (t : BlackOilOnePhaseIndices) : Int :=
  if t.numMICPs > 4 then t.biofilmConcentrationIdx + 1 else -1000

/-- The constant `foamConcentrationIdx`: the sum
`PVOffset + numPhases + numSolvents + numPolymers + numMICPs`. -/
def BlackOilOnePhaseIndices.foamConcentrationIdx (t : BlackOilOnePhaseIndices) : Int :=
  toInt (if t.enableFoam then
      unsignedAdd (unsignedAdd t.afterSolvents (toUnsigned t.numPolymers))
        (toUnsigned t.numMICPs)
    else toUnsigned (-1000))

/-- The constant `saltConcentrationIdx`: the sum
`PVOffset + numPhases + numSolvents + numExtbos + numPolymers + numMICPs + numFoam`. -/
def BlackOilOnePhaseIndices.saltConcentrationIdx (t : BlackOilOnePhaseIndices) : Int :=
  toInt (if t.enableBrine then
      unsignedAdd (unsignedAdd (unsignedAdd (unsignedAdd t.afterSolvents
        (toUnsigned t.numExtbos)) (toUnsigned t.numPolymers)) (toUnsigned t.numMICPs))
        (toUnsigned t.numFoam)
    else toUnsigned (-1000))

/-- The constant `temperatureIdx`: the sum of `saltConcentrationIdx` and
`numBrine`. -/
def BlackOilOnePhaseIndices.temperatureIdx (t : BlackOilOnePhaseIndices) : Int :=
  toInt (if t.enableEnergy then
      unsignedAdd (unsignedAdd (unsignedAdd (unsignedAdd (unsignedAdd t.afterSolvents
        (toUnsigned t.numExtbos)) (toUnsigned t.numPolymers)) (toUnsigned t.numMICPs))
        (toUnsigned t.numFoam)) (toUnsigned t.numBrine)
    else toUnsigned (-1000))

/-- The function `canonicalToActiveComponentIndex`. -/
def BlackOilOnePhaseIndices.canonicalToActiveComponentIndex (_t : BlackOilOnePhaseIndices)
    (_compIdx : Nat) : Nat := 0

/-- The function `activeToCanonicalComponentIndex`; the result is `none` when
one of its two assertions fails. -/
def BlackOilOnePhaseIndices.activeToCanonicalComponentIndex (t : BlackOilOnePhaseIndices)
    (compIdx : Nat) : Option Nat :=
  if compIdx ≠ 0 then none
  else if t.gasEnabled then some 2
  else if t.waterEnabled then some 1
  else if !t.oilEnabled then none
  else some 0

/-- The quantities which have a primary variable of their own: for each the
condition under which the class gives it an index, and the index. -/
def BlackOilOnePhaseIndices.quantities (t : BlackOilOnePhaseIndices) : List (Bool × Int) :=
  [(true, t.pressureSwitchIdx),
   (t.enableSolvent, t.solventSaturationIdx),
   (t.enableExtbo, t.zFractionIdx),
   (t.enablePolymer, t.polymerConcentrationIdx),
   (decide (t.numPolymers > 1), t.polymerMoleWeightIdx),
   (t.enableMICP, t.microbialConcentrationIdx),
   (decide (t.numMICPs > 1), t.oxygenConcentrationIdx),
   (decide (t.numMICPs > 2), t.ureaConcentrationIdx),
   (decide (t.numMICPs > 3), t.biofilmConcentrationIdx),
   (decide (t.numMICPs > 4), t.calciteConcentrationIdx),
   (t.enableFoam, t.foamConcentrationIdx),
   (t.enableBrine, t.saltConcentrationIdx),
   (t.enableEnergy, t.temperatureIdx)]

/-- The indices of the enabled quantities. -/
def BlackOilOnePhaseIndices.enabledIndices (t : BlackOilOnePhaseIndices) : List Int :=
  (t.quantities.filter (fun q => q.1)).map (fun q => q.2)

/-- The indices of the disabled quantities. -/
def BlackOilOnePhaseIndices.disabledIndices (t : BlackOilOnePhaseIndices) : List Int :=
  (t.quantities.filter (fun q => !q.1)).map (fun q => q.2)

/-- The statement "the indices of the enabled quantities are pairwise distinct
and lie in the range from `PVOffset` to `PVOffset + numEq` (excluded), and the
index of every disabled quantity is negative". -/
def BlackOilOnePhaseIndices.IndicesSeparate (t : BlackOilOnePhaseIndices) : Prop :=
  t.enabledIndices.Nodup ∧
  (∀ x ∈ t.enabledIndices, (t.PVOffset : Int) ≤ x ∧ x < (t.PVOffset : Int) + t.numEq) ∧
  (∀ x ∈ t.disabledIndices, x < 0)

/-- The one-phase oil model without any extension. -/
def plainIndices : BlackOilOnePhaseIndices where
  numSolventsV := 0
  numExtbosV := 0
  numPolymersV := 0
  numEnergyV := 0
  enableFoam := false
  enableBrine := false
  PVOffset := 0
  canonicalCompIdx := 0
  numMICPsV := 0

/-- No sum wraps around: the five counts are values of the type `int`, and for
each enabled quantity whose index is a sum of type `unsigned`, that sum, taken
in the natural numbers, is a value of the type `int`. -/
def BlackOilOnePhaseIndices.NoWrap (t : BlackOilOnePhaseIndices) : Prop :=
  t.numSolventsV < 2147483648 ∧ t.numExtbosV < 2147483648 ∧ t.numPolymersV < 2147483648 ∧
  t.numEnergyV < 2147483648 ∧ t.numMICPsV < 2147483648 ∧
  t.PVOffset < 2147483648 ∧
  (t.numSolventsV > 0 → t.PVOffset + 1 < 2147483648) ∧
  (t.numExtbosV > 0 ∨ t.numPolymersV > 0 ∨ t.numMICPsV > 0 →
    t.PVOffset + 1 + t.numSolventsV < 2147483648) ∧
  (t.enableFoam = true →
    t.PVOffset + 1 + t.numSolventsV + t.numPolymersV + t.numMICPsV < 2147483648) ∧
  (t.enableBrine = true →
    t.PVOffset + 1 + t.numSolventsV + t.numExtbosV + t.numPolymersV + t.numMICPsV
      + (if t.enableFoam then 1 else 0) < 2147483648) ∧
  (t.numEnergyV > 0 →
    t.PVOffset + 1 + t.numSolventsV + t.numExtbosV + t.numPolymersV + t.numMICPsV
      + (if t.enableFoam then 1 else 0) + (if t.enableBrine then 1 else 0) < 2147483648)

/-- The oil model with one Extbo component and one polymer component. -/
def extboPolymerIndices : BlackOilOnePhaseIndices :=
  { plainIndices with numExtbosV := 1, numPolymersV := 1 }

/-- The oil model with one Extbo component and foam. -/
def extboFoamIndices : BlackOilOnePhaseIndices :=
  { plainIndices with numExtbosV := 1, enableFoam := true }

/-- The plain oil model with the largest offset the type `unsigned` admits. -/
def largeOffsetIndices : BlackOilOnePhaseIndices :=
  { plainIndices with PVOffset := 4294967295 }

/-- The plain oil model with the largest offset for which the index of the
pressure is a value of the type `int`. -/
def largestOffsetIndices : BlackOilOnePhaseIndices :=
  { plainIndices with PVOffset := 2147483647 }

/-- The plain oil model with `2^31` energy equations, a count which is a value
of the type `unsigned` and not of the type `int`. -/
def hugeEnergyIndices : BlackOilOnePhaseIndices :=
  { plainIndices with numEnergyV := 2147483648 }

/-- The gas model at offset `3` with two solvents, five MICP components, foam,
brine and one energy equation. -/
def micpIndices : BlackOilOnePhaseIndices where
  numSolventsV := 2
  numExtbosV := 0
  numPolymersV := 0
  numEnergyV := 1
  enableFoam := true
  enableBrine := true
  PVOffset := 3
  canonicalCompIdx := 2
  numMICPsV := 5

/-! ## The states passed through by `newtonUpdate` -/

/-- The states which `newtonUpdate` passes through once the finiteness check has
succeeded, in the order of the program: the state of the model together with
the contents of `uCurrentIter` after the call of `updateDiscrepancy`, after the
call of `computeColors` (these two only with the reassembly heuristic) and after
the update itself, which is the call of `lineSearchUpdate_` or the loop of the
plain update.  The list is empty when the check throws; the last state is
missing when the line search runs out of fuel. -/
def BoxNewtonController.newtonUpdateStates {W : Type} {n numEq : Nat} (fuel : Nat)
    (m : Model W n numEq) (c : BoxNewtonController) (w : W)
    (uCurrentIter uLastIter : SolutionVector n numEq) (deltaU : GlobalEqVector n numEq) :
    List (W × SolutionVector n numEq) :=
  if !Scalar.isfinite (two_norm2 deltaU) then []
  else
    let calls : List (W × SolutionVector n numEq) :=
      if c.enablePartialReassemble_ then
        let w := m.jacobianAssembler.updateDiscrepancy uLastIter deltaU w
        [(w, uCurrentIter),
         (m.jacobianAssembler.computeColors (BoxNewtonController.reassembleTol c) w,
          uCurrentIter)]
      else []
    let w :=
      if c.enablePartialReassemble_ then
        let w := m.jacobianAssembler.updateDiscrepancy uLastIter deltaU w
        m.jacobianAssembler.computeColors (BoxNewtonController.reassembleTol c) w
      else w
    let update : List (W × SolutionVector n numEq) :=
      if c.useLineSearch_ then
        match BoxNewtonController.lineSearchUpdate_ fuel m c w uCurrentIter uLastIter deltaU with
        | some r => [(r.world, r.uCurrentIter)]
        | none => []
      else
        [(w, forLoop n (fun i (u : SolutionVector n numEq) =>
          let u := Function.update u i (uLastIter i)
          Function.update u i (fieldSubAssign (u i) (deltaU i))) uCurrentIter)]
    calls ++ update

/-! ## Concrete data used to evaluate the definitions -/

/-- A block vector with a single degree of freedom and a single equation. -/
def oneDof (q : ℚ) : SolutionVector 1 1 := fun _ _ => Scalar.fin q

/-- A model without state: the relative error of a vertex is the difference
of the two arguments in the first component, the residual is the given function
of the solution and the assembler does nothing. -/
def idleModel (residual : SolutionVector 1 1 → Scalar) : Model Unit 1 1 where
  relativeErrorVertex := fun _ u1 u2 => Scalar.sub (u1 0) (u2 0)
  globalResidual := fun u w => (residual u, w)
  jacobianAssembler :=
    { updateDiscrepancy := fun _ _ w => w
      computeColors := fun _ w => w
      reassembleAll := fun w => w
      setMatrixReuseable := fun _ w => w }

/-- A controller with all errors zero, tolerance `1e-8`, both convergence
criteria enabled, and the three flags as given. -/
def sampleController (reasm recycle lineSearch : Bool) : BoxNewtonController where
  error_ := Scalar.fin 0
  absoluteError_ := Scalar.fin 0
  lastAbsoluteError_ := Scalar.fin 0
  tolerance_ := Scalar.fin (1 / 100000000)
  enableRelativeCriterion_ := true
  enableAbsoluteCriterion_ := true
  enablePartialReassemble_ := reasm
  enableJacobianRecycling_ := recycle
  useLineSearch_ := lineSearch

/-- The controller `sampleController` with the last absolute error and the
relative error replaced. -/
def controllerWithErrors (reasm recycle lineSearch : Bool) (lastAbs err : ℚ) :
    BoxNewtonController :=
  { sampleController reasm recycle lineSearch with
    lastAbsoluteError_ := Scalar.fin lastAbs
    error_ := Scalar.fin err }

/-- The base class on a single partition: the hooks change nothing and the
collective maximum of a value is the value. -/
def serialParent : ParentType where
  newtonFail := id
  newtonSucceed := id
  commMax := id

/-- A controller with the relative criterion and the reassembly heuristic both
disabled, holding the relative error `5` from an earlier step. -/
def criteriaOffController : BoxNewtonController :=
  { sampleController false false false with
    enableRelativeCriterion_ := false
    error_ := Scalar.fin 5 }

/-! ## Results below the threshold of overflow -/

theorem Scalar.ofRat_of_bounded (q : ℚ) (h1 : -1000000000 ≤ q) (h2 : q ≤ 1000000000) :
    Scalar.ofRat q = Scalar.fin q := by
  have ht : (1000000000 : ℚ) < Scalar.overflowThreshold := by
    unfold Scalar.overflowThreshold
    norm_num
  unfold Scalar.ofRat
  rw [if_neg (by linarith), if_neg (by linarith)]

theorem Scalar.overflowThreshold_pos : (0 : ℚ) < Scalar.overflowThreshold := by
  unfold Scalar.overflowThreshold
  norm_num

theorem Scalar.isfinite_ofRat_iff (q : ℚ) :
    Scalar.isfinite (Scalar.ofRat q) = true ↔
      q < Scalar.overflowThreshold ∧ -Scalar.overflowThreshold < q := by
  unfold Scalar.ofRat
  split_ifs with h1 h2
  · simp only [Scalar.isfinite, Bool.false_eq_true, false_iff, not_and, not_lt]
    intro h
    exact absurd h1 (not_le.2 h)
  · simp only [Scalar.isfinite, Bool.false_eq_true, false_iff, not_and, not_lt]
    intro _
    exact h2
  · simp only [Scalar.isfinite, true_iff]
    exact ⟨not_le.1 h1, not_le.1 h2⟩

theorem Scalar.add_fin (a b : ℚ) (h1 : -1000000000 ≤ a + b) (h2 : a + b ≤ 1000000000) :
    Scalar.add (Scalar.fin a) (Scalar.fin b) = Scalar.fin (a + b) :=
  Scalar.ofRat_of_bounded _ h1 h2

theorem Scalar.mul_fin (a b : ℚ) (h1 : -1000000000 ≤ a * b) (h2 : a * b ≤ 1000000000) :
    Scalar.mul (Scalar.fin a) (Scalar.fin b) = Scalar.fin (a * b) :=
  Scalar.ofRat_of_bounded _ h1 h2

theorem Scalar.isfinite_ofRat (q : ℚ) (h : Scalar.isfinite (Scalar.ofRat q) = true) :
    Scalar.ofRat q = Scalar.fin q := by
  unfold Scalar.ofRat at h ⊢
  split_ifs at h ⊢
  · exact absurd h (by decide)
  · exact absurd h (by decide)
  · rfl

/-! ## Loops which write every entry -/

theorem foldl_update_apply {α : Type} {n : Nat} (f : Fin n → α) (l : List (Fin n))
    (u : Fin n → α) (k : Fin n) :
    (l.foldl (fun acc i => Function.update acc i (f i)) u) k =
      if k ∈ l then f k else u k := by
  induction l generalizing u with
  | nil => simp
  | cons a l ih =>
    rw [List.foldl_cons, ih]
    by_cases hk : k ∈ l
    · simp [hk]
    · by_cases hka : k = a
      · subst hka
        simp [hk]
      · simp [hk, hka]

theorem forLoop_update {α : Type} {n : Nat} (f : Fin n → α) (u : Fin n → α) :
    forLoop n (fun i acc => Function.update acc i (f i)) u = f := by
  funext k
  unfold forLoop
  rw [foldl_update_apply]
  simp [List.mem_finRange]

theorem foldl_setEntry {n numEq : Nat} (i : Fin n) (v : Fin numEq → Scalar)
    (l : List (Fin numEq)) (u : SolutionVector n numEq) :
    l.foldl (fun acc j => setEntry acc i j (v j)) u =
      Function.update u i (l.foldl (fun row j => Function.update row j (v j)) (u i)) := by
  induction l generalizing u with
  | nil => simp
  | cons a l ih =>
    rw [List.foldl_cons, ih]
    simp [setEntry]

theorem forLoop_setEntry {n numEq : Nat} (v : SolutionVector n numEq)
    (u : SolutionVector n numEq) :
    forLoop n (fun i acc => forLoop numEq (fun j acc => setEntry acc i j (v i j)) acc) u = v := by
  have inner : ∀ (i : Fin n) (acc : SolutionVector n numEq),
      forLoop numEq (fun j acc => setEntry acc i j (v i j)) acc = Function.update acc i (v i) := by
    intro i acc
    have h := forLoop_update (v i) (acc i)
    unfold forLoop at h ⊢
    rw [foldl_setEntry, h]
  simp only [inner]
  exact forLoop_update v u

/-! ## Finiteness of sums of squares -/

theorem Scalar.isfinite_add (a b : Scalar) (h : Scalar.isfinite (Scalar.add a b) = true) :
    Scalar.isfinite a = true ∧ Scalar.isfinite b = true := by
  cases a <;> cases b <;> simp [Scalar.add, Scalar.isfinite] at h ⊢

theorem Scalar.isfinite_mul (a b : Scalar) (h : Scalar.isfinite (Scalar.mul a b) = true) :
    Scalar.isfinite a = true ∧ Scalar.isfinite b = true := by
  cases a <;> cases b <;> simp only [Scalar.mul, Scalar.infTimes] at h <;>
    (try split_ifs at h) <;> simp [Scalar.isfinite] at h ⊢

theorem isfinite_foldl_add {ι : Type} (f : ι → Scalar) (l : List ι) (s : Scalar)
    (h : Scalar.isfinite (l.foldl (fun acc i => Scalar.add acc (f i)) s) = true) :
    Scalar.isfinite s = true ∧ ∀ i ∈ l, Scalar.isfinite (f i) = true := by
  induction l generalizing s with
  | nil => exact ⟨h, fun i hi => absurd hi (List.not_mem_nil i)⟩
  | cons a l ih =>
    rw [List.foldl_cons] at h
    obtain ⟨h1, h2⟩ := ih _ h
    obtain ⟨h3, h4⟩ := Scalar.isfinite_add _ _ h1
    refine ⟨h3, fun i hi => ?_⟩
    rcases List.mem_cons.1 hi with rfl | hi
    · exact h4
    · exact h2 i hi

theorem isfinite_fieldTwoNorm2 {numEq : Nat} (x : PrimaryVariables numEq)
    (h : Scalar.isfinite (fieldTwoNorm2 x) = true) : ∀ j, Scalar.isfinite (x j) = true := by
  intro j
  unfold fieldTwoNorm2 forLoop at h
  exact (Scalar.isfinite_mul _ _
    ((isfinite_foldl_add (fun j => Scalar.mul (x j) (x j)) _ _ h).2 j (List.mem_finRange j))).1

/-- A vector whose squared two-norm is finite has finite components only.  The
converse fails: the squares or their sum may overflow. -/
theorem isfinite_two_norm2 {n numEq : Nat} (v : GlobalEqVector n numEq)
    (h : Scalar.isfinite (two_norm2 v) = true) : ∀ i j, Scalar.isfinite (v i j) = true := by
  intro i j
  unfold two_norm2 forLoop at h
  exact isfinite_fieldTwoNorm2 (v i)
    ((isfinite_foldl_add (fun i => fieldTwoNorm2 (v i)) _ _ h).2 i (List.mem_finRange i)) j

theorem two_norm2_oneDof (q : ℚ) :
    two_norm2 (oneDof q) =
      Scalar.add (Scalar.fin 0) (Scalar.add (Scalar.fin 0)
        (Scalar.mul (Scalar.fin q) (Scalar.fin q))) := by
  simp [two_norm2, fieldTwoNorm2, forLoop, List.finRange, oneDof]

theorem oneDof_half_finite : Scalar.isfinite (two_norm2 (oneDof (1 / 2))) = true := by
  rw [two_norm2_oneDof, Scalar.mul_fin _ _ (by norm_num) (by norm_num),
    Scalar.add_fin _ _ (by norm_num) (by norm_num),
    Scalar.add_fin _ _ (by norm_num) (by norm_num)]
  rfl

/-- The squares of a finite value may overflow: the squared two-norm of the
vector `[2^600]` is `+inf`. -/
theorem two_norm2_oneDof_overflow : two_norm2 (oneDof (2 ^ 600)) = Scalar.posInf := by
  have hsq : Scalar.mul (Scalar.fin (2 ^ 600)) (Scalar.fin (2 ^ 600)) = Scalar.posInf := by
    simp only [Scalar.mul, Scalar.ofRat, Scalar.overflowThreshold]
    norm_num
  rw [two_norm2_oneDof, hsq]
  rfl

theorem plainUpdate_loop {n numEq : Nat} (uCurrentIter uLastIter : SolutionVector n numEq)
    (deltaU : GlobalEqVector n numEq) :
    forLoop n (fun i (u : SolutionVector n numEq) =>
        let u := Function.update u i (uLastIter i)
        Function.update u i (fieldSubAssign (u i) (deltaU i))) uCurrentIter
      = fun i => fieldSubAssign (uLastIter i) (deltaU i) := by
  have h := forLoop_update (fun i => fieldSubAssign (uLastIter i) (deltaU i)) uCurrentIter
  simpa using h

/-! ## The plain update -/

/-- C1 as stated fails for a finite `deltaU` whose squares overflow.  With line
search disabled and `deltaU = [2^600]` every component of `deltaU` is finite,
but the squared two-norm is `+inf`: `newtonUpdate` throws `NumericalProblem`
and `uCurrentIter` keeps the value `[0]` it had, which is not
`uLast - deltaU = [2 - 2^600]`. -/
theorem newtonUpdate_plain_overflow :
    (sampleController false false false).useLineSearch_ = false ∧
    (∀ i j, Scalar.isfinite (oneDof (2 ^ 600) i j) = true) ∧
    Scalar.isfinite (two_norm2 (oneDof (2 ^ 600))) = false ∧
    (∃ r, BoxNewtonController.newtonUpdate 0 (idleModel (fun _ => Scalar.fin 0))
        (sampleController false false false) () (oneDof 0) (oneDof 2) (oneDof (2 ^ 600))
        = some r ∧
      r.thrown = some Exception.NumericalProblem ∧ r.uCurrentIter = oneDof 0) ∧
    oneDof 0 0 0 ≠ Scalar.sub (oneDof 2 0 0) (oneDof (2 ^ 600) 0 0) := by
  have hnorm : Scalar.isfinite (two_norm2 (oneDof (2 ^ 600))) = false := by
    rw [two_norm2_oneDof_overflow]
    rfl
  refine ⟨rfl, fun _ _ => rfl, hnorm, ?_, ?_⟩
  · simp only [BoxNewtonController.newtonUpdate, hnorm, Bool.not_false, if_true]
    exact ⟨_, rfl, rfl, rfl⟩
  · have hsub : Scalar.sub (oneDof 2 0 0) (oneDof (2 ^ 600) 0 0)
        = Scalar.fin (2 - 2 ^ 600) := by
      simp only [oneDof, Scalar.sub, Scalar.neg, Scalar.add, Scalar.ofRat,
        Scalar.overflowThreshold]
      norm_num
    rw [hsub]
    intro h
    have h2 := Scalar.fin.inj h
    norm_num at h2

/-- C1, amended: with line search disabled and a `deltaU` whose squared
two-norm, as `two_norm2` computes it, is finite (every component of such a
`deltaU` is finite), `newtonUpdate` returns without an exception and
`uCurrentIter[i]` is `uLastIter[i] - deltaU[i]` for every degree of freedom,
component by component, whatever the other flags are. -/
theorem newtonUpdate_plain_exact {W : Type} {n numEq : Nat} (fuel : Nat)
    (m : Model W n numEq) (c : BoxNewtonController) (w : W)
    (uCurrentIter uLastIter : SolutionVector n numEq) (deltaU : GlobalEqVector n numEq)
    (hls : c.useLineSearch_ = false)
    (hfin : Scalar.isfinite (two_norm2 deltaU) = true) :
    (∃ r, BoxNewtonController.newtonUpdate fuel m c w uCurrentIter uLastIter deltaU = some r ∧
      r.thrown = none ∧
      (∀ i, r.uCurrentIter i = fieldSubAssign (uLastIter i) (deltaU i)) ∧
      ∀ i j, r.uCurrentIter i j = Scalar.sub (uLastIter i j) (deltaU i j)) ∧
    ∀ i j, Scalar.isfinite (deltaU i j) = true := by
  refine ⟨?_, isfinite_two_norm2 deltaU hfin⟩
  simp only [BoxNewtonController.newtonUpdate, hfin, hls, plainUpdate_loop, Bool.not_true,
    Bool.false_eq_true, if_false]
  exact ⟨_, rfl, rfl, fun _ => rfl, fun _ _ => rfl⟩

/-- C1, evaluated: `uLast = [2.0]`, `deltaU = [0.5]` gives `uCurrent = [1.5]`,
with and without the reassembly heuristic. -/
theorem newtonUpdate_plain_exact_witness :
    Scalar.isfinite (two_norm2 (oneDof (1 / 2))) = true ∧
    (∃ r, BoxNewtonController.newtonUpdate 0 (idleModel (fun _ => Scalar.fin 0))
        (sampleController true false false) () (oneDof 0) (oneDof 2) (oneDof (1 / 2))
        = some r ∧ r.thrown = none ∧ r.uCurrentIter 0 0 = Scalar.fin (3 / 2)) ∧
    (∃ r, BoxNewtonController.newtonUpdate 0 (idleModel (fun _ => Scalar.fin 0))
        (sampleController false false false) () (oneDof 0) (oneDof 2) (oneDof (1 / 2))
        = some r ∧ r.thrown = none ∧ r.uCurrentIter 0 0 = Scalar.fin (3 / 2)) := by
  have hfin : Scalar.isfinite (two_norm2 (oneDof (1 / 2))) = true := oneDof_half_finite
  have hval : Scalar.sub (oneDof 2 0 0) (oneDof (1 / 2) 0 0) = Scalar.fin (3 / 2) := by
    simp only [oneDof, Scalar.sub, Scalar.neg, Scalar.add, Scalar.ofRat, Scalar.overflowThreshold]
    norm_num
  refine ⟨hfin, ?_, ?_⟩
  · obtain ⟨⟨r, h1, h2, _, h4⟩, _⟩ := newtonUpdate_plain_exact 0 (idleModel (fun _ => Scalar.fin 0))
      (sampleController true false false) () (oneDof 0) (oneDof 2) (oneDof (1 / 2)) rfl hfin
    exact ⟨r, h1, h2, (h4 0 0).trans hval⟩
  · obtain ⟨⟨r, h1, h2, _, h4⟩, _⟩ := newtonUpdate_plain_exact 0 (idleModel (fun _ => Scalar.fin 0))
      (sampleController false false false) () (oneDof 0) (oneDof 2) (oneDof (1 / 2)) rfl hfin
    exact ⟨r, h1, h2, (h4 0 0).trans hval⟩

/-! ## The check for a finite update -/

/-- C2: when some component of `deltaU` is not finite, `newtonUpdate` throws
`NumericalProblem`, for every value of the flags `enablePartialReassemble_`,
`enableJacobianRecycling_` and `useLineSearch_` (and of every other member of
the controller), without any use of the line search. -/
theorem newtonUpdate_nonfinite_throws {W : Type} {n numEq : Nat} (fuel : Nat)
    (m : Model W n numEq) (c : BoxNewtonController) (w : W)
    (uCurrentIter uLastIter : SolutionVector n numEq) (deltaU : GlobalEqVector n numEq)
    (hbad : ∃ i j, Scalar.isfinite (deltaU i j) = false) :
    Scalar.isfinite (two_norm2 deltaU) = false ∧
    ∃ r, BoxNewtonController.newtonUpdate fuel m c w uCurrentIter uLastIter deltaU = some r ∧
      r.thrown = some Exception.NumericalProblem := by
  have hnorm : Scalar.isfinite (two_norm2 deltaU) = false := by
    obtain ⟨i, j, hij⟩ := hbad
    cases h : Scalar.isfinite (two_norm2 deltaU) with
    | false => rfl
    | true =>
      have := isfinite_two_norm2 deltaU h i j
      rw [hij] at this
      exact this.symm
  refine ⟨hnorm, ?_⟩
  simp only [BoxNewtonController.newtonUpdate, hnorm, Bool.not_false, if_true]
  exact ⟨_, rfl, rfl⟩

/-- C2, evaluated on the update `[NaN]` with all three flags set and on the
update `[+inf]` with none of them set. -/
theorem newtonUpdate_nonfinite_throws_witness :
    (∃ r, BoxNewtonController.newtonUpdate 4 (idleModel (fun _ => Scalar.fin 0))
        (sampleController true true true) () (oneDof 0) (oneDof 2)
        (fun _ _ => Scalar.nan) = some r ∧ r.thrown = some Exception.NumericalProblem) ∧
    (∃ r, BoxNewtonController.newtonUpdate 4 (idleModel (fun _ => Scalar.fin 0))
        (sampleController false false false) () (oneDof 0) (oneDof 2)
        (fun _ _ => Scalar.posInf) = some r ∧ r.thrown = some Exception.NumericalProblem) :=
  ⟨(newtonUpdate_nonfinite_throws 4 (idleModel (fun _ => Scalar.fin 0))
      (sampleController true true true) () (oneDof 0) (oneDof 2)
      (fun _ _ => Scalar.nan) ⟨0, 0, rfl⟩).2,
   (newtonUpdate_nonfinite_throws 4 (idleModel (fun _ => Scalar.fin 0))
      (sampleController false false false) () (oneDof 0) (oneDof 2)
      (fun _ _ => Scalar.posInf) ⟨0, 0, rfl⟩).2⟩

/-! ## The line search -/

theorem lineSearchLoop_step {W : Type} {n numEq : Nat} (m : Model W n numEq)
    (uLastIter : SolutionVector n numEq) (deltaU : GlobalEqVector n numEq) (fuel : Nat)
    (lambda : Scalar) (trials : List Scalar) (c : BoxNewtonController) (w : W)
    (uCurrentIter : SolutionVector n numEq) :
    BoxNewtonController.lineSearchLoop m uLastIter deltaU (fuel + 1) lambda trials c w
        uCurrentIter =
      if Scalar.lt (m.globalResidual (candidate uLastIter deltaU lambda) w).1
            c.lastAbsoluteError_
          || Scalar.le lambda (Scalar.div (Scalar.fin 1) (Scalar.fin 8)) then
        some { ctl := { c with
                 absoluteError_ := (m.globalResidual (candidate uLastIter deltaU lambda) w).1 }
               world := (m.globalResidual (candidate uLastIter deltaU lambda) w).2
               uCurrentIter := candidate uLastIter deltaU lambda
               thrown := none
               trials := trials ++ [lambda] }
      else
        BoxNewtonController.lineSearchLoop m uLastIter deltaU fuel
          (Scalar.div lambda (Scalar.fin 2)) (trials ++ [lambda])
          { c with
            absoluteError_ := (m.globalResidual (candidate uLastIter deltaU lambda) w).1 }
          (m.globalResidual (candidate uLastIter deltaU lambda) w).2
          (candidate uLastIter deltaU lambda) := by
  have hcand : forLoop n (fun i u =>
      forLoop numEq (fun j u =>
        setEntry u i j (Scalar.sub (uLastIter i j) (Scalar.mul lambda (deltaU i j)))) u)
      uCurrentIter = candidate uLastIter deltaU lambda :=
    forLoop_setEntry (candidate uLastIter deltaU lambda) uCurrentIter
  simp only [BoxNewtonController.lineSearchLoop, hcand,
    BoxNewtonController.newtonUpdateAbsError_]

theorem Scalar.one_div_eight : Scalar.div (Scalar.fin 1) (Scalar.fin 8) = Scalar.fin (1 / 8) := by
  simp only [Scalar.div, Scalar.ofRat, Scalar.overflowThreshold]
  norm_num

theorem Scalar.halve_one : Scalar.div (Scalar.fin 1) (Scalar.fin 2) = Scalar.fin (1 / 2) := by
  simp only [Scalar.div, Scalar.ofRat, Scalar.overflowThreshold]
  norm_num

theorem Scalar.halve_half :
    Scalar.div (Scalar.fin (1 / 2)) (Scalar.fin 2) = Scalar.fin (1 / 4) := by
  simp only [Scalar.div, Scalar.ofRat, Scalar.overflowThreshold]
  norm_num

theorem Scalar.halve_quarter :
    Scalar.div (Scalar.fin (1 / 4)) (Scalar.fin 2) = Scalar.fin (1 / 8) := by
  simp only [Scalar.div, Scalar.ofRat, Scalar.overflowThreshold]
  norm_num

theorem Scalar.one_not_le_eighth : Scalar.le (Scalar.fin 1) (Scalar.fin (1 / 8)) = false := by
  simp only [Scalar.le]
  norm_num

theorem Scalar.half_not_le_eighth :
    Scalar.le (Scalar.fin (1 / 2)) (Scalar.fin (1 / 8)) = false := by
  simp only [Scalar.le]
  norm_num

theorem Scalar.quarter_not_le_eighth :
    Scalar.le (Scalar.fin (1 / 4)) (Scalar.fin (1 / 8)) = false := by
  simp only [Scalar.le]
  norm_num

theorem Scalar.eighth_le_eighth :
    Scalar.le (Scalar.fin (1 / 8)) (Scalar.fin (1 / 8)) = true := by
  simp [Scalar.le]

/-- The line search unrolled: with fuel for four passes the loop returns, and
its result is decided by at most three comparisons of a residual with the last
absolute error. -/
theorem lineSearchUpdate_unrolled {W : Type} {n numEq : Nat} (k : Nat)
    (m : Model W n numEq) (c : BoxNewtonController) (w : W)
    (uCurrentIter uLastIter : SolutionVector n numEq) (deltaU : GlobalEqVector n numEq) :
    BoxNewtonController.lineSearchUpdate_ (k + 4) m c w uCurrentIter uLastIter deltaU =
      let r1 := m.globalResidual (candidate uLastIter deltaU (Scalar.fin 1)) w
      let r2 := m.globalResidual (candidate uLastIter deltaU (Scalar.fin (1 / 2))) r1.2
      let r3 := m.globalResidual (candidate uLastIter deltaU (Scalar.fin (1 / 4))) r2.2
      let r4 := m.globalResidual (candidate uLastIter deltaU (Scalar.fin (1 / 8))) r3.2
      if Scalar.lt r1.1 c.lastAbsoluteError_ then
        some { ctl := { c with absoluteError_ := r1.1 }, world := r1.2,
               uCurrentIter := candidate uLastIter deltaU (Scalar.fin 1), thrown := none,
               trials := [Scalar.fin 1] }
      else if Scalar.lt r2.1 c.lastAbsoluteError_ then
        some { ctl := { c with absoluteError_ := r2.1 }, world := r2.2,
               uCurrentIter := candidate uLastIter deltaU (Scalar.fin (1 / 2)), thrown := none,
               trials := [Scalar.fin 1, Scalar.fin (1 / 2)] }
      else if Scalar.lt r3.1 c.lastAbsoluteError_ then
        some { ctl := { c with absoluteError_ := r3.1 }, world := r3.2,
               uCurrentIter := candidate uLastIter deltaU (Scalar.fin (1 / 4)), thrown := none,
               trials := [Scalar.fin 1, Scalar.fin (1 / 2), Scalar.fin (1 / 4)] }
      else
        some { ctl := { c with absoluteError_ := r4.1 }, world := r4.2,
               uCurrentIter := candidate uLastIter deltaU (Scalar.fin (1 / 8)), thrown := none,
               trials := [Scalar.fin 1, Scalar.fin (1 / 2), Scalar.fin (1 / 4),
                          Scalar.fin (1 / 8)] } := by
  unfold BoxNewtonController.lineSearchUpdate_
  simp only [lineSearchLoop_step, Scalar.one_div_eight, Scalar.halve_one, Scalar.halve_half,
    Scalar.halve_quarter, Scalar.one_not_le_eighth, Scalar.half_not_le_eighth,
    Scalar.quarter_not_le_eighth, Scalar.eighth_le_eighth, Bool.or_false, Bool.or_true,
    if_true, List.nil_append, List.cons_append, List.singleton_append]

/-- The line search run against the recording model: the world grows by one
evaluation of the residual per factor tried. -/
theorem lineSearchUpdate_recording {n numEq : Nat} (k : Nat)
    (relErr : Fin n → PrimaryVariables numEq → PrimaryVariables numEq → Scalar)
    (residual : List (Event n numEq) → SolutionVector n numEq → Scalar)
    (c : BoxNewtonController) (w0 : List (Event n numEq))
    (uCurrentIter uLastIter : SolutionVector n numEq) (deltaU : GlobalEqVector n numEq) :
    ∃ r, BoxNewtonController.lineSearchUpdate_ (k + 4) (recordingModel relErr residual) c w0
        uCurrentIter uLastIter deltaU = some r ∧
      r.thrown = none ∧
      r.trials.length ≤ 4 ∧
      (∃ t, 1 ≤ t ∧ t ≤ 4 ∧ r.trials = dampingFactors.take t) ∧
      r.world = w0 ++ residualEvents uLastIter deltaU r.trials := by
  rw [lineSearchUpdate_unrolled]
  simp only []
  split_ifs
  · refine ⟨_, rfl, rfl, by simp, ⟨1, le_refl _, by decide, rfl⟩, ?_⟩
    simp [recordingModel, residualEvents]
  · refine ⟨_, rfl, rfl, by simp, ⟨2, by decide, by decide, rfl⟩, ?_⟩
    simp [recordingModel, residualEvents]
  · refine ⟨_, rfl, rfl, by simp, ⟨3, by decide, by decide, rfl⟩, ?_⟩
    simp [recordingModel, residualEvents]
  · refine ⟨_, rfl, rfl, by simp, ⟨4, by decide, le_refl _, rfl⟩, ?_⟩
    simp [recordingModel, residualEvents]

/-- C3: `lineSearchUpdate_` returns for every input and every behaviour of the
residual: four passes through the loop always suffice (more fuel changes
nothing), the damping factors tried are the first `t` of `1, 1/2, 1/4, 1/8`
with `1 ≤ t ≤ 4`, the last factor tried is the accepted one, and the residual
is evaluated once per factor tried, hence at most four times; the recording
model receives exactly these evaluations. -/
theorem lineSearchUpdate_terminates {W : Type} {n numEq : Nat} (k : Nat)
    (m : Model W n numEq) (c : BoxNewtonController) (w : W)
    (uCurrentIter uLastIter : SolutionVector n numEq) (deltaU : GlobalEqVector n numEq) :
    (∃ r, BoxNewtonController.lineSearchUpdate_ (k + 4) m c w uCurrentIter uLastIter deltaU
        = some r ∧
      BoxNewtonController.lineSearchUpdate_ 4 m c w uCurrentIter uLastIter deltaU = some r ∧
      r.thrown = none ∧
      (∃ t, 1 ≤ t ∧ t ≤ 4 ∧ r.trials = dampingFactors.take t) ∧
      ∃ l, r.trials.getLast? = some l ∧ r.uCurrentIter = candidate uLastIter deltaU l) ∧
    (∀ (relErr : Fin n → PrimaryVariables numEq → PrimaryVariables numEq → Scalar)
      (residual : List (Event n numEq) → SolutionVector n numEq → Scalar)
      (w0 : List (Event n numEq)),
      ∃ r, BoxNewtonController.lineSearchUpdate_ (k + 4) (recordingModel relErr residual) c w0
          uCurrentIter uLastIter deltaU = some r ∧
        r.trials.length ≤ 4 ∧
        (∃ t, 1 ≤ t ∧ t ≤ 4 ∧ r.trials = dampingFactors.take t) ∧
        r.world = w0 ++ residualEvents uLastIter deltaU r.trials) := by
  constructor
  · have h4 := lineSearchUpdate_unrolled 0 m c w uCurrentIter uLastIter deltaU
    rw [Nat.zero_add] at h4
    rw [lineSearchUpdate_unrolled, h4]
    simp only []
    split_ifs
    · exact ⟨_, rfl, rfl, rfl, ⟨1, le_refl _, by decide, rfl⟩, _, rfl, rfl⟩
    · exact ⟨_, rfl, rfl, rfl, ⟨2, by decide, by decide, rfl⟩, _, rfl, rfl⟩
    · exact ⟨_, rfl, rfl, rfl, ⟨3, by decide, by decide, rfl⟩, _, rfl, rfl⟩
    · exact ⟨_, rfl, rfl, rfl, ⟨4, by decide, le_refl _, rfl⟩, _, rfl, rfl⟩
  · intro relErr residual w0
    obtain ⟨r, h, _, hlen, ht, hw⟩ := lineSearchUpdate_recording k relErr residual c w0
      uCurrentIter uLastIter deltaU
    exact ⟨r, h, hlen, ht, hw⟩

/-- C4: for a model whose residual is a function `residual` of the solution,
`lineSearchUpdate_` returns with `uCurrentIter[i][j]` equal to
`uLastIter[i][j] - lambdaStar * deltaU[i][j]` for every degree of freedom `i`
and component `j`, where `lambdaStar` is the first factor of `1, 1/2, 1/4, 1/8`
whose candidate has a residual strictly smaller than `lastAbsoluteError_`, or
`1/8` when there is none; `absoluteError_` is the residual at that candidate,
and `lambdaStar` is the last factor tried. -/
theorem lineSearchUpdate_accepts_lambdaStar {W : Type} {n numEq : Nat} (k : Nat)
    (m : Model W n numEq) (residual : SolutionVector n numEq → Scalar)
    (c : BoxNewtonController) (w : W)
    (uCurrentIter uLastIter : SolutionVector n numEq) (deltaU : GlobalEqVector n numEq)
    (hres : ∀ u w, (m.globalResidual u w).1 = residual u) :
    ∃ r, BoxNewtonController.lineSearchUpdate_ (k + 4) m c w uCurrentIter uLastIter deltaU
        = some r ∧
      (∀ i j, r.uCurrentIter i j =
        Scalar.sub (uLastIter i j)
          (Scalar.mul (lambdaStar residual c.lastAbsoluteError_ uLastIter deltaU)
            (deltaU i j))) ∧
      r.ctl.absoluteError_ =
        residual (candidate uLastIter deltaU
          (lambdaStar residual c.lastAbsoluteError_ uLastIter deltaU)) ∧
      r.ctl.absoluteError_ = residual r.uCurrentIter ∧
      r.ctl.lastAbsoluteError_ = c.lastAbsoluteError_ ∧
      r.trials.getLast? = some (lambdaStar residual c.lastAbsoluteError_ uLastIter deltaU) := by
  rw [lineSearchUpdate_unrolled]
  simp only [hres]
  cases h1 : Scalar.lt (residual (candidate uLastIter deltaU (Scalar.fin 1)))
      c.lastAbsoluteError_ with
  | true =>
    have hl : lambdaStar residual c.lastAbsoluteError_ uLastIter deltaU = Scalar.fin 1 := by
      simp only [lambdaStar, dampingFactors, List.find?, h1]
    rw [hl]
    exact ⟨_, rfl, fun _ _ => rfl, rfl, rfl, rfl, rfl⟩
  | false =>
    cases h2 : Scalar.lt (residual (candidate uLastIter deltaU (Scalar.fin (1 / 2))))
        c.lastAbsoluteError_ with
    | true =>
      have hl : lambdaStar residual c.lastAbsoluteError_ uLastIter deltaU
          = Scalar.fin (1 / 2) := by
        simp only [lambdaStar, dampingFactors, List.find?, h1, h2]
      rw [hl]
      exact ⟨_, rfl, fun _ _ => rfl, rfl, rfl, rfl, rfl⟩
    | false =>
      cases h3 : Scalar.lt (residual (candidate uLastIter deltaU (Scalar.fin (1 / 4))))
          c.lastAbsoluteError_ with
      | true =>
        have hl : lambdaStar residual c.lastAbsoluteError_ uLastIter deltaU
            = Scalar.fin (1 / 4) := by
          simp only [lambdaStar, dampingFactors, List.find?, h1, h2, h3]
        rw [hl]
        exact ⟨_, rfl, fun _ _ => rfl, rfl, rfl, rfl, rfl⟩
      | false =>
        have hl : lambdaStar residual c.lastAbsoluteError_ uLastIter deltaU
            = Scalar.fin (1 / 8) := by
          cases h4 : Scalar.lt (residual (candidate uLastIter deltaU (Scalar.fin (1 / 8))))
              c.lastAbsoluteError_ <;>
            simp only [lambdaStar, dampingFactors, List.find?, h1, h2, h3, h4]
        rw [hl]
        exact ⟨_, rfl, fun _ _ => rfl, rfl, rfl, rfl, rfl⟩

/-- C4, evaluated: with `uLast = [2]`, `deltaU = [-4]`, the residual of a
solution being its only component and a last absolute error of `3.5`, the
candidates are `6, 4, 3, 2.5`; the factor `1/4` is the first to bring the
residual below `3.5`, the result is `[3]` and the absolute error is `3`. -/
theorem lineSearchUpdate_accepts_lambdaStar_witness :
    (∀ u w, ((idleModel (fun u => u 0 0)).globalResidual u w).1 = u 0 0) ∧
    ∃ r, BoxNewtonController.lineSearchUpdate_ 4 (idleModel (fun u => u 0 0))
        (controllerWithErrors false false true (7 / 2) 0) () (oneDof 0) (oneDof 2)
        (oneDof (-4)) = some r ∧
      r.uCurrentIter 0 0 = Scalar.fin 3 ∧
      r.ctl.absoluteError_ = Scalar.fin 3 ∧
      r.trials.getLast? = some (Scalar.fin (1 / 4)) := by
  have hl : lambdaStar (fun u : SolutionVector 1 1 => u 0 0)
      (controllerWithErrors false false true (7 / 2) 0).lastAbsoluteError_ (oneDof 2)
      (oneDof (-4)) = Scalar.fin (1 / 4) := by
    have e1 : Scalar.lt (candidate (oneDof 2) (oneDof (-4)) (Scalar.fin 1) 0 0)
        (Scalar.fin (7 / 2)) = false := by
      simp only [candidate, oneDof, Scalar.sub, Scalar.mul, Scalar.neg, Scalar.add, Scalar.lt,
      Scalar.ofRat, Scalar.overflowThreshold]
      norm_num
    have e2 : Scalar.lt (candidate (oneDof 2) (oneDof (-4)) (Scalar.fin (1 / 2)) 0 0)
        (Scalar.fin (7 / 2)) = false := by
      simp only [candidate, oneDof, Scalar.sub, Scalar.mul, Scalar.neg, Scalar.add, Scalar.lt,
      Scalar.ofRat, Scalar.overflowThreshold]
      norm_num
    have e3 : Scalar.lt (candidate (oneDof 2) (oneDof (-4)) (Scalar.fin (1 / 4)) 0 0)
        (Scalar.fin (7 / 2)) = true := by
      simp only [candidate, oneDof, Scalar.sub, Scalar.mul, Scalar.neg, Scalar.add, Scalar.lt,
      Scalar.ofRat, Scalar.overflowThreshold]
      norm_num
    simp only [lambdaStar, dampingFactors, List.find?, controllerWithErrors, e1, e2, e3]
  have hv : Scalar.sub (oneDof 2 0 0) (Scalar.mul (Scalar.fin (1 / 4)) (oneDof (-4) 0 0))
      = Scalar.fin 3 := by
    simp only [oneDof, Scalar.sub, Scalar.mul, Scalar.neg, Scalar.add, Scalar.ofRat, Scalar.overflowThreshold]
    norm_num
  obtain ⟨r, h, hu, ha, _, _, ht⟩ := lineSearchUpdate_accepts_lambdaStar 0
    (idleModel (fun u => u 0 0)) (fun u => u 0 0)
    (controllerWithErrors false false true (7 / 2) 0) () (oneDof 0) (oneDof 2) (oneDof (-4))
    (fun _ _ => rfl)
  rw [hl] at hu ha ht
  refine ⟨fun _ _ => rfl, r, h, (hu 0 0).trans hv, ha.trans ?_, ht⟩
  exact hv

/-! ## The tolerance of the reassembly heuristic -/

theorem clamp_between (lo hi x : Scalar) (h1 : Scalar.le lo x = true)
    (h2 : Scalar.le x hi = true) : stdMax lo (stdMin hi x) = x := by
  cases lo <;> cases hi <;> cases x <;>
    simp only [stdMin, Scalar.lt, Scalar.le, decide_eq_true_eq, Bool.false_eq_true, if_false,
      if_true] at * <;>
    (try split_ifs) <;>
    simp only [stdMax, Scalar.lt, Scalar.le, decide_eq_true_eq, Bool.false_eq_true, if_false,
      if_true] at * <;>
    (try split_ifs) <;> (try rfl) <;> (try (congr 1; linarith))

theorem clamp_below (lo hi x : Scalar) (h : Scalar.le lo hi = true)
    (h1 : Scalar.lt x lo = true) : stdMax lo (stdMin hi x) = lo := by
  cases lo <;> cases hi <;> cases x <;>
    simp only [stdMin, Scalar.lt, Scalar.le, decide_eq_true_eq, Bool.false_eq_true, if_false,
      if_true] at * <;>
    (try split_ifs) <;>
    simp only [stdMax, Scalar.lt, Scalar.le, decide_eq_true_eq, Bool.false_eq_true, if_false,
      if_true] at * <;>
    (try split_ifs) <;> (try rfl) <;> (try (congr 1; linarith))

theorem clamp_above (lo hi x : Scalar) (h : Scalar.le lo hi = true)
    (h1 : Scalar.lt hi x = true) : stdMax lo (stdMin hi x) = hi := by
  cases lo <;> cases hi <;> cases x <;>
    simp only [stdMin, Scalar.lt, Scalar.le, decide_eq_true_eq, Bool.false_eq_true, if_false,
      if_true] at * <;>
    (try split_ifs) <;>
    simp only [stdMax, Scalar.lt, Scalar.le, decide_eq_true_eq, Bool.false_eq_true, if_false,
      if_true] at * <;>
    (try split_ifs) <;> (try rfl) <;> (try (congr 1; linarith))

/-- What the recording model receives from `newtonUpdate` when the update is
finite: with the reassembly heuristic one `updateDiscrepancy` and one
`computeColors`, in this order, then one evaluation of the residual per
damping factor tried by the line search (none without line search). -/
theorem newtonUpdate_recording {n numEq : Nat} (k : Nat)
    (relErr : Fin n → PrimaryVariables numEq → PrimaryVariables numEq → Scalar)
    (residual : List (Event n numEq) → SolutionVector n numEq → Scalar)
    (c : BoxNewtonController) (w0 : List (Event n numEq))
    (uCurrentIter uLastIter : SolutionVector n numEq) (deltaU : GlobalEqVector n numEq)
    (hfin : Scalar.isfinite (two_norm2 deltaU) = true) :
    ∃ r, BoxNewtonController.newtonUpdate (k + 4) (recordingModel relErr residual) c w0
        uCurrentIter uLastIter deltaU = some r ∧
      r.thrown = none ∧
      (c.useLineSearch_ = false → r.trials = []) ∧
      r.world = w0 ++
        (if c.enablePartialReassemble_ then
          [Event.updateDiscrepancy uLastIter deltaU,
           Event.computeColors (BoxNewtonController.reassembleTol c)]
         else []) ++ residualEvents uLastIter deltaU r.trials := by
  cases hls : c.useLineSearch_ with
  | false =>
    simp only [BoxNewtonController.newtonUpdate, hfin, hls, Bool.not_true, Bool.false_eq_true,
      if_false]
    refine ⟨_, rfl, rfl, fun _ => rfl, ?_⟩
    cases c.enablePartialReassemble_ <;> simp [recordingModel, residualEvents]
  | true =>
    simp only [BoxNewtonController.newtonUpdate, hfin, hls, Bool.not_true, Bool.false_eq_true,
      if_false, if_true]
    obtain ⟨r, h, ht, _, _, hw⟩ := lineSearchUpdate_recording k relErr residual c
      (if c.enablePartialReassemble_ = true then
        (recordingModel relErr residual).jacobianAssembler.computeColors
          (BoxNewtonController.reassembleTol c)
          ((recordingModel relErr residual).jacobianAssembler.updateDiscrepancy uLastIter
            deltaU w0)
       else w0) uCurrentIter uLastIter deltaU
    refine ⟨r, h, ht, fun hf => by simp at hf, ?_⟩
    rw [hw]
    cases c.enablePartialReassemble_ <;> simp [recordingModel]

/-- C5: with the reassembly heuristic enabled and `10 * tolerance_ <= 1e-4`,
the value `tol` which `newtonUpdate` passes to `computeColors` (the call is
made once, after `updateDiscrepancy`, when the update is finite, and not at all
otherwise) is the square of `error_` clamped to the interval from
`10 * tolerance_` to `1e-4`: the square itself when it lies between the two
bounds, the lower bound when the square is below it, the upper bound when the
square is above it. -/
theorem newtonUpdate_reassembleTol_clamp {n numEq : Nat} (k : Nat)
    (relErr : Fin n → PrimaryVariables numEq → PrimaryVariables numEq → Scalar)
    (residual : List (Event n numEq) → SolutionVector n numEq → Scalar)
    (c : BoxNewtonController) (w0 : List (Event n numEq))
    (uCurrentIter uLastIter : SolutionVector n numEq) (deltaU : GlobalEqVector n numEq)
    (hre : c.enablePartialReassemble_ = true)
    (hle : Scalar.le (Scalar.mul (Scalar.fin 10) c.tolerance_) (Scalar.fin (1 / 10000)) = true) :
    ∃ r tol, BoxNewtonController.newtonUpdate (k + 4) (recordingModel relErr residual) c w0
        uCurrentIter uLastIter deltaU = some r ∧
      (if Scalar.isfinite (two_norm2 deltaU) then
        r.world = w0 ++ [Event.updateDiscrepancy uLastIter deltaU, Event.computeColors tol]
          ++ residualEvents uLastIter deltaU r.trials
       else r.world = w0) ∧
      (c.useLineSearch_ = false → r.trials = []) ∧
      (Scalar.le (Scalar.mul (Scalar.fin 10) c.tolerance_) (Scalar.mul c.error_ c.error_) = true →
        Scalar.le (Scalar.mul c.error_ c.error_) (Scalar.fin (1 / 10000)) = true →
        tol = Scalar.mul c.error_ c.error_) ∧
      (Scalar.lt (Scalar.mul c.error_ c.error_) (Scalar.mul (Scalar.fin 10) c.tolerance_) = true →
        tol = Scalar.mul (Scalar.fin 10) c.tolerance_) ∧
      (Scalar.lt (Scalar.fin (1 / 10000)) (Scalar.mul c.error_ c.error_) = true →
        tol = Scalar.fin (1 / 10000)) := by
  cases hfin : Scalar.isfinite (two_norm2 deltaU) with
  | true =>
    obtain ⟨r, h, _, ht, hw⟩ := newtonUpdate_recording k relErr residual c w0 uCurrentIter
      uLastIter deltaU hfin
    rw [hre] at hw
    exact ⟨r, BoxNewtonController.reassembleTol c, h, hw, ht,
      fun h1 h2 => clamp_between _ _ _ h1 h2,
      fun h1 => clamp_below _ _ _ hle h1,
      fun h1 => clamp_above _ _ _ hle h1⟩
  | false =>
    refine ⟨{ ctl := c, world := w0, uCurrentIter := uCurrentIter,
              thrown := some Exception.NumericalProblem, trials := [] },
      BoxNewtonController.reassembleTol c, ?_, ?_, fun _ => rfl,
      fun h1 h2 => clamp_between _ _ _ h1 h2,
      fun h1 => clamp_below _ _ _ hle h1,
      fun h1 => clamp_above _ _ _ hle h1⟩
    · simp only [BoxNewtonController.newtonUpdate, hfin, Bool.not_false, if_true]
    · simp

/-- C5, evaluated with `tolerance_ = 1e-8`: `error_ = 0.01` gives the
tolerance `1e-4`, `error_ = 1e-6` gives `1e-7`. -/
theorem newtonUpdate_reassembleTol_clamp_witness :
    (∃ r, BoxNewtonController.newtonUpdate 4
        (recordingModel (fun _ _ _ => Scalar.fin 0) (fun _ _ => Scalar.fin 0))
        (controllerWithErrors true false false 0 (1 / 100)) [] (oneDof 0) (oneDof 2)
        (oneDof (1 / 2)) = some r ∧
      r.world = [Event.updateDiscrepancy (oneDof 2) (oneDof (1 / 2)),
                 Event.computeColors (Scalar.fin (1 / 10000))]) ∧
    (∃ r, BoxNewtonController.newtonUpdate 4
        (recordingModel (fun _ _ _ => Scalar.fin 0) (fun _ _ => Scalar.fin 0))
        (controllerWithErrors true false false 0 (1 / 1000000)) [] (oneDof 0) (oneDof 2)
        (oneDof (1 / 2)) = some r ∧
      r.world = [Event.updateDiscrepancy (oneDof 2) (oneDof (1 / 2)),
                 Event.computeColors (Scalar.fin (1 / 10000000))]) := by
  have hfin : Scalar.isfinite (two_norm2 (oneDof (1 / 2))) = true := oneDof_half_finite
  constructor
  · obtain ⟨r, tol, h, hw, ht, hb, _, _⟩ := newtonUpdate_reassembleTol_clamp 0
      (fun _ _ _ => Scalar.fin 0) (fun _ _ => Scalar.fin 0)
      (controllerWithErrors true false false 0 (1 / 100)) [] (oneDof 0) (oneDof 2)
      (oneDof (1 / 2)) rfl
      (by simp only [controllerWithErrors, sampleController, Scalar.mul, Scalar.le,
            decide_eq_true_eq, Scalar.ofRat, Scalar.overflowThreshold]; norm_num)
    have htol : tol = Scalar.fin (1 / 10000) := by
      rw [hb (by simp only [controllerWithErrors, sampleController, Scalar.mul, Scalar.le,
                   decide_eq_true_eq, Scalar.ofRat, Scalar.overflowThreshold]; norm_num)
             (by simp only [controllerWithErrors, sampleController, Scalar.mul, Scalar.le,
                   decide_eq_true_eq, Scalar.ofRat, Scalar.overflowThreshold]; norm_num)]
      simp only [controllerWithErrors, sampleController, Scalar.mul, Scalar.ofRat, Scalar.overflowThreshold]
      norm_num
    refine ⟨r, h, ?_⟩
    rw [hfin, if_pos rfl] at hw
    rw [hw, ht rfl, htol]
    rfl
  · obtain ⟨r, tol, h, hw, ht, _, hb, _⟩ := newtonUpdate_reassembleTol_clamp 0
      (fun _ _ _ => Scalar.fin 0) (fun _ _ => Scalar.fin 0)
      (controllerWithErrors true false false 0 (1 / 1000000)) [] (oneDof 0) (oneDof 2)
      (oneDof (1 / 2)) rfl
      (by simp only [controllerWithErrors, sampleController, Scalar.mul, Scalar.le,
            decide_eq_true_eq, Scalar.ofRat, Scalar.overflowThreshold]; norm_num)
    have htol : tol = Scalar.fin (1 / 10000000) := by
      rw [hb (by simp only [controllerWithErrors, sampleController, Scalar.mul, Scalar.lt,
                   decide_eq_true_eq, Scalar.ofRat, Scalar.overflowThreshold]; norm_num)]
      simp only [controllerWithErrors, sampleController, Scalar.mul, Scalar.ofRat, Scalar.overflowThreshold]
      norm_num
    refine ⟨r, h, ?_⟩
    rw [hfin, if_pos rfl] at hw
    rw [hw, ht rfl, htol]
    rfl

/-! ## The relative error -/

theorem Scalar.le_refl_of_ne_nan (a : Scalar) (h : a ≠ Scalar.nan) : Scalar.le a a = true := by
  cases a <;> simp [Scalar.le] at *

theorem Scalar.le_trans (a b c : Scalar) (h1 : Scalar.le a b = true)
    (h2 : Scalar.le b c = true) : Scalar.le a c = true := by
  cases a <;> cases b <;> cases c <;>
    simp only [Scalar.le, decide_eq_true_eq, Bool.false_eq_true] at *
  linarith

theorem stdMax_ne_nan (a b : Scalar) (h : a ≠ Scalar.nan) : stdMax a b ≠ Scalar.nan := by
  cases a <;> cases b <;> simp [stdMax, Scalar.lt] at *
  split_ifs <;> simp

theorem le_stdMax_left (a b : Scalar) (h : a ≠ Scalar.nan) :
    Scalar.le a (stdMax a b) = true := by
  cases a <;> cases b <;> simp [stdMax, Scalar.lt, Scalar.le] at *
  split_ifs <;> simp [Scalar.le]
  linarith

theorem le_stdMax_right (a b : Scalar) (h : a ≠ Scalar.nan) (hb : b ≠ Scalar.nan) :
    Scalar.le b (stdMax a b) = true := by
  cases a <;> cases b <;> simp [stdMax, Scalar.lt, Scalar.le] at *
  split_ifs <;> simp [Scalar.le]
  linarith

theorem stdMax_eq_or (a b : Scalar) : stdMax a b = a ∨ stdMax a b = b := by
  unfold stdMax
  split_ifs
  · exact Or.inr rfl
  · exact Or.inl rfl

theorem foldl_stdMax_spec {ι : Type} (f : ι → Scalar) (l : List ι) (e0 : Scalar)
    (h0 : e0 ≠ Scalar.nan) :
    (l.foldl (fun e i => stdMax e (f i)) e0 = e0 ∨
      ∃ i ∈ l, l.foldl (fun e i => stdMax e (f i)) e0 = f i) ∧
    Scalar.le e0 (l.foldl (fun e i => stdMax e (f i)) e0) = true ∧
    ∀ i ∈ l, f i ≠ Scalar.nan → Scalar.le (f i) (l.foldl (fun e i => stdMax e (f i)) e0) = true := by
  induction l generalizing e0 with
  | nil =>
    refine ⟨Or.inl rfl, Scalar.le_refl_of_ne_nan _ h0, ?_⟩
    intro i hi
    simp at hi
  | cons a l ih =>
    rw [List.foldl_cons]
    obtain ⟨hmem, hle, hub⟩ := ih (stdMax e0 (f a)) (stdMax_ne_nan _ _ h0)
    refine ⟨?_, ?_, ?_⟩
    · rcases hmem with h | ⟨i, hi, h⟩
      · rcases stdMax_eq_or e0 (f a) with h' | h'
        · exact Or.inl (h.trans h')
        · exact Or.inr ⟨a, List.mem_cons_self _ _, h.trans h'⟩
      · exact Or.inr ⟨i, List.mem_cons_of_mem _ hi, h⟩
    · exact Scalar.le_trans _ _ _ (le_stdMax_left _ _ h0) hle
    · intro i hi hn
      rcases List.mem_cons.1 hi with h | h
      · subst h
        exact Scalar.le_trans _ _ _ (le_stdMax_right _ _ h0 hn) hle
      · exact hub i h hn

theorem forLoop_error_stdMax {n : Nat} (f : Fin n → Scalar) (l : List (Fin n))
    (c : BoxNewtonController) :
    l.foldl (fun (acc : BoxNewtonController) i => { acc with error_ := stdMax acc.error_ (f i) }) c
      = { c with error_ := l.foldl (fun e i => stdMax e (f i)) c.error_ } := by
  induction l generalizing c with
  | nil => rfl
  | cons a l ih =>
    rw [List.foldl_cons, ih]
    rfl

theorem reduceRelError_eq (commMax : Scalar → Scalar) (maxError e : Scalar) :
    BoxNewtonController.reduceRelError commMax maxError e =
      (commMax e,
       if Scalar.gt (commMax e) maxError then some Exception.NumericalProblem else none) := by
  simp only [BoxNewtonController.reduceRelError]
  split_ifs <;> rfl

/-- The local part of `newtonUpdateRelError`: when the relative criterion or the
reassembly heuristic is enabled, the value handed to the collective maximum is
the maximum, from `0`, of the deflections of all degrees of freedom. -/
theorem newtonUpdateRelError_enabled {W : Type} {n numEq : Nat} (p : ParentType)
    (m : Model W n numEq) (maxError : Scalar) (c : BoxNewtonController)
    (uCurrentIter uLastIter : SolutionVector n numEq) (deltaU : GlobalEqVector n numEq)
    (hen : (c.enableRelativeCriterion_ || c.enablePartialReassemble_) = true) :
    ∃ e, IsMaxFromZero (vertexDeflection m uLastIter deltaU) e ∧
      BoxNewtonController.newtonUpdateRelError p m maxError c uCurrentIter uLastIter deltaU =
        ({ c with error_ := p.commMax e },
         if Scalar.gt (p.commMax e) maxError then some Exception.NumericalProblem else none) := by
  have hguard : (!c.enableRelativeCriterion_ && !c.enablePartialReassemble_) = false := by
    cases h1 : c.enableRelativeCriterion_ <;> cases h2 : c.enablePartialReassemble_ <;>
      simp_all
  obtain ⟨hmem, hle, hub⟩ := foldl_stdMax_spec (vertexDeflection m uLastIter deltaU)
    (List.finRange n) (Scalar.fin 0) (by simp)
  refine ⟨(List.finRange n).foldl (fun e i => stdMax e (vertexDeflection m uLastIter deltaU i))
    (Scalar.fin 0), ⟨?_, hle, ?_⟩, ?_⟩
  · rcases hmem with h | ⟨i, _, h⟩
    · exact Or.inl h
    · exact Or.inr ⟨i, h⟩
  · intro i hn
    exact hub i (List.mem_finRange i) hn
  · have hloop := forLoop_error_stdMax (vertexDeflection m uLastIter deltaU) (List.finRange n)
      { c with error_ := Scalar.fin 0 }
    simp only [BoxNewtonController.newtonUpdateRelError, hguard, Bool.false_eq_true, if_false,
      forLoop, reduceRelError_eq]
    unfold vertexDeflection at hloop
    rw [hloop]
    rfl

theorem sample_deflection (i : Fin 1) :
    vertexDeflection (idleModel (fun _ => Scalar.fin 0)) (oneDof 2) (oneDof (1 / 2)) i
      = Scalar.fin (1 / 2) := by
  simp only [vertexDeflection, idleModel, fieldSubAssign, oneDof, Scalar.sub, Scalar.neg,
    Scalar.add, Scalar.ofRat, Scalar.overflowThreshold]
  norm_num

theorem sample_isMax (e : Scalar)
    (h : IsMaxFromZero
      (vertexDeflection (idleModel (fun _ => Scalar.fin 0)) (oneDof 2) (oneDof (1 / 2))) e) :
    e = Scalar.fin (1 / 2) := by
  obtain ⟨hmem, _, hub⟩ := h
  rcases hmem with h0 | ⟨i, hi⟩
  · have := hub 0 (by rw [sample_deflection]; simp)
    rw [sample_deflection, h0] at this
    simp only [Scalar.le, decide_eq_true_eq] at this
    norm_num at this
  · rw [hi, sample_deflection]

/-- C6 as stated fails: with the relative criterion and the reassembly
heuristic both disabled, `newtonUpdateRelError` returns at once.  For
`uLast = [2]`, `deltaU = [0.5]` the maximum deflection is `0.5`, yet `error_`
keeps the value `5` it had before the call. -/
theorem newtonUpdateRelError_disabled_keeps_error :
    IsMaxFromZero
      (vertexDeflection (idleModel (fun _ => Scalar.fin 0)) (oneDof 2) (oneDof (1 / 2)))
      (Scalar.fin (1 / 2)) ∧
    (BoxNewtonController.newtonUpdateRelError serialParent (idleModel (fun _ => Scalar.fin 0))
      (Scalar.fin 1) criteriaOffController (oneDof 0) (oneDof 2) (oneDof (1 / 2))).1.error_
      = Scalar.fin 5 ∧
    ¬ RelErrorStored serialParent (idleModel (fun _ => Scalar.fin 0)) (Scalar.fin 1)
      criteriaOffController (oneDof 0) (oneDof 2) (oneDof (1 / 2)) := by
  refine ⟨⟨Or.inr ⟨0, ?_⟩, ?_, ?_⟩, rfl, ?_⟩
  · rw [sample_deflection]
  · simp [Scalar.le]
  · intro i _
    rw [sample_deflection]
    simp only [Scalar.le, decide_eq_true_eq]
    norm_num
  · rintro ⟨e, he, h⟩
    rw [sample_isMax e he] at h
    have h5 : (BoxNewtonController.newtonUpdateRelError serialParent
        (idleModel (fun _ => Scalar.fin 0)) (Scalar.fin 1) criteriaOffController (oneDof 0)
        (oneDof 2) (oneDof (1 / 2))).1.error_ = Scalar.fin 5 := rfl
    rw [h5] at h
    simp only [serialParent, id, Scalar.fin.injEq] at h
    norm_num at h

/-- C6, amended: when the relative criterion or the reassembly heuristic is
enabled, `newtonUpdateRelError` stores in `error_` the collective maximum of
the local error, which is the maximum, taken from `0`, over all degrees of
freedom `i` of `relativeErrorVertex (i, uLastIter[i], uLastIter[i] - deltaU[i])`
(so `0` when there is no degree of freedom). -/
theorem newtonUpdateRelError_stores_max {W : Type} {n numEq : Nat} (p : ParentType)
    (m : Model W n numEq) (maxError : Scalar) (c : BoxNewtonController)
    (uCurrentIter uLastIter : SolutionVector n numEq) (deltaU : GlobalEqVector n numEq)
    (hen : (c.enableRelativeCriterion_ || c.enablePartialReassemble_) = true) :
    RelErrorStored p m maxError c uCurrentIter uLastIter deltaU ∧
    (n = 0 →
      (BoxNewtonController.newtonUpdateRelError p m maxError c uCurrentIter uLastIter
        deltaU).1.error_ = p.commMax (Scalar.fin 0)) := by
  obtain ⟨e, he, h⟩ := newtonUpdateRelError_enabled p m maxError c uCurrentIter uLastIter
    deltaU hen
  refine ⟨⟨e, he, by rw [h]⟩, ?_⟩
  intro hn
  subst hn
  rcases he.1 with h0 | ⟨i, _⟩
  · rw [h, h0]
  · exact i.elim0

/-- C6 amended, evaluated: with the relative criterion enabled, `uLast = [2]`
and `deltaU = [0.5]` on a single partition the stored error is `0.5`. -/
theorem newtonUpdateRelError_stores_max_witness :
    ((sampleController false false false).enableRelativeCriterion_
      || (sampleController false false false).enablePartialReassemble_) = true ∧
    (BoxNewtonController.newtonUpdateRelError serialParent (idleModel (fun _ => Scalar.fin 0))
      (Scalar.fin 1) (sampleController false false false) (oneDof 0) (oneDof 2)
      (oneDof (1 / 2))).1.error_ = Scalar.fin (1 / 2) := by
  refine ⟨rfl, ?_⟩
  obtain ⟨⟨e, he, h⟩, _⟩ := newtonUpdateRelError_stores_max serialParent
    (idleModel (fun _ => Scalar.fin 0)) (Scalar.fin 1) (sampleController false false false)
    (oneDof 0) (oneDof 2) (oneDof (1 / 2)) rfl
  rw [h, sample_isMax e he]
  rfl

/-- C7 as stated fails: with the relative criterion and the reassembly
heuristic both disabled, `uLast = [2]`, `deltaU = [0.5]` and a maximum allowed
error of `0.1`, the maximum deflection `0.5` exceeds the allowed error (and so
does the value `5` held by `error_`), yet `newtonUpdateRelError` returns
without an exception. -/
theorem newtonUpdateRelError_disabled_no_throw :
    Scalar.gt (Scalar.fin (1 / 2)) (Scalar.fin (1 / 10)) = true ∧
    Scalar.gt (Scalar.fin 5) (Scalar.fin (1 / 10)) = true ∧
    (BoxNewtonController.newtonUpdateRelError serialParent (idleModel (fun _ => Scalar.fin 0))
      (Scalar.fin (1 / 10)) criteriaOffController (oneDof 0) (oneDof 2) (oneDof (1 / 2))).2
      = none ∧
    ¬ RelErrorChecked serialParent (idleModel (fun _ => Scalar.fin 0)) (Scalar.fin (1 / 10))
      criteriaOffController (oneDof 0) (oneDof 2) (oneDof (1 / 2)) := by
  have hgt : Scalar.gt (Scalar.fin (1 / 2)) (Scalar.fin (1 / 10)) = true := by
    simp only [Scalar.gt, Scalar.lt, decide_eq_true_eq]
    norm_num
  refine ⟨hgt, ?_, rfl, ?_⟩
  · simp only [Scalar.gt, Scalar.lt, decide_eq_true_eq]
    norm_num
  · rintro ⟨e, he, h⟩
    rw [sample_isMax e he] at h
    have hnone : (BoxNewtonController.newtonUpdateRelError serialParent
        (idleModel (fun _ => Scalar.fin 0)) (Scalar.fin (1 / 10)) criteriaOffController
        (oneDof 0) (oneDof 2) (oneDof (1 / 2))).2 = none := rfl
    rw [hnone] at h
    simp only [serialParent, id, hgt, if_true] at h
    exact Option.noConfusion h

/-- C7, amended: when the relative criterion or the reassembly heuristic is
enabled, `newtonUpdateRelError` throws `NumericalProblem` if the relative error
reduced over all partitions exceeds the maximum allowed error, and returns
normally if it does not. -/
theorem newtonUpdateRelError_checks_max {W : Type} {n numEq : Nat} (p : ParentType)
    (m : Model W n numEq) (maxError : Scalar) (c : BoxNewtonController)
    (uCurrentIter uLastIter : SolutionVector n numEq) (deltaU : GlobalEqVector n numEq)
    (hen : (c.enableRelativeCriterion_ || c.enablePartialReassemble_) = true) :
    RelErrorChecked p m maxError c uCurrentIter uLastIter deltaU ∧
    (BoxNewtonController.newtonUpdateRelError p m maxError c uCurrentIter uLastIter deltaU).2 =
      (if Scalar.gt
          (BoxNewtonController.newtonUpdateRelError p m maxError c uCurrentIter uLastIter
            deltaU).1.error_ maxError
       then some Exception.NumericalProblem else none) := by
  obtain ⟨e, he, h⟩ := newtonUpdateRelError_enabled p m maxError c uCurrentIter uLastIter
    deltaU hen
  exact ⟨⟨e, he, by rw [h]⟩, by rw [h]⟩

/-- C7 amended, evaluated: with the relative criterion enabled and a maximum
deflection of `0.5`, a maximum allowed error of `0.1` gives `NumericalProblem`
and a maximum allowed error of `1` gives a normal return. -/
theorem newtonUpdateRelError_checks_max_witness :
    (BoxNewtonController.newtonUpdateRelError serialParent (idleModel (fun _ => Scalar.fin 0))
      (Scalar.fin (1 / 10)) (sampleController false false false) (oneDof 0) (oneDof 2)
      (oneDof (1 / 2))).2 = some Exception.NumericalProblem ∧
    (BoxNewtonController.newtonUpdateRelError serialParent (idleModel (fun _ => Scalar.fin 0))
      (Scalar.fin 1) (sampleController false false false) (oneDof 0) (oneDof 2)
      (oneDof (1 / 2))).2 = none := by
  constructor
  · obtain ⟨⟨e, he, h⟩, _⟩ := newtonUpdateRelError_checks_max serialParent
      (idleModel (fun _ => Scalar.fin 0)) (Scalar.fin (1 / 10))
      (sampleController false false false) (oneDof 0) (oneDof 2) (oneDof (1 / 2)) rfl
    rw [h, sample_isMax e he]
    have hgt : Scalar.gt (serialParent.commMax (Scalar.fin (1 / 2))) (Scalar.fin (1 / 10))
        = true := by
      simp only [serialParent, id, Scalar.gt, Scalar.lt, decide_eq_true_eq]
      norm_num
    rw [hgt]
    rfl
  · obtain ⟨⟨e, he, h⟩, _⟩ := newtonUpdateRelError_checks_max serialParent
      (idleModel (fun _ => Scalar.fin 0)) (Scalar.fin 1)
      (sampleController false false false) (oneDof 0) (oneDof 2) (oneDof (1 / 2)) rfl
    rw [h, sample_isMax e he]
    have hgt : Scalar.gt (serialParent.commMax (Scalar.fin (1 / 2))) (Scalar.fin 1)
        = false := by
      simp only [serialParent, id, Scalar.gt, Scalar.lt, decide_eq_false_iff_not]
      norm_num
    rw [hgt]
    rfl

/-! ## The collective maximum -/

theorem foldl_stdMax_mem (l : List Scalar) (e0 : Scalar) :
    l.foldl stdMax e0 = e0 ∨ l.foldl stdMax e0 ∈ l := by
  induction l generalizing e0 with
  | nil => exact Or.inl rfl
  | cons a l ih =>
    rw [List.foldl_cons]
    rcases ih (stdMax e0 a) with h | h
    · rcases stdMax_eq_or e0 a with h' | h'
      · exact Or.inl (h.trans h')
      · exact Or.inr (by rw [h, h']; exact List.mem_cons_self _ _)
    · exact Or.inr (List.mem_cons_of_mem _ h)

theorem collectiveMax_mem (locals : List Scalar) (hne : locals ≠ []) :
    collectiveMax locals ∈ locals := by
  cases locals with
  | nil => exact absurd rfl hne
  | cons e es =>
    rcases foldl_stdMax_mem es e with h | h
    · simp only [collectiveMax, h]
      exact List.mem_cons_self _ _
    · exact List.mem_cons_of_mem _ h

theorem collectiveMax_upper (locals : List Scalar) (hnan : ∀ e ∈ locals, e ≠ Scalar.nan) :
    ∀ e ∈ locals, Scalar.le e (collectiveMax locals) = true := by
  cases locals with
  | nil =>
    intro e he
    simp at he
  | cons a es =>
    obtain ⟨_, hle, hub⟩ := foldl_stdMax_spec (fun x : Scalar => x) es a
      (hnan a (List.mem_cons_self _ _))
    intro e he
    rcases List.mem_cons.1 he with h | h
    · rw [h]
      exact hle
    · exact hub e h (hnan e (List.mem_cons_of_mem _ h))

/-- C8: after the collective maximum every partition holds the same reduced
error, the maximum of the local errors of all partitions (one of them, and not
below any of them; a local error is never `NaN`, being a maximum taken from
`0`), and every partition takes the same decision against the maximum allowed
error. -/
theorem reduceRelErrorAll_consistent (maxError : Scalar) (locals : List Scalar)
    (hne : locals ≠ []) :
    (reduceRelErrorAll maxError locals).length = locals.length ∧
    (∀ r ∈ reduceRelErrorAll maxError locals,
      r = (collectiveMax locals,
           if Scalar.gt (collectiveMax locals) maxError then some Exception.NumericalProblem
           else none)) ∧
    collectiveMax locals ∈ locals ∧
    ((∀ e ∈ locals, e ≠ Scalar.nan) →
      ∀ e ∈ locals, Scalar.le e (collectiveMax locals) = true) := by
  refine ⟨by simp [reduceRelErrorAll], ?_, collectiveMax_mem locals hne,
    collectiveMax_upper locals⟩
  intro r hr
  simp only [reduceRelErrorAll, List.mem_map] at hr
  obtain ⟨e, _, h⟩ := hr
  rw [← h, reduceRelError_eq]

/-- C8, evaluated: the local errors `0.01, 0.03, 0.02` of three partitions give
the reduced error `0.03` on each of them, and with a maximum allowed error of
`1` none of them fails. -/
theorem reduceRelErrorAll_consistent_witness :
    [Scalar.fin (1 / 100), Scalar.fin (3 / 100), Scalar.fin (2 / 100)] ≠ [] ∧
    reduceRelErrorAll (Scalar.fin 1)
        [Scalar.fin (1 / 100), Scalar.fin (3 / 100), Scalar.fin (2 / 100)]
      = [(Scalar.fin (3 / 100), none), (Scalar.fin (3 / 100), none),
         (Scalar.fin (3 / 100), none)] := by
  have hne : [Scalar.fin (1 / 100), Scalar.fin (3 / 100), Scalar.fin (2 / 100)] ≠ [] := by
    simp
  have hmax : collectiveMax [Scalar.fin (1 / 100), Scalar.fin (3 / 100), Scalar.fin (2 / 100)]
      = Scalar.fin (3 / 100) := by
    simp only [collectiveMax, List.foldl, stdMax, Scalar.lt]
    norm_num
  have hgt : Scalar.gt (Scalar.fin (3 / 100)) (Scalar.fin 1) = false := by
    simp only [Scalar.gt, Scalar.lt, decide_eq_false_iff_not]
    norm_num
  obtain ⟨_, hall, _, _⟩ := reduceRelErrorAll_consistent (Scalar.fin 1)
    [Scalar.fin (1 / 100), Scalar.fin (3 / 100), Scalar.fin (2 / 100)] hne
  refine ⟨hne, ?_⟩
  simp only [hmax, hgt, Bool.false_eq_true, if_false] at hall
  have h0 := hall _ (List.mem_cons_self _ _)
  have h1 := hall _ (List.mem_cons_of_mem _ (List.mem_cons_self _ _))
  have h2 := hall _ (List.mem_cons_of_mem _ (List.mem_cons_of_mem _ (List.mem_cons_self _ _)))
  simp only [reduceRelErrorAll, List.map] at h0 h1 h2 ⊢
  rw [h0, h1, h2]

/-! ## The hooks at the end of a nonlinear solve -/

/-- C9: `newtonFail` calls `reassembleAll` on the Jacobian assembler, whatever
the state of the assembler and of the controller: the assembler is left in the
state which `reassembleAll` produces, the recording model receives exactly one
call, `reassembleAll`, and the flags of the controller play no part.  For the
assembler state of the specification, every state (marked reusable or not,
with or without a colouring) is taken to the state of full reassembly. -/
theorem newtonFail_reassembles_all {W : Type} {n numEq : Nat} (p : ParentType)
    (m : Model W n numEq) (c : BoxNewtonController) (w : W) :
    (BoxNewtonController.newtonFail p m c w).2 = m.jacobianAssembler.reassembleAll w ∧
    (BoxNewtonController.newtonFail p m c w).1.toNewtonController
      = p.newtonFail c.toNewtonController ∧
    (∀ (relErr : Fin n → PrimaryVariables numEq → PrimaryVariables numEq → Scalar)
      (residual : List (Event n numEq) → SolutionVector n numEq → Scalar)
      (w0 : List (Event n numEq)),
      (BoxNewtonController.newtonFail p (recordingModel relErr residual) c w0).2
        = w0 ++ [Event.reassembleAll]) ∧
    (∀ (relErr : Fin n → PrimaryVariables numEq → PrimaryVariables numEq → Scalar)
      (residual : SolutionVector n numEq → Scalar) (s : AssemblerState),
      (BoxNewtonController.newtonFail p (specModel relErr residual) c s).2
        = { matrixReuseable := false, coloring := none }) :=
  ⟨rfl, rfl, fun _ _ _ => rfl, fun _ _ _ => rfl⟩

/-- C10: `newtonSucceed` does exactly one of two things: with Jacobian
recycling enabled it calls `setMatrixReuseable (true)` and not `reassembleAll`,
with recycling disabled it calls `reassembleAll` and not
`setMatrixReuseable`.  For the assembler state of the specification the matrix
ends marked reusable in the first case and not marked in the second. -/
theorem newtonSucceed_marks_or_reassembles {W : Type} {n numEq : Nat} (p : ParentType)
    (m : Model W n numEq) (c : BoxNewtonController) (w : W) :
    (BoxNewtonController.newtonSucceed p m c w).2 =
      (if c.enableJacobianRecycling_ then m.jacobianAssembler.setMatrixReuseable true w
       else m.jacobianAssembler.reassembleAll w) ∧
    (∀ (relErr : Fin n → PrimaryVariables numEq → PrimaryVariables numEq → Scalar)
      (residual : List (Event n numEq) → SolutionVector n numEq → Scalar)
      (w0 : List (Event n numEq)),
      (BoxNewtonController.newtonSucceed p (recordingModel relErr residual) c w0).2 =
        w0 ++ [if c.enableJacobianRecycling_ then Event.setMatrixReuseable true
               else Event.reassembleAll]) ∧
    (∀ (relErr : Fin n → PrimaryVariables numEq → PrimaryVariables numEq → Scalar)
      (residual : SolutionVector n numEq → Scalar) (s : AssemblerState),
      (BoxNewtonController.newtonSucceed p (specModel relErr residual) c s).2 =
        if c.enableJacobianRecycling_ then { s with matrixReuseable := true }
        else { matrixReuseable := false, coloring := none }) := by
  cases h : c.enableJacobianRecycling_ <;>
    simp [BoxNewtonController.newtonSucceed, h, recordingModel, specModel, specAssembler]

/-! ## Rows of a compressed matrix -/

theorem rowEntry_rowAddAt {numEq : Nat} (row row' : MatrixRow numEq) (j : Nat)
    (x : BlockType numEq) (h : rowAddAt row j x = some row') (k : Nat) :
    rowEntry row' k =
      if k = j then (rowEntry row j).map (fun v => blockAdd v x) else rowEntry row k := by
  induction row generalizing row' with
  | nil => simp [rowAddAt] at h
  | cons a row ih =>
    obtain ⟨c, v⟩ := a
    by_cases hc : c = j
    · simp only [rowAddAt, hc, if_true, Option.some.injEq] at h
      subst h
      by_cases hk : k = j
      · simp [rowEntry, hc, hk]
      · have hk' : ¬ j = k := fun e => hk e.symm
        simp [rowEntry, hc, hk, hk']
    · simp only [rowAddAt, hc, if_false, Option.map_eq_some'] at h
      obtain ⟨rest', hrest, hrow⟩ := h
      subst hrow
      have := ih rest' hrest
      by_cases hk : k = j
      · subst hk
        simp only [rowEntry, hc, if_false, this, if_true]
      · by_cases hck : c = k
        · simp [rowEntry, hck, hk]
        · simp only [rowEntry, hck, if_false, this, hk]

theorem rowCols_rowAddAt {numEq : Nat} (row row' : MatrixRow numEq) (j : Nat)
    (x : BlockType numEq) (h : rowAddAt row j x = some row') :
    row'.map Prod.fst = row.map Prod.fst := by
  induction row generalizing row' with
  | nil => simp [rowAddAt] at h
  | cons a row ih =>
    obtain ⟨c, v⟩ := a
    by_cases hc : c = j
    · simp only [rowAddAt, hc, if_true, Option.some.injEq] at h
      subst h
      simp [hc]
    · simp only [rowAddAt, hc, if_false, Option.map_eq_some'] at h
      obtain ⟨rest', hrest, hrow⟩ := h
      subst hrow
      simp [ih rest' hrest]

theorem foldl_flatMap {α β σ : Type} (f : σ → β → σ) (g : α → List β) (l : List α) (s : σ) :
    (l.flatMap g).foldl f s = l.foldl (fun s a => (g a).foldl f s) s := by
  induction l generalizing s with
  | nil => rfl
  | cons a l ih => simp [List.flatMap_cons, List.foldl_append, ih]

theorem communicate_scatter_eq {numEq : Nat} (ex : Exchanger) (gridView : GridView)
    (st : ExchangeState numEq) (received : List (Nat × List (MatEntry numEq))) :
    communicate gridView (MatEntryExchange.scatter ex) st received =
      (scatterRequests gridView received).foldl (scatterRequest ex) st := by
  unfold communicate scatterRequests
  rw [foldl_flatMap]
  congr 1
  funext st msg
  rw [foldl_flatMap]
  congr 1
  funext st e
  simp [MatEntryExchange.scatter, List.foldl_map, scatterRequest]

theorem scatterRequest_thrown {numEq : Nat} (ex : Exchanger) (st : ExchangeState numEq)
    (req : Nat × MatEntry numEq) (h : st.thrown ≠ none) : scatterRequest ex st req = st := by
  unfold scatterRequest MatEntryExchange.scatterEntry
  cases hs : st.thrown with
  | none => exact absurd hs h
  | some e => rfl

theorem foldl_scatterRequest_thrown {numEq : Nat} (ex : Exchanger)
    (reqs : List (Nat × MatEntry numEq)) (st : ExchangeState numEq) (h : st.thrown ≠ none) :
    reqs.foldl (scatterRequest ex) st = st := by
  induction reqs with
  | nil => rfl
  | cons r reqs ih => rw [List.foldl_cons, scatterRequest_thrown ex st r h, ih]

theorem thrown_of_foldl_scatterRequest {numEq : Nat} (ex : Exchanger)
    (reqs : List (Nat × MatEntry numEq)) (st : ExchangeState numEq)
    (h : (reqs.foldl (scatterRequest ex) st).thrown = none) : st.thrown = none := by
  by_contra hne
  rw [foldl_scatterRequest_thrown ex reqs st hne] at h
  exact hne h

/-- What one write request does to a state without error. -/
theorem scatterRequest_cases {numEq : Nat} (ex : Exchanger) (st : ExchangeState numEq)
    (req : Nat × MatEntry numEq) (h : st.thrown = none) :
    (ex.gid2Index_ req.2.first = none ∧ scatterRequest ex st req = st) ∨
    (∃ j row, ex.gid2Index_ req.2.first = some j ∧ rowAddAt (st.A_ req.1) j req.2.second = some row ∧
      scatterRequest ex st req = { st with A_ := Function.update st.A_ req.1 row }) ∨
    (∃ j, ex.gid2Index_ req.2.first = some j ∧ rowAddAt (st.A_ req.1) j req.2.second = none ∧
      scatterRequest ex st req =
        { st with thrown := some ISTLError.indexNotInCompressedArray }) := by
  unfold scatterRequest MatEntryExchange.scatterEntry
  rw [h]
  cases hg : ex.gid2Index_ req.2.first with
  | none => exact Or.inl ⟨rfl, rfl⟩
  | some j =>
    cases hr : rowAddAt (st.A_ req.1) j req.2.second with
    | none => exact Or.inr (Or.inr ⟨j, rfl, hr, by simp [hr]⟩)
    | some row => exact Or.inr (Or.inl ⟨j, row, rfl, hr, by simp [hr]⟩)

theorem foldl_scatterRequest_cols {numEq : Nat} (ex : Exchanger)
    (reqs : List (Nat × MatEntry numEq)) (st : ExchangeState numEq) (i : Nat) :
    ((reqs.foldl (scatterRequest ex) st).A_ i).map Prod.fst = (st.A_ i).map Prod.fst := by
  induction reqs generalizing st with
  | nil => rfl
  | cons r reqs ih =>
    rw [List.foldl_cons, ih]
    cases ht : st.thrown with
    | some e => rw [scatterRequest_thrown ex st r (by simp [ht])]
    | none =>
      rcases scatterRequest_cases ex st r ht with ⟨_, h⟩ | ⟨j, row, _, hrow, h⟩ | ⟨j, _, _, h⟩
      · rw [h]
      · rw [h]
        by_cases hi : i = r.1
        · subst hi
          simp [rowCols_rowAddAt _ _ _ _ hrow]
        · simp [Function.update_noteq hi]
      · rw [h]

theorem foldl_scatterRequest_entry {numEq : Nat} (ex : Exchanger)
    (reqs : List (Nat × MatEntry numEq)) (st : ExchangeState numEq)
    (h : (reqs.foldl (scatterRequest ex) st).thrown = none) (i j : Nat) :
    rowEntry ((reqs.foldl (scatterRequest ex) st).A_ i) j =
      (rowEntry (st.A_ i) j).map (fun v => (contributions ex reqs i j).foldl blockAdd v) := by
  induction reqs generalizing st with
  | nil => simp [contributions]
  | cons r reqs ih =>
    rw [List.foldl_cons] at h ⊢
    have ht1 := thrown_of_foldl_scatterRequest ex reqs _ h
    have ht : st.thrown = none := by
      by_contra hne
      rw [scatterRequest_thrown ex st r hne] at ht1
      exact hne ht1
    rw [ih _ h]
    rcases scatterRequest_cases ex st r ht with ⟨hg, hs⟩ | ⟨c, row, hg, hrow, hs⟩ | ⟨c, _, _, hs⟩
    · rw [hs]
      simp [contributions, List.filterMap_cons, hg]
    · rw [hs]
      by_cases hi : r.1 = i
      · subst hi
        simp only [Function.update_same]
        rw [rowEntry_rowAddAt _ _ _ _ hrow j]
        by_cases hj : j = c
        · subst hj
          simp only [if_true, contributions, List.filterMap_cons, hg, and_self, List.foldl_cons]
          cases rowEntry (st.A_ r.1) j <;> simp
        · have hj' : ¬ c = j := fun e => hj e.symm
          simp [contributions, List.filterMap_cons, hg, hj, hj']
      · have hi' : i ≠ r.1 := fun e => hi e.symm
        simp [Function.update_noteq hi', contributions, List.filterMap_cons, hi]
    · rw [hs] at ht1
      simp at ht1

theorem foldl_scatterRequest_row_frame {numEq : Nat} (ex : Exchanger)
    (reqs : List (Nat × MatEntry numEq)) (st : ExchangeState numEq) (i : Nat)
    (hi : i ∉ reqs.map Prod.fst) :
    (reqs.foldl (scatterRequest ex) st).A_ i = st.A_ i := by
  induction reqs generalizing st with
  | nil => rfl
  | cons r reqs ih =>
    simp only [List.map_cons, List.mem_cons, not_or] at hi
    rw [List.foldl_cons, ih _ hi.2]
    cases ht : st.thrown with
    | some e => rw [scatterRequest_thrown ex st r (by simp [ht])]
    | none =>
      rcases scatterRequest_cases ex st r ht with ⟨_, h⟩ | ⟨j, row, _, _, h⟩ | ⟨j, _, _, h⟩
      · rw [h]
      · rw [h]
        simp [Function.update_noteq hi.1]
      · rw [h]

theorem foldl_scatterRequest_col_frame {numEq : Nat} (ex : Exchanger)
    (reqs : List (Nat × MatEntry numEq)) (st : ExchangeState numEq) (i j : Nat)
    (hj : ∀ g, ex.gid2Index_ g ≠ some j) :
    rowEntry ((reqs.foldl (scatterRequest ex) st).A_ i) j = rowEntry (st.A_ i) j := by
  induction reqs generalizing st with
  | nil => rfl
  | cons r reqs ih =>
    rw [List.foldl_cons, ih]
    cases ht : st.thrown with
    | some e => rw [scatterRequest_thrown ex st r (by simp [ht])]
    | none =>
      rcases scatterRequest_cases ex st r ht with ⟨_, h⟩ | ⟨c, row, hg, hrow, h⟩ | ⟨c, _, _, h⟩
      · rw [h]
      · rw [h]
        by_cases hi : i = r.1
        · subst hi
          simp only [Function.update_same]
          rw [rowEntry_rowAddAt _ _ _ _ hrow j]
          have hjc : ¬ j = c := by
            intro e
            subst e
            exact hj _ hg
          simp [hjc]
        · simp [Function.update_noteq hi]
      · rw [h]

theorem mem_scatterRequests_row {β : Type} (gridView : GridView)
    (received : List (Nat × List β)) (i : Nat)
    (h : i ∈ (scatterRequests gridView received).map Prod.fst) :
    ∃ e ∈ gridView.vertices, e.partitionType = PartitionType.BorderEntity ∧ e.localIdx = i := by
  simp only [scatterRequests, List.mem_map, List.mem_flatMap, List.mem_filter,
    GridView.borderVertices, decide_eq_true_eq] at h
  obtain ⟨req, ⟨msg, _, e, ⟨⟨he, hb⟩, _⟩, m, _, hreq⟩, hi⟩ := h
  refine ⟨e, he, hb, ?_⟩
  rw [← hi, ← hreq]

/-- C12: `sumEntries` changes nothing but entries in the row of a border vertex
and the column of a border index: a row which is the row of no border vertex of
the partition is unchanged, in every row an entry whose column is not a value
of `gid2Index_` is unchanged, and no row gains or loses a stored column;
whatever the matrix and whatever the other partitions sent (also when the
exchange ends in an error). -/
theorem sumEntries_frame {numEq : Nat} (ex : Exchanger)
    (received : List (Nat × List (MatEntry numEq))) (A : Matrix numEq) :
    (∀ i, (∀ e ∈ ex.gridView_.vertices,
        e.partitionType = PartitionType.BorderEntity → e.localIdx ≠ i) →
      (ex.sumEntries received A).A_ i = A i) ∧
    (∀ i j, (∀ g, ex.gid2Index_ g ≠ some j) →
      rowEntry ((ex.sumEntries received A).A_ i) j = rowEntry (A i) j) ∧
    (∀ i, ((ex.sumEntries received A).A_ i).map Prod.fst = (A i).map Prod.fst) := by
  unfold Exchanger.sumEntries
  split_ifs
  · rw [communicate_scatter_eq]
    refine ⟨?_, ?_, ?_⟩
    · intro i hi
      apply foldl_scatterRequest_row_frame
      intro hmem
      obtain ⟨e, he, hb, hl⟩ := mem_scatterRequests_row _ _ _ hmem
      exact hi e he hb hl
    · intro i j hj
      exact foldl_scatterRequest_col_frame ex _ _ i j hj
    · intro i
      exact foldl_scatterRequest_cols ex _ _ i
  · exact ⟨fun _ _ => rfl, fun _ _ _ => rfl, fun _ => rfl⟩

/-- C13: with a single partition `sumEntries` does not communicate: whatever
it is handed, the matrix after the call is the matrix before the call and no
error is raised. -/
theorem sumEntries_single_partition {numEq : Nat} (ex : Exchanger)
    (received : List (Nat × List (MatEntry numEq))) (A : Matrix numEq)
    (h : ex.gridView_.commSize = 1) :
    ex.sumEntries received A = { A_ := A, thrown := none } := by
  unfold Exchanger.sumEntries
  rw [h]
  simp

/-! ## The registry built by the constructor -/

theorem mapInsert_apply (m : Nat → Option Nat) (key value k : Nat) :
    mapInsert m key value k = if k = key then (m key).or (some value) else m k := by
  unfold mapInsert
  split_ifs
  · cases m key <;> rfl
  · rfl

/-- The loop of the constructor, from any state of the three containers. -/
theorem construct_loop (l : List Vertex) (ex : Exchanger) :
    let r := l.foldl (fun ex vertexIt =>
      if vertexIt.partitionType = PartitionType.BorderEntity then
        { ex with
          gid2Index_ := mapInsert ex.gid2Index_ vertexIt.globalIdx vertexIt.localIdx
          index2GID_ := mapInsert ex.index2GID_ vertexIt.localIdx vertexIt.globalIdx
          borderIndices_ := ex.borderIndices_ ++ [vertexIt.localIdx] }
      else ex) ex
    r.gridView_ = ex.gridView_ ∧
    r.borderIndices_ = ex.borderIndices_ ++
      (l.filter (fun e => e.partitionType = PartitionType.BorderEntity)).map Vertex.localIdx ∧
    (∀ i, r.index2GID_ i = (ex.index2GID_ i).or
      (((l.filter (fun e => e.partitionType = PartitionType.BorderEntity)).find?
        (fun e => e.localIdx = i)).map Vertex.globalIdx)) ∧
    (∀ g, r.gid2Index_ g = (ex.gid2Index_ g).or
      (((l.filter (fun e => e.partitionType = PartitionType.BorderEntity)).find?
        (fun e => e.globalIdx = g)).map Vertex.localIdx)) := by
  induction l generalizing ex with
  | nil => simp
  | cons v l ih =>
    simp only [List.foldl_cons]
    by_cases hb : v.partitionType = PartitionType.BorderEntity
    · simp only [hb, if_true]
      obtain ⟨h1, h2, h3, h4⟩ := ih
        { ex with
          gid2Index_ := mapInsert ex.gid2Index_ v.globalIdx v.localIdx
          index2GID_ := mapInsert ex.index2GID_ v.localIdx v.globalIdx
          borderIndices_ := ex.borderIndices_ ++ [v.localIdx] }
      refine ⟨h1, ?_, ?_, ?_⟩
      · rw [h2]
        simp [List.filter_cons, hb]
      · intro i
        rw [h3]
        simp only [mapInsert_apply, List.filter_cons, hb, decide_True, if_true, List.find?_cons]
        by_cases hi : i = v.localIdx
        · subst hi
          cases ex.index2GID_ v.localIdx <;> simp
        · have hi' : ¬ v.localIdx = i := fun e => hi e.symm
          simp [hi, hi']
      · intro g
        rw [h4]
        simp only [mapInsert_apply, List.filter_cons, hb, decide_True, if_true, List.find?_cons]
        by_cases hi : g = v.globalIdx
        · subst hi
          cases ex.gid2Index_ v.globalIdx <;> simp
        · have hi' : ¬ v.globalIdx = g := fun e => hi e.symm
          simp [hi, hi']
    · simp only [hb, if_false]
      obtain ⟨h1, h2, h3, h4⟩ := ih ex
      refine ⟨h1, ?_, ?_, ?_⟩
      · rw [h2]
        simp [List.filter_cons, hb]
      · intro i
        rw [h3]
        simp [List.filter_cons, hb]
      · intro g
        rw [h4]
        simp [List.filter_cons, hb]

/-- The registry in closed form: the border indices are the local indices of
the border vertices in the order of the enumeration, and each map holds, for a
key, the value of the first border vertex with that key. -/
theorem construct_spec (gridView : GridView) :
    (Exchanger.construct gridView).gridView_ = gridView ∧
    (Exchanger.construct gridView).borderIndices_ =
      gridView.borderVertices.map Vertex.localIdx ∧
    (∀ i, (Exchanger.construct gridView).index2GID_ i =
      (gridView.borderVertices.find? (fun e => e.localIdx = i)).map Vertex.globalIdx) ∧
    (∀ g, (Exchanger.construct gridView).gid2Index_ g =
      (gridView.borderVertices.find? (fun e => e.globalIdx = g)).map Vertex.localIdx) := by
  have h := construct_loop gridView.vertices
    { gridView_ := gridView, gid2Index_ := fun _ => none, index2GID_ := fun _ => none,
      borderIndices_ := [] }
  simp only [List.nil_append, Option.or] at h
  exact h

theorem find?_of_nodup_map {α : Type} (key : α → Nat) (l : List α) (u : α)
    (hn : (l.map key).Nodup) (hu : u ∈ l) :
    l.find? (fun e => key e = key u) = some u := by
  induction l with
  | nil => simp at hu
  | cons a l ih =>
    simp only [List.map_cons, List.nodup_cons, List.mem_map, not_exists, not_and] at hn
    rcases List.mem_cons.1 hu with h | h
    · subst h
      simp
    · have hne : ¬ key a = key u := fun e => hn.1 u h e.symm
      simp only [List.find?_cons, hne, decide_False]
      exact ih hn.2 h

theorem find?_key_eq_some {α : Type} (key : α → Nat) (l : List α) (k : Nat) (u : α)
    (h : l.find? (fun e => key e = k) = some u) : u ∈ l ∧ key u = k := by
  refine ⟨List.mem_of_find?_eq_some h, ?_⟩
  have := List.find?_some h
  simpa using this

theorem borderVertices_nodup_map (gridView : GridView) (key : Vertex → Nat)
    (h : (gridView.vertices.map key).Nodup) : (gridView.borderVertices.map key).Nodup :=
  List.Nodup.sublist (List.Sublist.map key (List.filter_sublist _)) h

theorem mem_borderVertices (gridView : GridView) (e : Vertex) :
    e ∈ gridView.borderVertices ↔
      e ∈ gridView.vertices ∧ e.partitionType = PartitionType.BorderEntity := by
  simp [GridView.borderVertices]

/-- With distinct local indices and distinct global identifiers the two maps
of the registry hold exactly the border vertices. -/
theorem construct_maps (gridView : GridView)
    (hl : (gridView.borderVertices.map Vertex.localIdx).Nodup)
    (hg : (gridView.borderVertices.map Vertex.globalIdx).Nodup) (i g : Nat) :
    ((Exchanger.construct gridView).index2GID_ i = some g ↔
      ∃ e ∈ gridView.borderVertices, e.localIdx = i ∧ e.globalIdx = g) ∧
    ((Exchanger.construct gridView).gid2Index_ g = some i ↔
      ∃ e ∈ gridView.borderVertices, e.localIdx = i ∧ e.globalIdx = g) := by
  obtain ⟨_, _, h3, h4⟩ := construct_spec gridView
  rw [h3, h4]
  constructor
  · constructor
    · intro h
      simp only [Option.map_eq_some'] at h
      obtain ⟨e, he, hge⟩ := h
      obtain ⟨hm, hk⟩ := find?_key_eq_some Vertex.localIdx _ _ _ he
      exact ⟨e, hm, hk, hge⟩
    · rintro ⟨e, he, rfl, rfl⟩
      rw [find?_of_nodup_map Vertex.localIdx _ e hl he]
      rfl
  · constructor
    · intro h
      simp only [Option.map_eq_some'] at h
      obtain ⟨e, he, hge⟩ := h
      obtain ⟨hm, hk⟩ := find?_key_eq_some Vertex.globalIdx _ _ _ he
      exact ⟨e, hm, hge, hk⟩
    · rintro ⟨e, he, rfl, rfl⟩
      rw [find?_of_nodup_map Vertex.globalIdx _ e hg he]
      rfl

/-- C15: for a vertex enumeration on which the vertex mapper and the global
identifiers are injective, the constructor builds two maps which are inverse
to each other (`index2GID_[i] = g` if and only if `gid2Index_[g] = i`); the keys
of `index2GID_` are exactly the local indices of the vertices of partition type
`BorderEntity`, so the index of a vertex of another partition type is no key;
and `borderIndices_` lists exactly those local indices, each once. -/
theorem construct_registry (gridView : GridView)
    (hl : (gridView.vertices.map Vertex.localIdx).Nodup)
    (hg : (gridView.vertices.map Vertex.globalIdx).Nodup) :
    (∀ i g, (Exchanger.construct gridView).index2GID_ i = some g ↔
      (Exchanger.construct gridView).gid2Index_ g = some i) ∧
    (∀ i, (∃ g, (Exchanger.construct gridView).index2GID_ i = some g) ↔
      ∃ e ∈ gridView.vertices, e.partitionType = PartitionType.BorderEntity ∧ e.localIdx = i) ∧
    (∀ e ∈ gridView.vertices, e.partitionType ≠ PartitionType.BorderEntity →
      (Exchanger.construct gridView).index2GID_ e.localIdx = none) ∧
    (Exchanger.construct gridView).borderIndices.Nodup ∧
    (∀ i, i ∈ (Exchanger.construct gridView).borderIndices ↔
      ∃ e ∈ gridView.vertices, e.partitionType = PartitionType.BorderEntity ∧ e.localIdx = i) := by
  have hbl := borderVertices_nodup_map gridView Vertex.localIdx hl
  have hbg := borderVertices_nodup_map gridView Vertex.globalIdx hg
  have hkeys : ∀ i, (∃ g, (Exchanger.construct gridView).index2GID_ i = some g) ↔
      ∃ e ∈ gridView.vertices, e.partitionType = PartitionType.BorderEntity ∧
        e.localIdx = i := by
    intro i
    constructor
    · rintro ⟨g, h⟩
      obtain ⟨e, he, hi, _⟩ := ((construct_maps gridView hbl hbg i g).1).1 h
      rw [mem_borderVertices] at he
      exact ⟨e, he.1, he.2, hi⟩
    · rintro ⟨e, he, hb, hi⟩
      exact ⟨e.globalIdx, ((construct_maps gridView hbl hbg i e.globalIdx).1).2
        ⟨e, (mem_borderVertices _ _).2 ⟨he, hb⟩, hi, rfl⟩⟩
  refine ⟨?_, hkeys, ?_, ?_, ?_⟩
  · intro i g
    rw [(construct_maps gridView hbl hbg i g).1, (construct_maps gridView hbl hbg i g).2]
  · intro e he hb
    cases h : (Exchanger.construct gridView).index2GID_ e.localIdx with
    | none => rfl
    | some g =>
      obtain ⟨e', he', hb', hi⟩ := (hkeys e.localIdx).1 ⟨g, h⟩
      have : e' = e := List.inj_on_of_nodup_map hl he' he hi
      rw [this] at hb'
      exact absurd hb' hb
  · unfold Exchanger.borderIndices
    rw [(construct_spec gridView).2.1]
    exact hbl
  · intro i
    unfold Exchanger.borderIndices
    rw [(construct_spec gridView).2.1]
    simp only [List.mem_map, mem_borderVertices]
    constructor
    · rintro ⟨e, ⟨he, hb⟩, hi⟩
      exact ⟨e, he, hb, hi⟩
    · rintro ⟨e, he, hb, hi⟩
      exact ⟨e, ⟨he, hb⟩, hi⟩

/-! ## What one partition receives from the other -/

theorem gather_eq_filterMap {numEq : Nat} (ex : Exchanger) (A_ : Matrix numEq) (e : Vertex) :
    MatEntryExchange.gather ex A_ e =
      (A_ e.localIdx).filterMap (fun j =>
        (ex.index2GID_ j.1).map (fun gid => ({ first := gid, second := j.2 } : MatEntry numEq))) := by
  have key : ∀ (l : MatrixRow numEq) (acc : List (MatEntry numEq)),
      l.foldl (fun buff j =>
        match ex.index2GID_ j.1 with
        | some gid => buff ++ [{ first := gid, second := j.2 }]
        | none => buff) acc =
      acc ++ l.filterMap (fun j =>
        (ex.index2GID_ j.1).map (fun gid => ({ first := gid, second := j.2 } : MatEntry numEq))) := by
    intro l
    induction l with
    | nil => simp
    | cons a l ih =>
      intro acc
      rw [List.foldl_cons, ih]
      cases h : ex.index2GID_ a.1 <;> simp [List.filterMap_cons, h]
  simpa [MatEntryExchange.gather] using key (A_ e.localIdx) []

theorem filterMap_flatMap {α β γ : Type} (f : β → Option γ) (g : α → List β) (l : List α) :
    (l.flatMap g).filterMap f = l.flatMap (fun a => (g a).filterMap f) := by
  induction l with
  | nil => rfl
  | cons a l ih => simp [List.flatMap_cons, List.filterMap_append, ih]

theorem flatMap_unique {α β : Type} (f : α → List β) (l : List α) (a : α) (hn : l.Nodup)
    (ha : a ∈ l) (hf : ∀ x ∈ l, x ≠ a → f x = []) : l.flatMap f = f a := by
  induction l with
  | nil => simp at ha
  | cons x l ih =>
    rw [List.nodup_cons] at hn
    rw [List.flatMap_cons]
    rcases List.mem_cons.1 ha with h | h
    · subst h
      have : l.flatMap f = [] := by
        rw [List.flatMap_eq_nil_iff]
        intro y hy
        exact hf y (List.mem_cons_of_mem _ hy) (fun e => hn.1 (e ▸ hy))
      rw [this, List.append_nil]
    · have hx : x ≠ a := fun e => hn.1 (e ▸ h)
      rw [hf x (List.mem_cons_self _ _) hx, List.nil_append]
      exact ih hn.2 h (fun y hy => hf y (List.mem_cons_of_mem _ hy))

theorem filter_unique {α : Type} (p : α → Bool) (l : List α) (a : α) (hn : l.Nodup)
    (ha : a ∈ l) (hp : p a = true) (hu : ∀ x ∈ l, p x = true → x = a) : l.filter p = [a] := by
  induction l with
  | nil => simp at ha
  | cons x l ih =>
    rw [List.nodup_cons] at hn
    rcases List.mem_cons.1 ha with h | h
    · subst h
      have : l.filter p = [] := by
        rw [List.filter_eq_nil_iff]
        intro y hy hpy
        exact hn.1 (hu y (List.mem_cons_of_mem _ hy) hpy ▸ hy)
      rw [List.filter_cons, hp, if_pos rfl, this]
    · have hx : ¬ p x = true := fun hpx =>
        hn.1 (hu x (List.mem_cons_self _ _) hpx ▸ h)
      rw [List.filter_cons, if_neg hx]
      exact ih hn.2 h (fun y hy => hu y (List.mem_cons_of_mem _ hy))

theorem row_filterMap_col {numEq : Nat} (row : MatrixRow numEq) (j : Nat) (b : BlockType numEq)
    (hn : (row.map Prod.fst).Nodup) (hb : rowEntry row j = some b) :
    row.filterMap (fun cv => if cv.1 = j then some cv.2 else none) = [b] := by
  induction row with
  | nil => simp [rowEntry] at hb
  | cons a row ih =>
    obtain ⟨c, v⟩ := a
    simp only [List.map_cons, List.nodup_cons] at hn
    by_cases hc : c = j
    · subst hc
      simp only [rowEntry, if_true, Option.some.injEq] at hb
      subst hb
      have : row.filterMap (fun cv => if cv.1 = c then some cv.2 else none) = [] := by
        rw [List.filterMap_eq_nil_iff]
        intro cv hcv
        have hne : ¬ cv.1 = c := fun e => hn.1 (e ▸ List.mem_map_of_mem Prod.fst hcv)
        simp [hne]
      simp [List.filterMap_cons, this]
    · simp only [rowEntry, hc, if_false] at hb
      simp only [List.filterMap_cons, hc, if_false]
      exact ih hn.2 hb

/-- The contributions which a partition `P` receives for the entry of a shared
border row and a shared border column, when the other partition `Q` holds the
block `b` there: exactly `b`. -/
theorem contributions_pair {numEq : Nat} (gvP gvQ : GridView) (AQ : Matrix numEq)
    (eP cP eQ cQ : Vertex) (b : BlockType numEq)
    (hlP : (gvP.borderVertices.map Vertex.localIdx).Nodup)
    (hgP : (gvP.borderVertices.map Vertex.globalIdx).Nodup)
    (hlQ : (gvQ.borderVertices.map Vertex.localIdx).Nodup)
    (hgQ : (gvQ.borderVertices.map Vertex.globalIdx).Nodup)
    (heP : eP ∈ gvP.borderVertices) (hcP : cP ∈ gvP.borderVertices)
    (heQ : eQ ∈ gvQ.borderVertices) (hcQ : cQ ∈ gvQ.borderVertices)
    (hge : eP.globalIdx = eQ.globalIdx) (hgc : cP.globalIdx = cQ.globalIdx)
    (hcols : ((AQ eQ.localIdx).map Prod.fst).Nodup)
    (hb : rowEntry (AQ eQ.localIdx) cQ.localIdx = some b) :
    contributions (Exchanger.construct gvP)
      (scatterRequests gvP
        (gatherAll gvQ (MatEntryExchange.gather (Exchanger.construct gvQ) AQ)))
      eP.localIdx cP.localIdx = [b] := by
  unfold contributions scatterRequests gatherAll
  rw [List.flatMap_map, filterMap_flatMap]
  rw [flatMap_unique _ _ eQ (List.Nodup.of_map _ hgQ) heQ]
  · -- the buffer gathered for `eQ`
    have hfil : gvP.borderVertices.filter (fun e => e.globalIdx = eQ.globalIdx) = [eP] := by
      apply filter_unique _ _ _ (List.Nodup.of_map _ hgP) heP
      · simp [hge]
      · intro x hx hpx
        simp only [decide_eq_true_eq] at hpx
        exact List.inj_on_of_nodup_map hgP hx heP (hpx.trans hge.symm)
    simp only [hfil, List.flatMap_cons, List.flatMap_nil, List.append_nil, List.filterMap_map]
    rw [gather_eq_filterMap, List.filterMap_filterMap]
    rw [← row_filterMap_col (AQ eQ.localIdx) cQ.localIdx b hcols hb]
    congr 1
    funext cv
    simp only [Function.comp, true_and]
    cases hq : (Exchanger.construct gvQ).index2GID_ cv.1 with
    | none =>
      have hne : ¬ cv.1 = cQ.localIdx := by
        intro e
        have := ((construct_maps gvQ hlQ hgQ cQ.localIdx cQ.globalIdx).1).2 ⟨cQ, hcQ, rfl, rfl⟩
        rw [← e, hq] at this
        exact Option.noConfusion this
      simp [hne]
    | some g =>
      obtain ⟨u, hu, hul, hug⟩ := ((construct_maps gvQ hlQ hgQ cv.1 g).1).1 hq
      by_cases hc : cv.1 = cQ.localIdx
      · have huc : u = cQ := List.inj_on_of_nodup_map hlQ hu hcQ (hul.trans hc)
        have hg' : g = cP.globalIdx := by rw [← hug, huc, hgc]
        have := ((construct_maps gvP hlP hgP cP.localIdx cP.globalIdx).2).2 ⟨cP, hcP, rfl, rfl⟩
        simp [hc, hg', this]
      · have hno : ¬ (Exchanger.construct gvP).gid2Index_ g = some cP.localIdx := by
          intro h
          obtain ⟨u', hu', hul', hug'⟩ := ((construct_maps gvP hlP hgP cP.localIdx g).2).1 h
          have hu'c : u' = cP := List.inj_on_of_nodup_map hlP hu' hcP hul'
          have hgq : u.globalIdx = cQ.globalIdx := by rw [hug, ← hug', hu'c, hgc]
          have : u = cQ := List.inj_on_of_nodup_map hgQ hu hcQ hgq
          exact hc (by rw [← hul, this])
        simp [hc, hno]
  · -- the buffers gathered for the other vertices go to other rows
    intro x hx hne
    rw [List.filterMap_eq_nil_iff]
    intro req hreq
    simp only [List.mem_flatMap, List.mem_filter, List.mem_map, decide_eq_true_eq] at hreq
    obtain ⟨e, ⟨he, hxe⟩, m, _, hm⟩ := hreq
    have hrow : ¬ req.1 = eP.localIdx := by
      intro h
      have h1 : e.localIdx = eP.localIdx := by rw [← hm] at h; exact h
      have h2 : e = eP := List.inj_on_of_nodup_map hlP he heP h1
      have h3 : x.globalIdx = eQ.globalIdx := by rw [← hxe, h2, hge]
      exact hne (List.inj_on_of_nodup_map hgQ hx heQ h3)
    simp [hrow]

theorem Scalar.add_comm (a b : Scalar) : Scalar.add a b = Scalar.add b a := by
  cases a <;> cases b <;> simp only [Scalar.add]
  congr 1
  ring

theorem blockAdd_comm {numEq : Nat} (x y : BlockType numEq) : blockAdd x y = blockAdd y x := by
  funext r c
  exact Scalar.add_comm _ _

theorem GridView.Injective.border {gridView : GridView} (h : gridView.Injective) :
    (gridView.borderVertices.map Vertex.localIdx).Nodup ∧
    (gridView.borderVertices.map Vertex.globalIdx).Nodup :=
  ⟨borderVertices_nodup_map gridView _ h.1, borderVertices_nodup_map gridView _ h.2⟩

/-- What one partition holds after `sumEntries` at a shared border entry, when
it held `a` and the other partition sent what it gathered from a matrix holding
`b` there. -/
theorem sumEntries_receive {numEq : Nat} (gvP gvQ : GridView) (AP AQ : Matrix numEq)
    (eP cP eQ cQ : Vertex) (a b : BlockType numEq)
    (hP : gvP.Injective) (hQ : gvQ.Injective) (hsize : gvP.commSize = 2)
    (hshared : SharedEntry gvP gvQ eP cP eQ cQ)
    (hcols : ((AQ eQ.localIdx).map Prod.fst).Nodup)
    (ha : rowEntry (AP eP.localIdx) cP.localIdx = some a)
    (hb : rowEntry (AQ eQ.localIdx) cQ.localIdx = some b)
    (hok : ((Exchanger.construct gvP).sumEntries
      (gatherAll gvQ (MatEntryExchange.gather (Exchanger.construct gvQ) AQ)) AP).thrown = none) :
    rowEntry (((Exchanger.construct gvP).sumEntries
      (gatherAll gvQ (MatEntryExchange.gather (Exchanger.construct gvQ) AQ)) AP).A_ eP.localIdx)
      cP.localIdx = some (blockAdd a b) := by
  obtain ⟨heP, hcP, heQ, hcQ, hge, hgc⟩ := hshared
  have hgv := (construct_spec gvP).1
  unfold Exchanger.sumEntries at hok ⊢
  rw [hgv, hsize] at hok ⊢
  simp only [show (2 : Nat) > 1 by decide, if_true] at hok ⊢
  rw [communicate_scatter_eq] at hok ⊢
  rw [foldl_scatterRequest_entry _ _ _ hok, ha,
    contributions_pair gvP gvQ AQ eP cP eQ cQ b (hP.border).1 (hP.border).2 (hQ.border).1
      (hQ.border).2 heP hcP heQ hcQ hge hgc hcols hb]
  rfl

theorem SharedEntry.symm {gvP gvQ : GridView} {eP cP eQ cQ : Vertex}
    (h : SharedEntry gvP gvQ eP cP eQ cQ) : SharedEntry gvQ gvP eQ cQ eP cP :=
  ⟨h.2.2.1, h.2.2.2.1, h.1, h.2.1, h.2.2.2.2.1.symm, h.2.2.2.2.2.symm⟩

/-- C11: one pass of `sumEntries` on two partitions which returns without error:
at a border row and a border column which both partitions share and store, the
partition which assembled `a` holds `a + b` and the partition which assembled
`b` holds `b + a`; each adds the value the other gathered from its matrix as it
was before the pass. -/
theorem sumEntriesPair_sums {numEq : Nat} (gvP gvQ : GridView) (AP AQ : Matrix numEq)
    (eP cP eQ cQ : Vertex) (a b : BlockType numEq)
    (hP : gvP.Injective) (hQ : gvQ.Injective)
    (hsP : gvP.commSize = 2) (hsQ : gvQ.commSize = 2)
    (hshared : SharedEntry gvP gvQ eP cP eQ cQ)
    (hcolsP : ((AP eP.localIdx).map Prod.fst).Nodup)
    (hcolsQ : ((AQ eQ.localIdx).map Prod.fst).Nodup)
    (ha : rowEntry (AP eP.localIdx) cP.localIdx = some a)
    (hb : rowEntry (AQ eQ.localIdx) cQ.localIdx = some b)
    (hokP : (sumEntriesPair gvP gvQ AP AQ).1.thrown = none)
    (hokQ : (sumEntriesPair gvP gvQ AP AQ).2.thrown = none) :
    rowEntry ((sumEntriesPair gvP gvQ AP AQ).1.A_ eP.localIdx) cP.localIdx
      = some (blockAdd a b) ∧
    rowEntry ((sumEntriesPair gvP gvQ AP AQ).2.A_ eQ.localIdx) cQ.localIdx
      = some (blockAdd b a) ∧
    blockAdd b a = blockAdd a b :=
  ⟨sumEntries_receive gvP gvQ AP AQ eP cP eQ cQ a b hP hQ hsP hshared hcolsQ ha hb hokP,
   sumEntries_receive gvQ gvP AQ AP eQ cQ eP cP b a hQ hP hsQ hshared.symm hcolsP hb ha hokQ,
   blockAdd_comm b a⟩

theorem sampleShared :
    SharedEntry sampleGridP sampleGridQ ⟨PartitionType.BorderEntity, 1, 10⟩
      ⟨PartitionType.BorderEntity, 1, 10⟩ ⟨PartitionType.BorderEntity, 1, 10⟩
      ⟨PartitionType.BorderEntity, 1, 10⟩ := by
  refine ⟨?_, ?_, ?_, ?_, rfl, rfl⟩ <;> decide

theorem sampleInjective : sampleGridP.Injective ∧ sampleGridQ.Injective := by
  refine ⟨⟨?_, ?_⟩, ⟨?_, ?_⟩⟩ <;> decide

theorem constBlock_add (p q : ℚ) (h1 : -1000000000 ≤ p + q) (h2 : p + q ≤ 1000000000) :
    blockAdd (constBlock p) (constBlock q) = constBlock (p + q) := by
  funext r c
  exact Scalar.ofRat_of_bounded _ h1 h2

/-- C11, evaluated: two partitions hold `3` and `4` at the entry of the shared
vertex `10`; after one pass both hold `7`. -/
theorem sumEntriesPair_sums_witness :
    (sumEntriesPair sampleGridP sampleGridQ sampleMatrixP sampleMatrixQ).1.thrown = none ∧
    (sumEntriesPair sampleGridP sampleGridQ sampleMatrixP sampleMatrixQ).2.thrown = none ∧
    rowEntry ((sumEntriesPair sampleGridP sampleGridQ sampleMatrixP sampleMatrixQ).1.A_ 1) 1
      = some (constBlock 7) ∧
    rowEntry ((sumEntriesPair sampleGridP sampleGridQ sampleMatrixP sampleMatrixQ).2.A_ 1) 1
      = some (constBlock 7) := by
  have hokP : (sumEntriesPair sampleGridP sampleGridQ sampleMatrixP sampleMatrixQ).1.thrown
      = none := by decide
  have hokQ : (sumEntriesPair sampleGridP sampleGridQ sampleMatrixP sampleMatrixQ).2.thrown
      = none := by decide
  have h := sumEntriesPair_sums sampleGridP sampleGridQ sampleMatrixP sampleMatrixQ
    ⟨PartitionType.BorderEntity, 1, 10⟩ ⟨PartitionType.BorderEntity, 1, 10⟩
    ⟨PartitionType.BorderEntity, 1, 10⟩ ⟨PartitionType.BorderEntity, 1, 10⟩
    (constBlock 3) (constBlock 4) sampleInjective.1 sampleInjective.2 rfl rfl sampleShared
    (by decide) (by decide) rfl rfl hokP hokQ
  have h34 : blockAdd (constBlock 3) (constBlock 4) = constBlock 7 := by
    rw [constBlock_add _ _ (by norm_num) (by norm_num)]; norm_num
  have h43 : blockAdd (constBlock 4) (constBlock 3) = constBlock 7 := by
    rw [constBlock_add _ _ (by norm_num) (by norm_num)]; norm_num
  rw [h34] at h
  rw [h43] at h
  exact ⟨hokP, hokQ, h.1, h.2.1⟩

/-- C13, evaluated: on a single partition a buffer handed to `sumEntries` is not
looked at. -/
theorem sumEntries_single_partition_witness :
    (Exchanger.construct sampleGridSerial).gridView_.commSize = 1 ∧
    (Exchanger.construct sampleGridSerial).sumEntries
        [(10, [{ first := 10, second := constBlock 4 }])] sampleMatrixP
      = { A_ := sampleMatrixP, thrown := none } :=
  ⟨rfl, sumEntries_single_partition (Exchanger.construct sampleGridSerial)
    [(10, [{ first := 10, second := constBlock 4 }])] sampleMatrixP rfl⟩

/-- C15, evaluated on a partition with an interior vertex `0` and the border
vertices `1` and `2` with the global identifiers `10` and `11`. -/
theorem construct_registry_witness :
    (sampleGridP.vertices.map Vertex.localIdx).Nodup ∧
    (sampleGridP.vertices.map Vertex.globalIdx).Nodup ∧
    (Exchanger.construct sampleGridP).borderIndices = [1, 2] ∧
    (Exchanger.construct sampleGridP).index2GID_ 1 = some 10 ∧
    (Exchanger.construct sampleGridP).gid2Index_ 10 = some 1 ∧
    (Exchanger.construct sampleGridP).index2GID_ 0 = none := by
  have hl : (sampleGridP.vertices.map Vertex.localIdx).Nodup := by decide
  have hg : (sampleGridP.vertices.map Vertex.globalIdx).Nodup := by decide
  obtain ⟨hinv, _, hnot, _, _⟩ := construct_registry sampleGridP hl hg
  have h1 : (Exchanger.construct sampleGridP).index2GID_ 1 = some 10 := by decide
  refine ⟨hl, hg, by decide, h1, (hinv 1 10).1 h1, ?_⟩
  exact hnot ⟨PartitionType.InteriorEntity, 0, 100⟩ (by decide) (by decide)

/-! ## The wrapped preconditioner -/

theorem foldl_update_iterate {α : Type} (h : α → α) (l : List Nat) (v : Nat → α) (k : Nat) :
    (l.foldl (fun v i => Function.update v i (h (v i))) v) k = h^[l.count k] (v k) := by
  induction l generalizing v with
  | nil => rfl
  | cons a l ih =>
    rw [List.foldl_cons, ih]
    by_cases hk : a = k
    · subst hk
      simp [Function.iterate_succ_apply]
    · have hk' : k ≠ a := fun e => hk e.symm
      simp [List.count_cons, hk, Function.update_noteq hk']

theorem Scalar.mul_half (x : Scalar) :
    Scalar.mul x (Scalar.fin (1 / 2)) = Scalar.div x (Scalar.fin 2) := by
  cases x <;> simp only [Scalar.mul, Scalar.div, Scalar.infTimes, Scalar.infOver]
  · rw [if_neg (by norm_num)]
    congr 1
    ring
  · norm_num
  · norm_num

theorem Scalar.mean_self (x : Scalar)
    (h : Scalar.isfinite x = true → Scalar.isfinite (Scalar.add x x) = true) :
    Scalar.mul (Scalar.add x x) (Scalar.fin (1 / 2)) = x := by
  cases x with
  | fin q =>
    have hf : Scalar.isfinite (Scalar.ofRat (q + q)) = true := h rfl
    have hb := (Scalar.isfinite_ofRat_iff _).1 hf
    have hpos := Scalar.overflowThreshold_pos
    have hq : Scalar.ofRat q = Scalar.fin q := by
      apply Scalar.isfinite_ofRat
      rw [Scalar.isfinite_ofRat_iff]
      constructor <;> linarith [hb.1, hb.2]
    simp only [Scalar.add, Scalar.isfinite_ofRat _ hf, Scalar.mul]
    rw [show (q + q) * (1 / 2) = q by ring]
    exact hq
  | posInf =>
    simp only [Scalar.add, Scalar.mul, Scalar.infTimes]
    norm_num
  | negInf =>
    simp only [Scalar.add, Scalar.mul, Scalar.infTimes]
    norm_num
  | nan => rfl

theorem Scalar.mean_fin (q1 q2 : ℚ)
    (h : Scalar.isfinite (Scalar.add (Scalar.fin q1) (Scalar.fin q2)) = true) :
    Scalar.mul (Scalar.add (Scalar.fin q1) (Scalar.fin q2)) (Scalar.fin (1 / 2))
      = Scalar.fin ((q1 + q2) / 2) := by
  have hf : Scalar.isfinite (Scalar.ofRat (q1 + q2)) = true := h
  have hb := (Scalar.isfinite_ofRat_iff _).1 hf
  have hpos := Scalar.overflowThreshold_pos
  have hq : Scalar.ofRat ((q1 + q2) * (1 / 2)) = Scalar.fin ((q1 + q2) * (1 / 2)) := by
    apply Scalar.isfinite_ofRat
    rw [Scalar.isfinite_ofRat_iff]
    constructor <;> linarith [hb.1, hb.2]
  simp only [Scalar.add, Scalar.isfinite_ofRat _ hf, Scalar.mul]
  rw [hq]
  congr 1
  ring

/-- The method `apply` in closed form: every block of the synchronised vector is
multiplied by `0.5` once for each time its index is listed in
`borderIndices_`. -/
theorem apply_closed_form {numEq : Nat}
    (self : NonoverlappingWrappedPreconditioner numEq)
    (received : List (Nat × List (PrimaryVariables numEq))) (v d : BlockVector numEq) (k : Nat) :
    (self.apply received v d).v k =
      (fun x => fieldScaleAssign x (Scalar.fin (1 / 2)))^[self.borderIndices_.count k]
        (self.synchronised received v d k) ∧
    (self.apply received v d).d = d := by
  refine ⟨?_, rfl⟩
  simp only [NonoverlappingWrappedPreconditioner.apply]
  rw [foldl_update_iterate (fun x => fieldScaleAssign x (Scalar.fin (1 / 2)))]
  rfl

/-- C16: `apply (v, d)` of the wrapped preconditioner, for a list of border
indices without repetition (as the exchanger builds it): with `dd` the residual
`d` in which every constrained degree of freedom is `0`, `w` the result of the
sequential preconditioner applied to `dd` and `s` the vector `w` synchronised
additively over the interface (`s = w` on a single partition), the result is
`v[k] = s[k] / 2` for every `k` of `borderIndices_` and `v[k] = s[k]` for every
other `k`; `d` is unchanged. -/
theorem wrappedPreconditioner_apply {numEq : Nat}
    (self : NonoverlappingWrappedPreconditioner numEq)
    (received : List (Nat × List (PrimaryVariables numEq))) (v d : BlockVector numEq)
    (hn : self.borderIndices_.Nodup) :
    (∀ k j, self.constrainedResidual d k j = if self.cc k j then Scalar.fin 0 else d k j) ∧
    self.localCorrection v d = self.prec.apply v (self.constrainedResidual d) ∧
    (self.gfs.commSize = 1 → self.synchronised received v d = self.localCorrection v d) ∧
    (∀ k ∈ self.borderIndices_, ∀ j,
      (self.apply received v d).v k j = Scalar.div (self.synchronised received v d k j)
        (Scalar.fin 2)) ∧
    (∀ k, k ∉ self.borderIndices_ →
      (self.apply received v d).v k = self.synchronised received v d k) ∧
    (self.apply received v d).d = d := by
  refine ⟨fun _ _ => rfl, rfl, ?_, ?_, ?_, rfl⟩
  · intro h1
    simp [NonoverlappingWrappedPreconditioner.synchronised, h1]
  · intro k hk j
    rw [(apply_closed_form self received v d k).1,
      List.count_eq_one_of_mem hn hk, ← Scalar.mul_half]
    rfl
  · intro k hk
    rw [(apply_closed_form self received v d k).1,
      List.count_eq_zero_of_not_mem hk]
    rfl

theorem communicate_add_eq {numEq : Nat} (gridView : GridView) (v : BlockVector numEq)
    (received : List (Nat × List (PrimaryVariables numEq))) :
    communicate gridView AddDataHandle.scatter v received =
      (scatterRequests gridView received).foldl
        (fun (v : BlockVector numEq) (req : Nat × PrimaryVariables numEq) =>
          Function.update v req.1 (fieldAddAssign (v req.1) req.2)) v := by
  unfold communicate scatterRequests
  rw [foldl_flatMap]
  congr 1
  funext st msg
  rw [foldl_flatMap]
  congr 1
  funext st e
  simp [AddDataHandle.scatter, List.foldl_map]

theorem foldl_add_requests {numEq : Nat} (reqs : List (Nat × PrimaryVariables numEq))
    (v : BlockVector numEq) (i : Nat) :
    (reqs.foldl (fun (v : BlockVector numEq) (req : Nat × PrimaryVariables numEq) =>
          Function.update v req.1 (fieldAddAssign (v req.1) req.2)) v) i =
      (reqs.filterMap (fun req => if req.1 = i then some req.2 else none)).foldl
        fieldAddAssign (v i) := by
  induction reqs generalizing v with
  | nil => rfl
  | cons r reqs ih =>
    rw [List.foldl_cons, ih]
    by_cases hi : r.1 = i
    · subst hi
      simp [List.filterMap_cons]
    · have hi' : i ≠ r.1 := fun e => hi e.symm
      simp [List.filterMap_cons, hi, Function.update_noteq hi']

/-- What a partition `P` holds at a border vertex after the additive exchange
with a partition `Q`: its own block plus the block of `Q` at the same vertex of
the mesh. -/
theorem communicate_add_pair {numEq : Nat} (gvP gvQ : GridView) (wP wQ : BlockVector numEq)
    (eP eQ : Vertex) (hP : gvP.Injective) (hQ : gvQ.Injective)
    (heP : eP ∈ gvP.borderVertices) (heQ : eQ ∈ gvQ.borderVertices)
    (hge : eP.globalIdx = eQ.globalIdx) :
    communicate gvP AddDataHandle.scatter wP (gatherAll gvQ (AddDataHandle.gather wQ))
        eP.localIdx =
      fieldAddAssign (wP eP.localIdx) (wQ eQ.localIdx) := by
  obtain ⟨hlP, hgP⟩ := hP.border
  obtain ⟨_, hgQ⟩ := hQ.border
  rw [communicate_add_eq, foldl_add_requests]
  have hreq : (scatterRequests gvP (gatherAll gvQ (AddDataHandle.gather wQ))).filterMap
      (fun req => if req.1 = eP.localIdx then some req.2 else none) = [wQ eQ.localIdx] := by
    unfold scatterRequests gatherAll
    rw [List.flatMap_map, filterMap_flatMap]
    rw [flatMap_unique _ _ eQ (List.Nodup.of_map _ hgQ) heQ]
    · have hfil : gvP.borderVertices.filter (fun e => e.globalIdx = eQ.globalIdx) = [eP] := by
        apply filter_unique _ _ _ (List.Nodup.of_map _ hgP) heP
        · simp [hge]
        · intro x hx hpx
          simp only [decide_eq_true_eq] at hpx
          exact List.inj_on_of_nodup_map hgP hx heP (hpx.trans hge.symm)
      simp [hfil, AddDataHandle.gather]
    · intro x hx hne
      rw [List.filterMap_eq_nil_iff]
      intro req hreq
      simp only [List.mem_flatMap, List.mem_filter, List.mem_map, decide_eq_true_eq] at hreq
      obtain ⟨e, ⟨he, hxe⟩, m, _, hm⟩ := hreq
      have hrow : ¬ req.1 = eP.localIdx := by
        intro h
        have h1 : e.localIdx = eP.localIdx := by rw [← hm] at h; exact h
        have h2 : e = eP := List.inj_on_of_nodup_map hlP he heP h1
        have h3 : x.globalIdx = eQ.globalIdx := by rw [← hxe, h2, hge]
        exact hne (List.inj_on_of_nodup_map hgQ hx heQ h3)
      simp [hrow]
  rw [hreq]
  rfl

theorem fieldAddAssign_comm {numEq : Nat} (x y : PrimaryVariables numEq) :
    fieldAddAssign x y = fieldAddAssign y x := by
  funext j
  exact Scalar.add_comm _ _

/-- The value of `apply` on two partitions at a border vertex which both share:
the sum of the two local corrections, multiplied by `0.5`. -/
theorem applyPair_border {numEq : Nat}
    (precP precQ : NonoverlappingWrappedPreconditioner numEq)
    (vP dP vQ dQ : BlockVector numEq) (eP eQ : Vertex)
    (hP : precP.gfs.Injective) (hQ : precQ.gfs.Injective)
    (hsP : precP.gfs.commSize = 2) (hsQ : precQ.gfs.commSize = 2)
    (hbP : precP.borderIndices_ = (Exchanger.construct precP.gfs).borderIndices)
    (hbQ : precQ.borderIndices_ = (Exchanger.construct precQ.gfs).borderIndices)
    (heP : eP ∈ precP.gfs.borderVertices) (heQ : eQ ∈ precQ.gfs.borderVertices)
    (hge : eP.globalIdx = eQ.globalIdx) :
    (applyPair precP precQ vP dP vQ dQ).1.v eP.localIdx =
      fieldScaleAssign (fieldAddAssign (precP.localCorrection vP dP eP.localIdx)
        (precQ.localCorrection vQ dQ eQ.localIdx)) (Scalar.fin (1 / 2)) ∧
    (applyPair precP precQ vP dP vQ dQ).2.v eQ.localIdx =
      fieldScaleAssign (fieldAddAssign (precP.localCorrection vP dP eP.localIdx)
        (precQ.localCorrection vQ dQ eQ.localIdx)) (Scalar.fin (1 / 2)) := by
  have hcount : ∀ (prec : NonoverlappingWrappedPreconditioner numEq) (e : Vertex),
      prec.gfs.Injective →
      prec.borderIndices_ = (Exchanger.construct prec.gfs).borderIndices →
      e ∈ prec.gfs.borderVertices → prec.borderIndices_.count e.localIdx = 1 := by
    intro prec e hinj hb he
    rw [hb]
    unfold Exchanger.borderIndices
    rw [(construct_spec prec.gfs).2.1]
    exact List.count_eq_one_of_mem hinj.border.1 (List.mem_map_of_mem _ he)
  have h1 : (applyPair precP precQ vP dP vQ dQ).1.v eP.localIdx =
      fieldScaleAssign (fieldAddAssign (precP.localCorrection vP dP eP.localIdx)
        (precQ.localCorrection vQ dQ eQ.localIdx)) (Scalar.fin (1 / 2)) := by
    unfold applyPair
    simp only []
    rw [(apply_closed_form precP _ vP dP eP.localIdx).1, hcount precP eP hP hbP heP]
    simp only [Function.iterate_one, NonoverlappingWrappedPreconditioner.synchronised, hsP,
      show (2 : Nat) > 1 by decide, if_true]
    rw [communicate_add_pair precP.gfs precQ.gfs _ _ eP eQ hP hQ heP heQ hge]
    rfl
  have h2 : (applyPair precP precQ vP dP vQ dQ).2.v eQ.localIdx =
      fieldScaleAssign (fieldAddAssign (precP.localCorrection vP dP eP.localIdx)
        (precQ.localCorrection vQ dQ eQ.localIdx)) (Scalar.fin (1 / 2)) := by
    unfold applyPair
    simp only []
    rw [(apply_closed_form precQ _ vQ dQ eQ.localIdx).1, hcount precQ eQ hQ hbQ heQ]
    simp only [Function.iterate_one, NonoverlappingWrappedPreconditioner.synchronised, hsQ,
      show (2 : Nat) > 1 by decide, if_true]
    rw [communicate_add_pair precQ.gfs precP.gfs _ _ eQ eP hQ hP heQ heP hge.symm,
      fieldAddAssign_comm]
    rfl
  exact ⟨h1, h2⟩

/-- C17 as stated fails when the sum of the two local corrections overflows:
both partitions compute the local correction `2^1023` at the shared vertex
`10`, a finite value; the sum `2^1024` is `+inf` and `apply` leaves `+inf` on
both partitions, which is neither the arithmetic mean nor the common local
correction `2^1023`. -/
theorem applyPair_mean_overflows :
    samplePreconditioner.localCorrection (constVector 0) (constVector (2 ^ 1023)) 1 0
      = Scalar.fin (2 ^ 1023) ∧
    samplePreconditionerQ.localCorrection (constVector 0) (constVector (2 ^ 1023)) 1 0
      = Scalar.fin (2 ^ 1023) ∧
    (applyPair samplePreconditioner samplePreconditionerQ (constVector 0)
      (constVector (2 ^ 1023)) (constVector 0) (constVector (2 ^ 1023))).1.v 1 0
      = Scalar.posInf ∧
    (applyPair samplePreconditioner samplePreconditionerQ (constVector 0)
      (constVector (2 ^ 1023)) (constVector 0) (constVector (2 ^ 1023))).2.v 1 0
      = Scalar.posInf ∧
    Scalar.posInf ≠ Scalar.fin (2 ^ 1023) := by
  obtain ⟨h1, h2⟩ := applyPair_border samplePreconditioner samplePreconditionerQ
    (constVector 0) (constVector (2 ^ 1023)) (constVector 0) (constVector (2 ^ 1023))
    ⟨PartitionType.BorderEntity, 1, 10⟩ ⟨PartitionType.BorderEntity, 1, 10⟩
    sampleInjective.1 sampleInjective.2 rfl rfl rfl rfl (by decide) (by decide) rfl
  have e1 : samplePreconditioner.localCorrection (constVector 0) (constVector (2 ^ 1023)) 1 0
      = Scalar.fin (2 ^ 1023) := rfl
  have e2 : samplePreconditionerQ.localCorrection (constVector 0) (constVector (2 ^ 1023)) 1 0
      = Scalar.fin (2 ^ 1023) := rfl
  have hval : fieldScaleAssign (fieldAddAssign
      (samplePreconditioner.localCorrection (constVector 0) (constVector (2 ^ 1023)) 1)
      (samplePreconditionerQ.localCorrection (constVector 0) (constVector (2 ^ 1023)) 1))
      (Scalar.fin (1 / 2)) 0 = Scalar.posInf := by
    have hsum : Scalar.add (Scalar.fin (2 ^ 1023)) (Scalar.fin (2 ^ 1023)) = Scalar.posInf := by
      simp only [Scalar.add, Scalar.ofRat, Scalar.overflowThreshold]
      norm_num
    simp only [fieldScaleAssign, fieldAddAssign, e1, e2, hsum, Scalar.mul, Scalar.infTimes]
    norm_num
  exact ⟨e1, e2, (congrFun h1 0).trans hval, (congrFun h2 0).trans hval,
    fun h => Scalar.noConfusion h⟩

/-- C17, amended: on two partitions, at a border vertex which both share, with
the local corrections `w1` and `w2` of the two partitions at that vertex: after
`apply` both partitions hold `(w1 + w2) * 0.5`, which is `(w1 + w2) / 2`, as the
arithmetic of `double` computes it.  When `w1` and `w2` are finite and their sum
does not overflow this is the arithmetic mean, and when `w1 = w2` and the
doubled value does not overflow it is the common local correction. -/
theorem applyPair_mean {numEq : Nat} (precP precQ : NonoverlappingWrappedPreconditioner numEq)
    (vP dP vQ dQ : BlockVector numEq) (eP eQ : Vertex)
    (hP : precP.gfs.Injective) (hQ : precQ.gfs.Injective)
    (hsP : precP.gfs.commSize = 2) (hsQ : precQ.gfs.commSize = 2)
    (hbP : precP.borderIndices_ = (Exchanger.construct precP.gfs).borderIndices)
    (hbQ : precQ.borderIndices_ = (Exchanger.construct precQ.gfs).borderIndices)
    (heP : eP ∈ precP.gfs.borderVertices) (heQ : eQ ∈ precQ.gfs.borderVertices)
    (hge : eP.globalIdx = eQ.globalIdx) :
    (applyPair precP precQ vP dP vQ dQ).1.v eP.localIdx =
      fieldScaleAssign (fieldAddAssign (precP.localCorrection vP dP eP.localIdx)
        (precQ.localCorrection vQ dQ eQ.localIdx)) (Scalar.fin (1 / 2)) ∧
    (applyPair precP precQ vP dP vQ dQ).2.v eQ.localIdx =
      fieldScaleAssign (fieldAddAssign (precP.localCorrection vP dP eP.localIdx)
        (precQ.localCorrection vQ dQ eQ.localIdx)) (Scalar.fin (1 / 2)) ∧
    (∀ j, (applyPair precP precQ vP dP vQ dQ).1.v eP.localIdx j =
      Scalar.div (Scalar.add (precP.localCorrection vP dP eP.localIdx j)
        (precQ.localCorrection vQ dQ eQ.localIdx j)) (Scalar.fin 2)) ∧
    (∀ j q1 q2, precP.localCorrection vP dP eP.localIdx j = Scalar.fin q1 →
      precQ.localCorrection vQ dQ eQ.localIdx j = Scalar.fin q2 →
      Scalar.isfinite (Scalar.add (Scalar.fin q1) (Scalar.fin q2)) = true →
      (applyPair precP precQ vP dP vQ dQ).1.v eP.localIdx j = Scalar.fin ((q1 + q2) / 2) ∧
      (applyPair precP precQ vP dP vQ dQ).2.v eQ.localIdx j = Scalar.fin ((q1 + q2) / 2)) ∧
    (precP.localCorrection vP dP eP.localIdx = precQ.localCorrection vQ dQ eQ.localIdx →
      (∀ j, Scalar.isfinite (precP.localCorrection vP dP eP.localIdx j) = true →
        Scalar.isfinite (Scalar.add (precP.localCorrection vP dP eP.localIdx j)
          (precP.localCorrection vP dP eP.localIdx j)) = true) →
      (applyPair precP precQ vP dP vQ dQ).1.v eP.localIdx
        = precP.localCorrection vP dP eP.localIdx ∧
      (applyPair precP precQ vP dP vQ dQ).2.v eQ.localIdx
        = precP.localCorrection vP dP eP.localIdx) := by
  obtain ⟨h1, h2⟩ := applyPair_border precP precQ vP dP vQ dQ eP eQ hP hQ hsP hsQ hbP hbQ
    heP heQ hge
  refine ⟨h1, h2, ?_, ?_, ?_⟩
  · intro j
    rw [h1, ← Scalar.mul_half]
    rfl
  · intro j q1 q2 hw1 hw2 hfin
    have hval : fieldScaleAssign (fieldAddAssign (precP.localCorrection vP dP eP.localIdx)
        (precQ.localCorrection vQ dQ eQ.localIdx)) (Scalar.fin (1 / 2)) j
        = Scalar.fin ((q1 + q2) / 2) := by
      simp only [fieldScaleAssign, fieldAddAssign, hw1, hw2]
      exact Scalar.mean_fin q1 q2 hfin
    exact ⟨(congrFun h1 j).trans hval, (congrFun h2 j).trans hval⟩
  · intro heq hno
    have hmean : fieldScaleAssign (fieldAddAssign (precP.localCorrection vP dP eP.localIdx)
        (precQ.localCorrection vQ dQ eQ.localIdx)) (Scalar.fin (1 / 2))
        = precP.localCorrection vP dP eP.localIdx := by
      rw [← heq]
      funext j
      exact Scalar.mean_self _ (hno j)
    exact ⟨h1.trans hmean, h2.trans hmean⟩

/-- C16, evaluated: the residual `[1, 2, 3]` with the block `0` constrained, a
sequential preconditioner which returns its argument, the border indices
`[1, 2]` and the block `4` received for the vertex of index `1`: the
synchronised vector is `[0, 6, 3]` and the result `[0, 3, 1.5]`. -/
theorem wrappedPreconditioner_apply_witness :
    samplePreconditioner.borderIndices_.Nodup ∧
    (samplePreconditioner.apply [(10, [fun _ => Scalar.fin 4])] (constVector 0)
      sampleResidual).v 0 0 = Scalar.fin 0 ∧
    (samplePreconditioner.apply [(10, [fun _ => Scalar.fin 4])] (constVector 0)
      sampleResidual).v 1 0 = Scalar.fin 3 ∧
    (samplePreconditioner.apply [(10, [fun _ => Scalar.fin 4])] (constVector 0)
      sampleResidual).v 2 0 = Scalar.fin (3 / 2) := by
  have hn : samplePreconditioner.borderIndices_.Nodup := by decide
  obtain ⟨_, _, _, hb, hi, _⟩ := wrappedPreconditioner_apply samplePreconditioner
    [(10, [fun _ => Scalar.fin 4])] (constVector 0) sampleResidual hn
  have hs0 : samplePreconditioner.synchronised [(10, [fun _ => Scalar.fin 4])] (constVector 0)
      sampleResidual 0 0 = Scalar.fin 0 := rfl
  have hs1 : samplePreconditioner.synchronised [(10, [fun _ => Scalar.fin 4])] (constVector 0)
      sampleResidual 1 0 = Scalar.fin (2 + 4) :=
    Scalar.add_fin 2 4 (by norm_num) (by norm_num)
  have hs2 : samplePreconditioner.synchronised [(10, [fun _ => Scalar.fin 4])] (constVector 0)
      sampleResidual 2 0 = Scalar.fin 3 := rfl
  refine ⟨hn, ?_, ?_, ?_⟩
  · rw [hi 0 (by decide), hs0]
  · rw [hb 1 (by decide) 0, hs1]
    simp only [Scalar.div, Scalar.ofRat, Scalar.overflowThreshold]
    norm_num
  · rw [hb 2 (by decide) 0, hs2]
    simp only [Scalar.div, Scalar.ofRat, Scalar.overflowThreshold]
    norm_num

/-- C17, evaluated: the two partitions compute the local corrections `2` and
`4` at the shared vertex `10`; after `apply` both hold `3`. -/
theorem applyPair_mean_witness :
    (applyPair samplePreconditioner samplePreconditionerQ (constVector 0) sampleResidual
      (constVector 0) (constVector 4)).1.v 1 0 = Scalar.fin 3 ∧
    (applyPair samplePreconditioner samplePreconditionerQ (constVector 0) sampleResidual
      (constVector 0) (constVector 4)).2.v 1 0 = Scalar.fin 3 := by
  obtain ⟨h1, h2, _, _, _⟩ := applyPair_mean samplePreconditioner samplePreconditionerQ
    (constVector 0) sampleResidual (constVector 0) (constVector 4)
    ⟨PartitionType.BorderEntity, 1, 10⟩ ⟨PartitionType.BorderEntity, 1, 10⟩
    sampleInjective.1 sampleInjective.2 rfl rfl rfl rfl (by decide) (by decide) rfl
  have hval : fieldScaleAssign (fieldAddAssign
      (samplePreconditioner.localCorrection (constVector 0) sampleResidual 1)
      (samplePreconditionerQ.localCorrection (constVector 0) (constVector 4) 1))
      (Scalar.fin (1 / 2)) 0 = Scalar.fin 3 := by
    have e1 : samplePreconditioner.localCorrection (constVector 0) sampleResidual 1 0
        = Scalar.fin 2 := rfl
    have e2 : samplePreconditionerQ.localCorrection (constVector 0) (constVector 4) 1 0
        = Scalar.fin 4 := rfl
    simp only [fieldScaleAssign, fieldAddAssign, e1, e2, Scalar.add, Scalar.mul,
      Scalar.ofRat, Scalar.overflowThreshold]
    norm_num
  exact ⟨(congrFun h1 0).trans hval, (congrFun h2 0).trans hval⟩

/-! ## The linear solver backends -/

theorem applyWith_frame {numEq : Nat} (lib : SolverLibrary numEq)
    (seqPreCondOf : Matrix numEq → SeqPreconditioner numEq) (self : ISTLBackend numEq)
    (received : List (Nat × List (MatEntry numEq)))
    (A : Matrix numEq) (z r : BlockVector numEq) (reduction : Scalar) :
    (self.applyWith lib seqPreCondOf received A z r reduction).A = A ∧
    (self.applyWith lib seqPreCondOf received A z r reduction).B
      = (self.exchanger_.sumEntries received A).A_ ∧
    (self.applyWith lib seqPreCondOf received A z r reduction).self.exchanger_
      = self.exchanger_ := by
  unfold ISTLBackend.applyWith
  simp only []
  cases (self.exchanger_.sumEntries received A).thrown with
  | some e => exact ⟨rfl, rfl, rfl⟩
  | none =>
    simp only []
    cases lib.biCGSTAB A
      { gfs := self.gfs, prec := seqPreCondOf (self.exchanger_.sumEntries received A).A_,
        cc := self.constraintsTrafo_, borderIndices_ := self.exchanger_.borderIndices }
      reduction self.maxiter (if self.rank = 0 then self.verbose else 0) z r with
    | threw e => exact ⟨rfl, rfl, rfl⟩
    | returned z' r' stat => exact ⟨rfl, rfl, rfl⟩

theorem applyWith_returned {numEq : Nat} (lib : SolverLibrary numEq)
    (seqPreCondOf : Matrix numEq → SeqPreconditioner numEq) (self : ISTLBackend numEq)
    (received : List (Nat × List (MatEntry numEq)))
    (A : Matrix numEq) (z r z' r' : BlockVector numEq) (reduction : Scalar)
    (stat : InverseOperatorResult)
    (hsum : (self.exchanger_.sumEntries received A).thrown = none)
    (hsolve : lib.biCGSTAB A
      (self.parPreCond (seqPreCondOf (self.exchanger_.sumEntries received A).A_))
      reduction self.maxiter self.verb z r = SolverOutcome.returned z' r' stat) :
    self.applyWith lib seqPreCondOf received A z r reduction =
      { self := { self with res :=
          { converged := stat.converged, iterations := stat.iterations,
            elapsed := stat.elapsed, reduction := stat.reduction } },
        A := A, z := z', r := r', B := (self.exchanger_.sumEntries received A).A_,
        thrown := none } := by
  unfold ISTLBackend.parPreCond ISTLBackend.verb at hsolve
  unfold ISTLBackend.applyWith
  simp only [hsum, hsolve]

/-- C18: `apply` of a backend sums the border entries once, on a copy: the
caller's matrix `A` is the same after the call, the copy `B` is `A` after one
pass of `sumEntries`, and when the pass raises no error the Krylov solver is
run with the operator over the unsummed `A` and with the parallel
preconditioner built from the sequential preconditioner of the summed `B`.  A
second solve with the same `A` starts from `A` again: its `B` is `A` after one
pass, whatever the first solve did.  The same holds for the backend with the
Pardiso preconditioner. -/
theorem backend_apply_sums_copy_once {numEq : Nat} (lib : SolverLibrary numEq)
    (self : ISTLBackend numEq) (received received2 : List (Nat × List (MatEntry numEq)))
    (A : Matrix numEq) (z r : BlockVector numEq) (reduction : Scalar) :
    (ISTLBackend_NoOverlap_BCGS_ILU.apply lib self received A z r reduction).A = A ∧
    (ISTLBackend_NoOverlap_BCGS_ILU.apply lib self received A z r reduction).B
      = (self.exchanger_.sumEntries received A).A_ ∧
    (∀ z' r' stat, (self.exchanger_.sumEntries received A).thrown = none →
      lib.biCGSTAB A
        (self.parPreCond (lib.seqILU0 (self.exchanger_.sumEntries received A).A_
          (Scalar.fin (9 / 10))))
        reduction self.maxiter self.verb z r = SolverOutcome.returned z' r' stat →
      (ISTLBackend_NoOverlap_BCGS_ILU.apply lib self received A z r reduction).z = z' ∧
      (ISTLBackend_NoOverlap_BCGS_ILU.apply lib self received A z r reduction).r = r' ∧
      (ISTLBackend_NoOverlap_BCGS_ILU.apply lib self received A z r reduction).thrown = none) ∧
    (ISTLBackend_NoOverlap_BCGS_ILU.apply lib
      (ISTLBackend_NoOverlap_BCGS_ILU.apply lib self received A z r reduction).self received2
      (ISTLBackend_NoOverlap_BCGS_ILU.apply lib self received A z r reduction).A
      (ISTLBackend_NoOverlap_BCGS_ILU.apply lib self received A z r reduction).z
      (ISTLBackend_NoOverlap_BCGS_ILU.apply lib self received A z r reduction).r reduction).B
      = (self.exchanger_.sumEntries received2 A).A_ ∧
    (ISTLBackend_NoOverlap_Loop_Pardiso.apply lib self received A z r reduction).A = A ∧
    (ISTLBackend_NoOverlap_Loop_Pardiso.apply lib self received A z r reduction).B
      = (self.exchanger_.sumEntries received A).A_ ∧
    (ISTLBackend_NoOverlap_Loop_Pardiso.apply lib
      (ISTLBackend_NoOverlap_Loop_Pardiso.apply lib self received A z r reduction).self received2
      (ISTLBackend_NoOverlap_Loop_Pardiso.apply lib self received A z r reduction).A
      (ISTLBackend_NoOverlap_Loop_Pardiso.apply lib self received A z r reduction).z
      (ISTLBackend_NoOverlap_Loop_Pardiso.apply lib self received A z r reduction).r reduction).B
      = (self.exchanger_.sumEntries received2 A).A_ := by
  unfold ISTLBackend_NoOverlap_BCGS_ILU.apply ISTLBackend_NoOverlap_Loop_Pardiso.apply
  obtain ⟨hA, hB, hex⟩ := applyWith_frame lib (fun B => lib.seqILU0 B (Scalar.fin (9 / 10)))
    self received A z r reduction
  obtain ⟨hA', hB', hex'⟩ := applyWith_frame lib (fun B => lib.seqPardiso B)
    self received A z r reduction
  refine ⟨hA, hB, ?_, ?_, hA', hB', ?_⟩
  · intro z' r' stat hsum hsolve
    rw [applyWith_returned lib _ self received A z r z' r' reduction stat hsum hsolve]
    exact ⟨rfl, rfl, rfl⟩
  · rw [(applyWith_frame lib _ _ received2 _ _ _ reduction).2.1, hex, hA]
  · rw [(applyWith_frame lib _ _ received2 _ _ _ reduction).2.1, hex', hA']

/-- C19: when the border merge raises no error and the Krylov solver returns
with the statistics `stat`, `apply` returns normally and `result ()` holds the
four fields of `stat`; in particular `result ().converged` is false when the
solver did not converge within its iteration cap. -/
theorem backend_apply_result {numEq : Nat} (lib : SolverLibrary numEq)
    (self : ISTLBackend numEq) (received : List (Nat × List (MatEntry numEq)))
    (A : Matrix numEq) (z r z' r' : BlockVector numEq) (reduction : Scalar)
    (stat : InverseOperatorResult)
    (hsum : (self.exchanger_.sumEntries received A).thrown = none)
    (hsolve : lib.biCGSTAB A
      (self.parPreCond (lib.seqILU0 (self.exchanger_.sumEntries received A).A_
        (Scalar.fin (9 / 10))))
      reduction self.maxiter self.verb z r = SolverOutcome.returned z' r' stat) :
    (ISTLBackend_NoOverlap_BCGS_ILU.apply lib self received A z r reduction).thrown = none ∧
    ISTLBackend_NoOverlap_BCGS_ILU.result
        (ISTLBackend_NoOverlap_BCGS_ILU.apply lib self received A z r reduction).self
      = { converged := stat.converged, iterations := stat.iterations,
          elapsed := stat.elapsed, reduction := stat.reduction } ∧
    (stat.converged = false →
      (ISTLBackend_NoOverlap_BCGS_ILU.result
        (ISTLBackend_NoOverlap_BCGS_ILU.apply lib self received A z r reduction).self).converged
        = false) := by
  unfold ISTLBackend_NoOverlap_BCGS_ILU.apply ISTLBackend_NoOverlap_BCGS_ILU.result
  rw [applyWith_returned lib _ self received A z r z' r' reduction stat hsum hsolve]
  exact ⟨rfl, rfl, fun h => h⟩

/-- C19, evaluated: a Krylov loop which stops at the cap of `5000` iterations
without having converged; `apply` returns normally and the result says so. -/
theorem backend_apply_result_witness :
    (ISTLBackend_NoOverlap_BCGS_ILU.apply sampleLibrary sampleBackend
      (gatherAll sampleGridQ
        (MatEntryExchange.gather (Exchanger.construct sampleGridQ) sampleMatrixQ))
      sampleMatrixP (constVector 0) sampleResidual (Scalar.fin (1 / 1000))).thrown = none ∧
    ISTLBackend_NoOverlap_BCGS_ILU.result
      (ISTLBackend_NoOverlap_BCGS_ILU.apply sampleLibrary sampleBackend
        (gatherAll sampleGridQ
          (MatEntryExchange.gather (Exchanger.construct sampleGridQ) sampleMatrixQ))
        sampleMatrixP (constVector 0) sampleResidual (Scalar.fin (1 / 1000))).self
      = { converged := false, iterations := 5000, elapsed := Scalar.fin 2,
          reduction := Scalar.fin (1 / 1000) } := by
  obtain ⟨h1, h2, _⟩ := backend_apply_result sampleLibrary sampleBackend
    (gatherAll sampleGridQ
      (MatEntryExchange.gather (Exchanger.construct sampleGridQ) sampleMatrixQ))
    sampleMatrixP (constVector 0) sampleResidual (constVector 0) sampleResidual
    (Scalar.fin (1 / 1000))
    { iterations := 5000, reduction := Scalar.fin (1 / 1000), converged := false,
      conv_rate := Scalar.fin 1, elapsed := Scalar.fin 2 }
    (by decide) rfl
  exact ⟨h1, h2⟩

/-! ## The finiteness check comes first -/

/-- C20: when `deltaU` has a component which is not finite, `newtonUpdate`
throws `NumericalProblem` before it does anything else: `uCurrentIter`, the
controller and the world of the model are as before the call, so the recording
model has received neither `updateDiscrepancy` nor `computeColors`; for every
value of the flags. -/
theorem newtonUpdate_nonfinite_unchanged {W : Type} {n numEq : Nat} (fuel : Nat)
    (m : Model W n numEq) (c : BoxNewtonController) (w : W)
    (uCurrentIter uLastIter : SolutionVector n numEq) (deltaU : GlobalEqVector n numEq)
    (hbad : ∃ i j, Scalar.isfinite (deltaU i j) = false) :
    BoxNewtonController.newtonUpdate fuel m c w uCurrentIter uLastIter deltaU =
      some { ctl := c, world := w, uCurrentIter := uCurrentIter,
             thrown := some Exception.NumericalProblem, trials := [] } ∧
    (∀ (relErr : Fin n → PrimaryVariables numEq → PrimaryVariables numEq → Scalar)
      (residual : List (Event n numEq) → SolutionVector n numEq → Scalar)
      (w0 : List (Event n numEq)),
      ∃ r, BoxNewtonController.newtonUpdate fuel (recordingModel relErr residual) c w0
          uCurrentIter uLastIter deltaU = some r ∧
        r.thrown = some Exception.NumericalProblem ∧ r.world = w0 ∧
        r.uCurrentIter = uCurrentIter ∧
        (∀ u d, Event.updateDiscrepancy u d ∉ r.world.drop w0.length) ∧
        (∀ tol, Event.computeColors tol ∉ r.world.drop w0.length)) := by
  have hnorm : Scalar.isfinite (two_norm2 deltaU) = false := by
    obtain ⟨i, j, hij⟩ := hbad
    cases h : Scalar.isfinite (two_norm2 deltaU) with
    | false => rfl
    | true =>
      have := isfinite_two_norm2 deltaU h i j
      rw [hij] at this
      exact this.symm
  constructor
  · simp only [BoxNewtonController.newtonUpdate, hnorm, Bool.not_false, if_true]
  · intro relErr residual w0
    refine ⟨{ ctl := c, world := w0, uCurrentIter := uCurrentIter,
              thrown := some Exception.NumericalProblem, trials := [] }, ?_, rfl, rfl, rfl,
      ?_, ?_⟩
    · simp only [BoxNewtonController.newtonUpdate, hnorm, Bool.not_false, if_true]
    · intro u d
      simp
    · intro tol
      simp

/-- C20, evaluated on the update `[NaN]` with all three flags set: the vector
`uCurrentIter = [7]` is as before and the recording model has received
nothing. -/
theorem newtonUpdate_nonfinite_unchanged_witness :
    ∃ r, BoxNewtonController.newtonUpdate 4
        (recordingModel (fun _ _ _ => Scalar.fin 0) (fun _ _ => Scalar.fin 0))
        (sampleController true true true) [] (oneDof 7) (oneDof 2)
        (fun _ _ => Scalar.nan) = some r ∧
      r.thrown = some Exception.NumericalProblem ∧ r.world = [] ∧
      r.uCurrentIter = oneDof 7 :=
  ⟨_, (newtonUpdate_nonfinite_unchanged 4
      (recordingModel (fun _ _ _ => Scalar.fin 0) (fun _ _ => Scalar.fin 0))
      (sampleController true true true) [] (oneDof 7) (oneDof 2)
      (fun _ _ => Scalar.nan) ⟨0, 0, rfl⟩).1, rfl, rfl, rfl⟩

/-- C18, evaluated: the partition holds `3` at the shared entry and receives
`4`; after a solve the caller's matrix still holds `3`, the copy handed to the
sequential preconditioner holds `7`, and in a second solve with the same matrix
the copy holds `7` again. -/
theorem backend_apply_sums_copy_once_witness :
    rowEntry ((ISTLBackend_NoOverlap_BCGS_ILU.apply sampleLibrary sampleBackend
      (gatherAll sampleGridQ
        (MatEntryExchange.gather (Exchanger.construct sampleGridQ) sampleMatrixQ))
      sampleMatrixP (constVector 0) sampleResidual (Scalar.fin (1 / 1000))).A 1) 1
      = some (constBlock 3) ∧
    rowEntry ((ISTLBackend_NoOverlap_BCGS_ILU.apply sampleLibrary sampleBackend
      (gatherAll sampleGridQ
        (MatEntryExchange.gather (Exchanger.construct sampleGridQ) sampleMatrixQ))
      sampleMatrixP (constVector 0) sampleResidual (Scalar.fin (1 / 1000))).B 1) 1
      = some (constBlock 7) ∧
    rowEntry ((ISTLBackend_NoOverlap_BCGS_ILU.apply sampleLibrary
      (ISTLBackend_NoOverlap_BCGS_ILU.apply sampleLibrary sampleBackend
        (gatherAll sampleGridQ
          (MatEntryExchange.gather (Exchanger.construct sampleGridQ) sampleMatrixQ))
        sampleMatrixP (constVector 0) sampleResidual (Scalar.fin (1 / 1000))).self
      (gatherAll sampleGridQ
        (MatEntryExchange.gather (Exchanger.construct sampleGridQ) sampleMatrixQ))
      (ISTLBackend_NoOverlap_BCGS_ILU.apply sampleLibrary sampleBackend
        (gatherAll sampleGridQ
          (MatEntryExchange.gather (Exchanger.construct sampleGridQ) sampleMatrixQ))
        sampleMatrixP (constVector 0) sampleResidual (Scalar.fin (1 / 1000))).A
      (ISTLBackend_NoOverlap_BCGS_ILU.apply sampleLibrary sampleBackend
        (gatherAll sampleGridQ
          (MatEntryExchange.gather (Exchanger.construct sampleGridQ) sampleMatrixQ))
        sampleMatrixP (constVector 0) sampleResidual (Scalar.fin (1 / 1000))).z
      (ISTLBackend_NoOverlap_BCGS_ILU.apply sampleLibrary sampleBackend
        (gatherAll sampleGridQ
          (MatEntryExchange.gather (Exchanger.construct sampleGridQ) sampleMatrixQ))
        sampleMatrixP (constVector 0) sampleResidual (Scalar.fin (1 / 1000))).r
      (Scalar.fin (1 / 1000))).B 1) 1
      = some (constBlock 7) := by
  obtain ⟨hA, hB, _, hB2, _⟩ := backend_apply_sums_copy_once sampleLibrary sampleBackend
    (gatherAll sampleGridQ
      (MatEntryExchange.gather (Exchanger.construct sampleGridQ) sampleMatrixQ))
    (gatherAll sampleGridQ
      (MatEntryExchange.gather (Exchanger.construct sampleGridQ) sampleMatrixQ))
    sampleMatrixP (constVector 0) sampleResidual (Scalar.fin (1 / 1000))
  have hsum : rowEntry ((sampleBackend.exchanger_.sumEntries
      (gatherAll sampleGridQ
        (MatEntryExchange.gather (Exchanger.construct sampleGridQ) sampleMatrixQ))
      sampleMatrixP).A_ 1) 1 = some (constBlock 7) := by
    have h : rowEntry ((sampleBackend.exchanger_.sumEntries
        (gatherAll sampleGridQ
          (MatEntryExchange.gather (Exchanger.construct sampleGridQ) sampleMatrixQ))
        sampleMatrixP).A_ 1) 1 = some (blockAdd (constBlock 3) (constBlock 4)) := rfl
    rw [h, constBlock_add _ _ (by norm_num) (by norm_num)]
    norm_num
  exact ⟨by rw [hA]; rfl, by rw [hB]; exact hsum, by rw [hB2]; exact hsum⟩

/-! ## The tolerance when the bounds cross -/

theorem clamp_crossed (lo hi x : Scalar) (h : Scalar.gt lo hi = true) :
    stdMax lo (stdMin hi x) = lo := by
  cases lo <;> cases hi <;> cases x <;>
    simp only [stdMin, Scalar.gt, Scalar.lt, decide_eq_true_eq, Bool.false_eq_true, if_false,
      if_true] at * <;>
    (try split_ifs) <;>
    simp only [stdMax, Scalar.lt, decide_eq_true_eq, Bool.false_eq_true, if_false,
      if_true] at * <;>
    (try split_ifs) <;> (try rfl) <;> (try (congr 1; linarith))

/-- C23: with the reassembly heuristic enabled, a finite update and
`10 * tolerance_ > 1e-4`, the value which `newtonUpdate` passes to
`computeColors` is `10 * tolerance_`, whatever `error_` is (also `NaN` or
infinite): the lower bound wins in
`max (minReasmTol, min (maxReasmTol, error_ * error_))`, and the value passed
is larger than `maxReasmTol = 1e-4`. -/
theorem newtonUpdate_reassembleTol_crossed {n numEq : Nat} (k : Nat)
    (relErr : Fin n → PrimaryVariables numEq → PrimaryVariables numEq → Scalar)
    (residual : List (Event n numEq) → SolutionVector n numEq → Scalar)
    (c : BoxNewtonController) (w0 : List (Event n numEq))
    (uCurrentIter uLastIter : SolutionVector n numEq) (deltaU : GlobalEqVector n numEq)
    (hfin : Scalar.isfinite (two_norm2 deltaU) = true)
    (hre : c.enablePartialReassemble_ = true)
    (hgt : Scalar.gt (Scalar.mul (Scalar.fin 10) c.tolerance_) (Scalar.fin (1 / 10000)) = true) :
    BoxNewtonController.reassembleTol c = Scalar.mul (Scalar.fin 10) c.tolerance_ ∧
    Scalar.gt (BoxNewtonController.reassembleTol c) (Scalar.fin (1 / 10000)) = true ∧
    ∃ r, BoxNewtonController.newtonUpdate (k + 4) (recordingModel relErr residual) c w0
        uCurrentIter uLastIter deltaU = some r ∧
      r.world = w0 ++ [Event.updateDiscrepancy uLastIter deltaU,
                       Event.computeColors (Scalar.mul (Scalar.fin 10) c.tolerance_)]
        ++ residualEvents uLastIter deltaU r.trials := by
  have htol : BoxNewtonController.reassembleTol c = Scalar.mul (Scalar.fin 10) c.tolerance_ :=
    clamp_crossed _ _ _ hgt
  obtain ⟨r, h, _, _, hw⟩ := newtonUpdate_recording k relErr residual c w0 uCurrentIter
    uLastIter deltaU hfin
  rw [hre, if_pos rfl, htol] at hw
  exact ⟨htol, by rw [htol]; exact hgt, r, h, hw⟩

/-- C23, evaluated with `tolerance_ = 1e-3`, so that the lower bound is `1e-2`:
for `error_ = 0.5` (square above both bounds) and for `error_ = 1e-6` (square
below both bounds) alike `computeColors` receives `1e-2`. -/
theorem newtonUpdate_reassembleTol_crossed_witness :
    (∃ r, BoxNewtonController.newtonUpdate 4
        (recordingModel (fun _ _ _ => Scalar.fin 0) (fun _ _ => Scalar.fin 0))
        { controllerWithErrors true false false 0 (1 / 2) with
          tolerance_ := Scalar.fin (1 / 1000) } [] (oneDof 0) (oneDof 2) (oneDof (1 / 2))
          = some r ∧
      r.world = [Event.updateDiscrepancy (oneDof 2) (oneDof (1 / 2)),
                 Event.computeColors (Scalar.fin (1 / 100))]) ∧
    (∃ r, BoxNewtonController.newtonUpdate 4
        (recordingModel (fun _ _ _ => Scalar.fin 0) (fun _ _ => Scalar.fin 0))
        { controllerWithErrors true false false 0 (1 / 1000000) with
          tolerance_ := Scalar.fin (1 / 1000) } [] (oneDof 0) (oneDof 2) (oneDof (1 / 2))
          = some r ∧
      r.world = [Event.updateDiscrepancy (oneDof 2) (oneDof (1 / 2)),
                 Event.computeColors (Scalar.fin (1 / 100))]) := by
  have hten : Scalar.mul (Scalar.fin 10) (Scalar.fin (1 / 1000)) = Scalar.fin (1 / 100) := by
    simp only [Scalar.mul, Scalar.ofRat, Scalar.overflowThreshold]
    norm_num
  have hgt : Scalar.gt (Scalar.mul (Scalar.fin 10) (Scalar.fin (1 / 1000)))
      (Scalar.fin (1 / 10000)) = true := by
    simp only [Scalar.mul, Scalar.gt, Scalar.lt, decide_eq_true_eq, Scalar.ofRat, Scalar.overflowThreshold]
    norm_num
  constructor
  · obtain ⟨_, _, r, h, hw⟩ := newtonUpdate_reassembleTol_crossed 0
      (fun _ _ _ => Scalar.fin 0) (fun _ _ => Scalar.fin 0)
      { controllerWithErrors true false false 0 (1 / 2) with
        tolerance_ := Scalar.fin (1 / 1000) } [] (oneDof 0) (oneDof 2) (oneDof (1 / 2))
      oneDof_half_finite rfl hgt
    refine ⟨r, h, ?_⟩
    have ht : r.trials = [] := by
      have h2 := h
      simp only [BoxNewtonController.newtonUpdate, oneDof_half_finite, controllerWithErrors,
        sampleController, Bool.not_true, Bool.false_eq_true, if_false, Option.some.injEq] at h2
      rw [← h2]
    rw [hw, ht]
    simp only [hten]
    rfl
  · obtain ⟨_, _, r, h, hw⟩ := newtonUpdate_reassembleTol_crossed 0
      (fun _ _ _ => Scalar.fin 0) (fun _ _ => Scalar.fin 0)
      { controllerWithErrors true false false 0 (1 / 1000000) with
        tolerance_ := Scalar.fin (1 / 1000) } [] (oneDof 0) (oneDof 2) (oneDof (1 / 2))
      oneDof_half_finite rfl hgt
    refine ⟨r, h, ?_⟩
    have ht : r.trials = [] := by
      have h2 := h
      simp only [BoxNewtonController.newtonUpdate, oneDof_half_finite, controllerWithErrors,
        sampleController, Bool.not_true, Bool.false_eq_true, if_false, Option.some.injEq] at h2
      rw [← h2]
    rw [hw, ht]
    simp only [hten]
    rfl

/-! ## The relative error with both criteria disabled -/

/-- C24: with the relative criterion and the reassembly heuristic both
disabled, `newtonUpdateRelError` returns at once for every `uLastIter` and
`deltaU`: the controller, hence `error_`, is as before the call, no exception is
raised, and the result is the same for every base class, whatever its
collective maximum would return: the collective maximum is not taken. -/
theorem newtonUpdateRelError_guard_returns {W : Type} {n numEq : Nat} (p : ParentType)
    (m : Model W n numEq) (maxError : Scalar) (c : BoxNewtonController)
    (uCurrentIter uLastIter : SolutionVector n numEq) (deltaU : GlobalEqVector n numEq)
    (hrel : c.enableRelativeCriterion_ = false) (hre : c.enablePartialReassemble_ = false) :
    BoxNewtonController.newtonUpdateRelError p m maxError c uCurrentIter uLastIter deltaU
      = (c, none) ∧
    (BoxNewtonController.newtonUpdateRelError p m maxError c uCurrentIter uLastIter
      deltaU).1.error_ = c.error_ ∧
    (BoxNewtonController.newtonUpdateRelError p m maxError c uCurrentIter uLastIter
      deltaU).2 = none ∧
    ∀ q : ParentType,
      BoxNewtonController.newtonUpdateRelError q m maxError c uCurrentIter uLastIter deltaU
        = BoxNewtonController.newtonUpdateRelError p m maxError c uCurrentIter uLastIter
            deltaU := by
  have h : ∀ q : ParentType,
      BoxNewtonController.newtonUpdateRelError q m maxError c uCurrentIter uLastIter deltaU
        = (c, none) := by
    intro q
    simp only [BoxNewtonController.newtonUpdateRelError, hrel, hre, Bool.not_false,
      Bool.and_self, if_true]
  refine ⟨h p, by rw [h p], by rw [h p], fun q => by rw [h q, h p]⟩

/-- C24, evaluated: `uLast = [2]`, `deltaU = [0.5]`, a maximum allowed error of
`0.1` and `error_ = 5` from an earlier step.  The deflection `0.5` exceeds the
allowed error, yet the call returns without an exception and `error_` is still
`5`, also when the collective maximum of the base class would return `7`. -/
theorem newtonUpdateRelError_guard_returns_witness :
    vertexDeflection (idleModel (fun _ => Scalar.fin 0)) (oneDof 2) (oneDof (1 / 2)) 0
      = Scalar.fin (1 / 2) ∧
    Scalar.gt (Scalar.fin (1 / 2)) (Scalar.fin (1 / 10)) = true ∧
    BoxNewtonController.newtonUpdateRelError
      { serialParent with commMax := fun _ => Scalar.fin 7 }
      (idleModel (fun _ => Scalar.fin 0)) (Scalar.fin (1 / 10)) criteriaOffController
      (oneDof 0) (oneDof 2) (oneDof (1 / 2)) = (criteriaOffController, none) ∧
    criteriaOffController.error_ = Scalar.fin 5 := by
  refine ⟨sample_deflection 0, ?_, ?_, rfl⟩
  · simp only [Scalar.gt, Scalar.lt, decide_eq_true_eq]
    norm_num
  · exact (newtonUpdateRelError_guard_returns { serialParent with commMax := fun _ => Scalar.fin 7 }
      (idleModel (fun _ => Scalar.fin 0)) (Scalar.fin (1 / 10)) criteriaOffController
      (oneDof 0) (oneDof 2) (oneDof (1 / 2)) rfl rfl).1

/-! ## The relative error does not read the new iterate -/

/-- C25: `newtonUpdateRelError` does not read its argument `uCurrentIter`: two
calls which differ in `uCurrentIter` only give the same controller, hence the
same `error_`, and the same exception or none.  In particular, when the
criterion or the reassembly heuristic is enabled and `uCurrentIter` is the
iterate `uLast - lambda * deltaU` accepted by the line search, the error stored
is, for every `lambda`, the collective maximum of the deflections of the full
step `uLast - deltaU`. -/
theorem newtonUpdateRelError_ignores_uCurrentIter {W : Type} {n numEq : Nat} (p : ParentType)
    (m : Model W n numEq) (maxError : Scalar) (c : BoxNewtonController)
    (uCurrentIter uCurrentIter2 uLastIter : SolutionVector n numEq)
    (deltaU : GlobalEqVector n numEq) :
    BoxNewtonController.newtonUpdateRelError p m maxError c uCurrentIter uLastIter deltaU
      = BoxNewtonController.newtonUpdateRelError p m maxError c uCurrentIter2 uLastIter deltaU ∧
    ((c.enableRelativeCriterion_ || c.enablePartialReassemble_) = true →
      ∃ e, IsMaxFromZero (vertexDeflection m uLastIter deltaU) e ∧
        ∀ lambda : Scalar,
          BoxNewtonController.newtonUpdateRelError p m maxError c
              (candidate uLastIter deltaU lambda) uLastIter deltaU
            = ({ c with error_ := p.commMax e },
               if Scalar.gt (p.commMax e) maxError then some Exception.NumericalProblem
               else none)) := by
  refine ⟨rfl, fun hen => ?_⟩
  obtain ⟨e, he, h⟩ := newtonUpdateRelError_enabled p m maxError c uCurrentIter uLastIter
    deltaU hen
  exact ⟨e, he, fun lambda => h⟩

/-- C25, evaluated: `uLast = [2]`, `deltaU = [0.5]`, the relative error of a
vertex being the difference of the two iterates.  The line search accepted
`lambda = 1/2`, so the accepted iterate is `[1.75]` and its deflection from
`uLast` is `0.25`; the error stored is `0.5`, the deflection of the full step
`[1.5]`. -/
theorem newtonUpdateRelError_ignores_uCurrentIter_witness :
    candidate (oneDof 2) (oneDof (1 / 2)) (Scalar.fin (1 / 2)) = oneDof (7 / 4) ∧
    (idleModel (fun _ => Scalar.fin 0)).relativeErrorVertex 0 (oneDof 2 0) (oneDof (7 / 4) 0)
      = Scalar.fin (1 / 4) ∧
    (BoxNewtonController.newtonUpdateRelError serialParent (idleModel (fun _ => Scalar.fin 0))
      (Scalar.fin 1) (sampleController false false true) (oneDof (7 / 4)) (oneDof 2)
      (oneDof (1 / 2))).1.error_ = Scalar.fin (1 / 2) ∧
    BoxNewtonController.newtonUpdateRelError serialParent (idleModel (fun _ => Scalar.fin 0))
      (Scalar.fin 1) (sampleController false false true) (oneDof (7 / 4)) (oneDof 2)
      (oneDof (1 / 2))
    = BoxNewtonController.newtonUpdateRelError serialParent (idleModel (fun _ => Scalar.fin 0))
      (Scalar.fin 1) (sampleController false false true) (oneDof (3 / 2)) (oneDof 2)
      (oneDof (1 / 2)) := by
  have hcand : candidate (oneDof 2) (oneDof (1 / 2)) (Scalar.fin (1 / 2)) = oneDof (7 / 4) := by
    funext i j
    simp only [candidate, oneDof, Scalar.sub, Scalar.mul, Scalar.neg, Scalar.add,
      Scalar.ofRat, Scalar.overflowThreshold]
    norm_num
  obtain ⟨hsame, hfull⟩ := newtonUpdateRelError_ignores_uCurrentIter serialParent
    (idleModel (fun _ => Scalar.fin 0)) (Scalar.fin 1) (sampleController false false true)
    (oneDof (7 / 4)) (oneDof (3 / 2)) (oneDof 2) (oneDof (1 / 2))
  obtain ⟨e, he, h⟩ := hfull rfl
  refine ⟨hcand, ?_, ?_, hsame⟩
  · simp only [idleModel, oneDof, Scalar.sub, Scalar.neg, Scalar.add, Scalar.ofRat, Scalar.overflowThreshold]
    norm_num
  · have h2 := h (Scalar.fin (1 / 2))
    rw [hcand] at h2
    rw [h2, sample_isMax e he]
    rfl

/-! ## The colouring for partial reassembly -/

/-- The states passed through end in the state which `newtonUpdate` returns. -/
theorem newtonUpdateStates_last {W : Type} {n numEq : Nat} (fuel : Nat)
    (m : Model W n numEq) (c : BoxNewtonController) (w : W)
    (uCurrentIter uLastIter : SolutionVector n numEq) (deltaU : GlobalEqVector n numEq)
    (r : UpdateResult W n numEq)
    (h : BoxNewtonController.newtonUpdate fuel m c w uCurrentIter uLastIter deltaU = some r)
    (hfin : Scalar.isfinite (two_norm2 deltaU) = true) :
    ∃ calls, BoxNewtonController.newtonUpdateStates fuel m c w uCurrentIter uLastIter deltaU
        = calls ++ [(r.world, r.uCurrentIter)] ∧
      (c.enablePartialReassemble_ = true →
        calls = [(m.jacobianAssembler.updateDiscrepancy uLastIter deltaU w, uCurrentIter),
          (m.jacobianAssembler.computeColors (BoxNewtonController.reassembleTol c)
            (m.jacobianAssembler.updateDiscrepancy uLastIter deltaU w), uCurrentIter)]) ∧
      (c.enablePartialReassemble_ = false → calls = []) := by
  simp only [BoxNewtonController.newtonUpdate, hfin, Bool.not_true, Bool.false_eq_true,
    if_false] at h
  simp only [BoxNewtonController.newtonUpdateStates, hfin, Bool.not_true, Bool.false_eq_true,
    if_false]
  refine ⟨if c.enablePartialReassemble_ = true then
      [(m.jacobianAssembler.updateDiscrepancy uLastIter deltaU w, uCurrentIter),
       (m.jacobianAssembler.computeColors (BoxNewtonController.reassembleTol c)
          (m.jacobianAssembler.updateDiscrepancy uLastIter deltaU w), uCurrentIter)]
    else [], ?_, fun hre => if_pos hre, fun hre => if_neg (by simp [hre])⟩
  congr 1
  cases hls : c.useLineSearch_ with
  | true =>
    simp only [hls, if_true] at h ⊢
    rw [h]
  | false =>
    simp only [hls, Bool.false_eq_true, if_false, Option.some.injEq] at h ⊢
    rw [← h]

/-- C21 as stated fails for a finite `deltaU` whose squares overflow.  With the
reassembly heuristic enabled and `deltaU = [2^600]` every component of `deltaU`
is finite, but the squared two-norm is `+inf`: `newtonUpdate` throws
`NumericalProblem` and the assembler receives neither `updateDiscrepancy` nor
`computeColors`. -/
theorem newtonUpdate_coloring_overflow :
    (sampleController true false false).enablePartialReassemble_ = true ∧
    (∀ i j, Scalar.isfinite (oneDof (2 ^ 600) i j) = true) ∧
    Scalar.isfinite (two_norm2 (oneDof (2 ^ 600))) = false ∧
    ∃ r, BoxNewtonController.newtonUpdate 4
        (recordingModel (fun _ _ _ => Scalar.fin 0) (fun _ _ => Scalar.fin 0))
        (sampleController true false false) [] (oneDof 0) (oneDof 2) (oneDof (2 ^ 600))
        = some r ∧
      r.thrown = some Exception.NumericalProblem ∧ r.world = [] := by
  have hnorm : Scalar.isfinite (two_norm2 (oneDof (2 ^ 600))) = false := by
    rw [two_norm2_oneDof_overflow]
    rfl
  refine ⟨rfl, fun _ _ => rfl, hnorm, ?_⟩
  simp only [BoxNewtonController.newtonUpdate, hnorm, Bool.not_false, if_true]
  exact ⟨_, rfl, rfl, rfl⟩

/-- C21, amended: what `newtonUpdate` asks of the Jacobian assembler.  With the
reassembly heuristic enabled and a `deltaU` whose squared two-norm is finite,
the recording model receives exactly one `updateDiscrepancy (uLastIter, deltaU)`
followed by exactly one `computeColors (reassembleTol)` and after these only
evaluations of the residual.  Of the states passed through, the one after
`updateDiscrepancy` and the one after `computeColors` still hold the
`uCurrentIter` with which `newtonUpdate` was entered; the update, which writes
`uCurrentIter`, comes after them and ends in the state returned (without line
search `uCurrentIter[i] = uLastIter[i] - deltaU[i]`).  With the heuristic
disabled the assembler receives no call at all, for every `deltaU`: the
recording model receives only the evaluations of the residual made by the line
search. -/
theorem newtonUpdate_reassembly_coloring {n numEq : Nat} (k : Nat)
    (relErr : Fin n → PrimaryVariables numEq → PrimaryVariables numEq → Scalar)
    (residual : List (Event n numEq) → SolutionVector n numEq → Scalar)
    (c : BoxNewtonController) (w0 : List (Event n numEq))
    (uCurrentIter uLastIter : SolutionVector n numEq) (deltaU : GlobalEqVector n numEq) :
    (c.enablePartialReassemble_ = true → Scalar.isfinite (two_norm2 deltaU) = true →
      ∃ r, BoxNewtonController.newtonUpdate (k + 4) (recordingModel relErr residual) c w0
          uCurrentIter uLastIter deltaU = some r ∧
        r.thrown = none ∧
        r.world = w0 ++ [Event.updateDiscrepancy uLastIter deltaU,
                         Event.computeColors (BoxNewtonController.reassembleTol c)]
          ++ residualEvents uLastIter deltaU r.trials ∧
        BoxNewtonController.newtonUpdateStates (k + 4) (recordingModel relErr residual) c w0
            uCurrentIter uLastIter deltaU
          = [(w0 ++ [Event.updateDiscrepancy uLastIter deltaU], uCurrentIter),
             (w0 ++ [Event.updateDiscrepancy uLastIter deltaU,
                     Event.computeColors (BoxNewtonController.reassembleTol c)], uCurrentIter),
             (r.world, r.uCurrentIter)] ∧
        (c.useLineSearch_ = false →
          ∀ i, r.uCurrentIter i = fieldSubAssign (uLastIter i) (deltaU i))) ∧
    (c.enablePartialReassemble_ = false →
      ∃ r, BoxNewtonController.newtonUpdate (k + 4) (recordingModel relErr residual) c w0
          uCurrentIter uLastIter deltaU = some r ∧
        r.world = w0 ++ residualEvents uLastIter deltaU r.trials) := by
  constructor
  · intro hre hfin
    obtain ⟨r, h, ht, _, hw⟩ := newtonUpdate_recording k relErr residual c w0 uCurrentIter
      uLastIter deltaU hfin
    rw [hre, if_pos rfl] at hw
    obtain ⟨calls, hs, hc, _⟩ := newtonUpdateStates_last (k + 4)
      (recordingModel relErr residual) c w0 uCurrentIter uLastIter deltaU r h hfin
    refine ⟨r, h, ht, hw, ?_, ?_⟩
    · rw [hs, hc hre]
      simp [recordingModel]
    · intro hls i
      have h2 := h
      simp only [BoxNewtonController.newtonUpdate, hfin, hls, Bool.not_true, Bool.false_eq_true,
        if_false, plainUpdate_loop, Option.some.injEq] at h2
      rw [← h2]
  · intro hre
    cases hfin : Scalar.isfinite (two_norm2 deltaU) with
    | true =>
      obtain ⟨r, h, _, _, hw⟩ := newtonUpdate_recording k relErr residual c w0 uCurrentIter
        uLastIter deltaU hfin
      rw [hre] at hw
      refine ⟨r, h, ?_⟩
      rw [hw]
      simp
    | false =>
      refine ⟨{ ctl := c, world := w0, uCurrentIter := uCurrentIter,
                thrown := some Exception.NumericalProblem, trials := [] }, ?_, ?_⟩
      · simp only [BoxNewtonController.newtonUpdate, hfin, Bool.not_false, if_true]
      · simp [residualEvents]

/-- C21 amended, evaluated on `uLast = [2]`, `deltaU = [0.5]` and
`uCurrentIter = [0]` on entry, without line search.  With the heuristic enabled
(`tolerance_ = 1e-8`, `error_ = 0`) the assembler receives
`updateDiscrepancy ([2], [0.5])` and then `computeColors (1e-7)`, `uCurrentIter`
being `[0]` after both calls and `[1.5]` at the end; with the heuristic disabled
the assembler receives nothing. -/
theorem newtonUpdate_reassembly_coloring_witness :
    (BoxNewtonController.newtonUpdateStates 4
        (recordingModel (fun _ _ _ => Scalar.fin 0) (fun _ _ => Scalar.fin 0))
        (sampleController true false false) [] (oneDof 0) (oneDof 2) (oneDof (1 / 2))
      = [([Event.updateDiscrepancy (oneDof 2) (oneDof (1 / 2))], oneDof 0),
         ([Event.updateDiscrepancy (oneDof 2) (oneDof (1 / 2)),
           Event.computeColors (Scalar.fin (1 / 10000000))], oneDof 0),
         ([Event.updateDiscrepancy (oneDof 2) (oneDof (1 / 2)),
           Event.computeColors (Scalar.fin (1 / 10000000))], oneDof (3 / 2))]) ∧
    (∃ r, BoxNewtonController.newtonUpdate 4
        (recordingModel (fun _ _ _ => Scalar.fin 0) (fun _ _ => Scalar.fin 0))
        (sampleController false false false) [] (oneDof 0) (oneDof 2) (oneDof (1 / 2)) = some r ∧
      r.world = []) := by
  have htol : BoxNewtonController.reassembleTol (sampleController true false false)
      = Scalar.fin (1 / 10000000) := by
    simp only [BoxNewtonController.reassembleTol, sampleController, Scalar.mul, stdMin, stdMax,
      Scalar.lt, Scalar.ofRat, Scalar.overflowThreshold]
    norm_num
  have hsub : (fun i => fieldSubAssign (oneDof 2 i) (oneDof (1 / 2) i)) = oneDof (3 / 2) := by
    funext i j
    simp only [fieldSubAssign, oneDof, Scalar.sub, Scalar.neg, Scalar.add, Scalar.ofRat,
      Scalar.overflowThreshold]
    norm_num
  constructor
  · obtain ⟨r, h, _, hw, hs, hu⟩ := (newtonUpdate_reassembly_coloring 0
      (fun _ _ _ => Scalar.fin 0) (fun _ _ => Scalar.fin 0)
      (sampleController true false false) [] (oneDof 0) (oneDof 2) (oneDof (1 / 2))).1 rfl
      oneDof_half_finite
    have ht : r.trials = [] := by
      have h2 := h
      simp only [BoxNewtonController.newtonUpdate, oneDof_half_finite, sampleController,
        Bool.not_true, Bool.false_eq_true, if_false, Option.some.injEq] at h2
      rw [← h2]
    have hu2 : r.uCurrentIter = oneDof (3 / 2) := by
      rw [← hsub]
      funext i
      exact hu rfl i
    rw [hs, hw, ht, htol, hu2]
    rfl
  · obtain ⟨r, h, hw⟩ := (newtonUpdate_reassembly_coloring 0
      (fun _ _ _ => Scalar.fin 0) (fun _ _ => Scalar.fin 0)
      (sampleController false false false) [] (oneDof 0) (oneDof 2) (oneDof (1 / 2))).2 rfl
    refine ⟨r, h, ?_⟩
    have ht : r.trials = [] := by
      have h2 := h
      simp only [BoxNewtonController.newtonUpdate, oneDof_half_finite, sampleController,
        Bool.not_true, Bool.false_eq_true, if_false, Option.some.injEq] at h2
      rw [← h2]
    rw [hw, ht]
    rfl

/-! ## What `gather` writes and what `size` announces -/

theorem size_eq_length_filter {numEq : Nat} (ex : Exchanger) (A_ : Matrix numEq) (e : Vertex) :
    MatEntryExchange.size ex A_ e =
      ((A_ e.localIdx).filter (fun j => (ex.index2GID_ j.1).isSome)).length := by
  have key : ∀ (l : MatrixRow numEq) (acc : Nat),
      l.foldl (fun n j => if (ex.index2GID_ j.1).isSome then n + 1 else n) acc =
      acc + (l.filter (fun j => (ex.index2GID_ j.1).isSome)).length := by
    intro l
    induction l with
    | nil => simp
    | cons a l ih =>
      intro acc
      rw [List.foldl_cons, ih]
      cases h : (ex.index2GID_ a.1).isSome <;> simp [List.filter_cons, h]
      omega
  simpa [MatEntryExchange.size] using key (A_ e.localIdx) 0

theorem length_filterMap_map {α β : Type} (f : α → Option Nat) (g : Nat → α → β) (l : List α) :
    (l.filterMap (fun j => (f j).map (fun gid => g gid j))).length =
      (l.filter (fun j => (f j).isSome)).length := by
  induction l with
  | nil => rfl
  | cons a l ih =>
    cases h : f a <;> simp [List.filterMap_cons, List.filter_cons, h, ih]

/-- C22: for every matrix and every vertex `e` with the local row `i`, `gather`
writes exactly `size (e)` entries: going through the stored columns `j` of the
row `i` in the order of the column iterator, it writes the pair
`(index2GID_[j], A[i][j])` for each column which is a key of `index2GID_` and
nothing for a column which is not.  So an entry is written exactly if it is
such a pair, and a row without border columns gives an empty message. -/
theorem gather_size_agree {numEq : Nat} (ex : Exchanger) (A_ : Matrix numEq) (e : Vertex) :
    (MatEntryExchange.gather ex A_ e).length = MatEntryExchange.size ex A_ e ∧
    MatEntryExchange.gather ex A_ e =
      (A_ e.localIdx).filterMap (fun j =>
        match ex.index2GID_ j.1 with
        | some gid => some { first := gid, second := j.2 }
        | none => none) ∧
    (∀ m : MatEntry numEq, m ∈ MatEntryExchange.gather ex A_ e ↔
      ∃ j ∈ A_ e.localIdx, ex.index2GID_ j.1 = some m.first ∧ m.second = j.2) ∧
    ((∀ j ∈ A_ e.localIdx, ex.index2GID_ j.1 = none) →
      MatEntryExchange.gather ex A_ e = [] ∧ MatEntryExchange.size ex A_ e = 0) := by
  have hg := gather_eq_filterMap ex A_ e
  have hs := size_eq_length_filter ex A_ e
  refine ⟨?_, ?_, ?_, ?_⟩
  · rw [hg, hs]
    exact length_filterMap_map (fun j => ex.index2GID_ j.1)
      (fun gid j => ({ first := gid, second := j.2 } : MatEntry numEq)) (A_ e.localIdx)
  · rw [hg]
    congr 1
    funext j
    cases ex.index2GID_ j.1 <;> rfl
  · intro m
    rw [hg, List.mem_filterMap]
    constructor
    · rintro ⟨j, hj, h⟩
      cases hk : ex.index2GID_ j.1 with
      | none => simp [hk] at h
      | some gid =>
        simp only [hk, Option.map_some', Option.some.injEq] at h
        subst h
        exact ⟨j, hj, hk, rfl⟩
    · rintro ⟨j, hj, hk, hm⟩
      refine ⟨j, hj, ?_⟩
      rw [hk, Option.map_some', ← hm]
  · intro hnone
    constructor
    · rw [hg, List.filterMap_eq_nil_iff]
      intro j hj
      rw [hnone j hj]
      rfl
    · rw [hs, List.length_eq_zero, List.filter_eq_nil_iff]
      intro j hj
      rw [hnone j hj]
      simp

/-- C22, evaluated: on the partition with the border vertices `1` and `2`
(global identifiers `10` and `11`) the row `1` stores the columns `0`, `1`, `2`
with the values `1`, `3`, `5`; column `0` belongs to an interior vertex.
`size` is `2` and `gather` writes `(10, 3)` and `(11, 5)`, in this order. -/
theorem gather_size_agree_witness :
    MatEntryExchange.size (Exchanger.construct sampleGridP) sampleMatrixP
      ⟨PartitionType.BorderEntity, 1, 10⟩ = 2 ∧
    MatEntryExchange.gather (Exchanger.construct sampleGridP) sampleMatrixP
      ⟨PartitionType.BorderEntity, 1, 10⟩
      = [{ first := 10, second := constBlock 3 }, { first := 11, second := constBlock 5 }] := by
  obtain ⟨hlen, hg, _, _⟩ := gather_size_agree (Exchanger.construct sampleGridP) sampleMatrixP
    ⟨PartitionType.BorderEntity, 1, 10⟩
  refine ⟨?_, ?_⟩
  · rw [← hlen, hg]
    rfl
  · rw [hg]
    rfl

/-! ## The indices of the one-phase black-oil model -/

theorem nodup_filter_map_iff (l : List (Bool × Int)) :
    ((l.filter (fun q => q.1)).map (fun q => q.2)).Nodup ↔
      l.Pairwise (fun p q => p.1 = true → q.1 = true → p.2 ≠ q.2) := by
  induction l with
  | nil => simp
  | cons a l ih =>
    cases ha : a.1 with
    | false =>
      rw [List.filter_cons_of_neg (by simp [ha]), ih, List.pairwise_cons]
      simp [ha]
    | true =>
      rw [List.filter_cons_of_pos (by simp [ha]), List.map_cons, List.nodup_cons, ih,
        List.pairwise_cons]
      simp only [List.mem_map, List.mem_filter, not_exists, not_and, ha, true_implies]
      constructor
      · rintro ⟨h1, h2⟩
        exact ⟨fun q hq hq1 heq => h1 q ⟨hq, hq1⟩ heq.symm, h2⟩
      · rintro ⟨h1, h2⟩
        exact ⟨fun q hq heq => h1 q hq.1 hq.2 heq.symm, h2⟩

theorem forall_mem_enabled_iff (l : List (Bool × Int)) (P : Int → Prop) :
    (∀ x ∈ (l.filter (fun q => q.1)).map (fun q => q.2), P x) ↔
      ∀ q ∈ l, q.1 = true → P q.2 := by
  simp only [List.mem_map, List.mem_filter]
  constructor
  · intro h q hq hb
    exact h q.2 ⟨q, ⟨hq, hb⟩, rfl⟩
  · rintro h x ⟨q, ⟨hq, hb⟩, rfl⟩
    exact h q hq hb

theorem forall_mem_disabled_iff (l : List (Bool × Int)) (P : Int → Prop) :
    (∀ x ∈ (l.filter (fun q => !q.1)).map (fun q => q.2), P x) ↔
      ∀ q ∈ l, q.1 = false → P q.2 := by
  simp only [List.mem_map, List.mem_filter, Bool.not_eq_true']
  constructor
  · intro h q hq hb
    exact h q.2 ⟨q, ⟨hq, hb⟩, rfl⟩
  · rintro h x ⟨q, ⟨hq, hb⟩, rfl⟩
    exact h q hq hb

theorem count_eq (v : Nat) (h : v < 2147483648) :
    toInt (if decide (v > 0) = true then (v : Int) else toUnsigned 0) = (v : Int) := by
  simp only [toInt, toUnsigned, decide_eq_true_eq]
  split_ifs <;> omega

open BlackOilOnePhaseIndices

theorem counts_eq (t : BlackOilOnePhaseIndices) (h : t.NoWrap) :
    t.numSolvents = t.numSolventsV ∧ t.numExtbos = t.numExtbosV ∧
    t.numPolymers = t.numPolymersV ∧ t.numEnergy = t.numEnergyV ∧
    t.numMICPs = t.numMICPsV := by
  obtain ⟨h1, h2, h3, h4, h5, _⟩ := h
  exact ⟨count_eq _ h1, count_eq _ h2, count_eq _ h3, count_eq _ h4, count_eq _ h5⟩

theorem indices_eq (t : BlackOilOnePhaseIndices) (h : t.NoWrap) :
    t.pressureSwitchIdx = t.PVOffset ∧
    t.solventSaturationIdx = (if t.numSolventsV > 0 then (t.PVOffset : Int) + 1 else -1000) ∧
    t.zFractionIdx
      = (if t.numExtbosV > 0 then (t.PVOffset : Int) + 1 + t.numSolventsV else -1000) ∧
    t.polymerConcentrationIdx
      = (if t.numPolymersV > 0 then (t.PVOffset : Int) + 1 + t.numSolventsV else -1000) ∧
    t.microbialConcentrationIdx
      = (if t.numMICPsV > 0 then (t.PVOffset : Int) + 1 + t.numSolventsV else -1000) ∧
    t.foamConcentrationIdx
      = (if t.enableFoam then
          (t.PVOffset : Int) + 1 + t.numSolventsV + t.numPolymersV + t.numMICPsV
         else -1000) ∧
    t.saltConcentrationIdx
      = (if t.enableBrine then
          (t.PVOffset : Int) + 1 + t.numSolventsV + t.numExtbosV + t.numPolymersV + t.numMICPsV
            + t.numFoam
         else -1000) ∧
    t.temperatureIdx
      = (if t.numEnergyV > 0 then
          (t.PVOffset : Int) + 1 + t.numSolventsV + t.numExtbosV + t.numPolymersV + t.numMICPsV
            + t.numFoam + t.numBrine
         else -1000) := by
  obtain ⟨hns, hne, hnp, hnE, hnm⟩ := counts_eq t h
  obtain ⟨c1, c2, c3, c4, c5, b0, b1, b2, b3, b4, b5⟩ := h
  refine ⟨?_, ?_, ?_, ?_, ?_, ?_, ?_, ?_⟩
  · simp only [pressureSwitchIdx, unsignedAdd, toUnsigned, toInt]
    split_ifs <;> omega
  · simp only [solventSaturationIdx, enableSolvent, numPhases, unsignedAdd, toUnsigned, toInt,
      decide_eq_true_eq]
    split_ifs <;> omega
  · simp only [zFractionIdx, enableExtbo, afterSolvents, hns, numPhases, unsignedAdd,
      toUnsigned, toInt, decide_eq_true_eq]
    split_ifs <;> omega
  · simp only [polymerConcentrationIdx, enablePolymer, afterSolvents, hns, numPhases,
      unsignedAdd, toUnsigned, toInt, decide_eq_true_eq]
    split_ifs <;> omega
  · simp only [microbialConcentrationIdx, enableMICP, afterSolvents, hns, numPhases,
      unsignedAdd, toUnsigned, toInt, decide_eq_true_eq]
    split_ifs <;> omega
  · cases hF : t.enableFoam with
    | false =>
      simp only [foamConcentrationIdx, hF, Bool.false_eq_true, if_false, toUnsigned, toInt]
      decide
    | true =>
      have b3 := b3 hF
      simp only [foamConcentrationIdx, hF, if_true, afterSolvents, hns, hnp, hnm, numPhases,
        unsignedAdd, toUnsigned, toInt]
      split_ifs <;> omega
  · cases hB : t.enableBrine with
    | false =>
      simp only [saltConcentrationIdx, hB, Bool.false_eq_true, if_false, toUnsigned, toInt]
      decide
    | true =>
      have b4 := b4 hB
      cases hF : t.enableFoam <;>
        simp only [saltConcentrationIdx, hB, hF, if_true, Bool.false_eq_true, if_false,
          afterSolvents, hns, hne, hnp, hnm, numPhases, numFoam, unsignedAdd, toUnsigned,
          toInt] at b4 ⊢ <;>
        split_ifs <;> omega
  · cases hB : t.enableBrine <;> cases hF : t.enableFoam <;>
      simp only [temperatureIdx, enableEnergy, hB, hF, if_true, Bool.false_eq_true, if_false,
        afterSolvents, hns, hne, hnp, hnm, numPhases, numFoam, numBrine, unsignedAdd,
        toUnsigned, toInt, decide_eq_true_eq] at b5 ⊢ <;>
      split_ifs <;> omega

theorem modules_exclusive (t : BlackOilOnePhaseIndices)
    (hmod : [t.enableExtbo, t.enablePolymer, t.enableMICP].count true ≤ 1) :
    (t.numExtbosV = 0 ∨ (t.numPolymersV = 0 ∧ t.numMICPsV = 0)) ∧
    (t.numPolymersV = 0 ∨ t.numMICPsV = 0) := by
  simp only [enableExtbo, enablePolymer, enableMICP, List.count_cons, List.count_nil,
    beq_iff_eq, decide_eq_true_eq] at hmod
  split_ifs at hmod <;> omega

theorem chained_indices_eq (t : BlackOilOnePhaseIndices) (h : t.NoWrap) :
    t.polymerMoleWeightIdx
      = (if t.numPolymersV > 1 then (t.PVOffset : Int) + 2 + t.numSolventsV else -1000) ∧
    t.oxygenConcentrationIdx
      = (if t.numMICPsV > 1 then (t.PVOffset : Int) + 2 + t.numSolventsV else -1000) ∧
    t.ureaConcentrationIdx
      = (if t.numMICPsV > 2 then (t.PVOffset : Int) + 3 + t.numSolventsV else -1000) ∧
    t.biofilmConcentrationIdx
      = (if t.numMICPsV > 3 then (t.PVOffset : Int) + 4 + t.numSolventsV else -1000) ∧
    t.calciteConcentrationIdx
      = (if t.numMICPsV > 4 then (t.PVOffset : Int) + 5 + t.numSolventsV else -1000) := by
  obtain ⟨-, -, hnp, -, hnm⟩ := counts_eq t h
  obtain ⟨-, -, -, h4, h5, -, -, -⟩ := indices_eq t h
  have hox : t.oxygenConcentrationIdx
      = (if t.numMICPsV > 1 then (t.PVOffset : Int) + 2 + t.numSolventsV else -1000) := by
    simp only [oxygenConcentrationIdx, h5, hnm]
    split_ifs <;> omega
  have hur : t.ureaConcentrationIdx
      = (if t.numMICPsV > 2 then (t.PVOffset : Int) + 3 + t.numSolventsV else -1000) := by
    simp only [ureaConcentrationIdx, hox, hnm]
    split_ifs <;> omega
  have hbi : t.biofilmConcentrationIdx
      = (if t.numMICPsV > 3 then (t.PVOffset : Int) + 4 + t.numSolventsV else -1000) := by
    simp only [biofilmConcentrationIdx, hur, hnm]
    split_ifs <;> omega
  refine ⟨?_, hox, hur, hbi, ?_⟩
  · simp only [polymerMoleWeightIdx, h4, hnp]
    split_ifs <;> omega
  · simp only [calciteConcentrationIdx, hbi, hnm]
    split_ifs <;> omega

theorem disabled_value : toInt (toUnsigned (-1000)) = -1000 := by decide

/-- The index of a disabled quantity is negative, for every choice of the
template parameters. -/
theorem disabledIndices_negative (t : BlackOilOnePhaseIndices) :
    ∀ x ∈ t.disabledIndices, x < 0 := by
  unfold disabledIndices
  rw [forall_mem_disabled_iff]
  simp only [quantities, List.mem_cons, forall_eq_or_imp, List.not_mem_nil,
    IsEmpty.forall_iff, implies_true, and_true, decide_eq_false_iff_not]
  refine ⟨?_, ?_, ?_, ?_, ?_, ?_, ?_, ?_, ?_, ?_, ?_, ?_, ?_⟩
  · intro h
    exact absurd h (by decide)
  · intro h
    simp only [solventSaturationIdx, h, Bool.false_eq_true, if_false, disabled_value]
    decide
  · intro h
    simp only [zFractionIdx, h, Bool.false_eq_true, if_false, disabled_value]
    decide
  · intro h
    simp only [polymerConcentrationIdx, h, Bool.false_eq_true, if_false, disabled_value]
    decide
  · intro h
    simp only [polymerMoleWeightIdx, if_neg h]
    decide
  · intro h
    simp only [microbialConcentrationIdx, h, Bool.false_eq_true, if_false, disabled_value]
    decide
  · intro h
    simp only [oxygenConcentrationIdx, if_neg h]
    decide
  · intro h
    simp only [ureaConcentrationIdx, if_neg h]
    decide
  · intro h
    simp only [biofilmConcentrationIdx, if_neg h]
    decide
  · intro h
    simp only [calciteConcentrationIdx, if_neg h]
    decide
  · intro h
    simp only [foamConcentrationIdx, h, Bool.false_eq_true, if_false, disabled_value]
    decide
  · intro h
    simp only [saltConcentrationIdx, h, Bool.false_eq_true, if_false, disabled_value]
    decide
  · intro h
    simp only [temperatureIdx, h, Bool.false_eq_true, if_false, disabled_value]
    decide

theorem enabledIndices_range (t : BlackOilOnePhaseIndices) (h : t.NoWrap) :
    ∀ x ∈ t.enabledIndices, (t.PVOffset : Int) ≤ x ∧ x < (t.PVOffset : Int) + t.numEq := by
  obtain ⟨hns, hne, hnp, hnE, hnm⟩ := counts_eq t h
  obtain ⟨h1, h2, h3, h4, h5, h6, h7, h8⟩ := indices_eq t h
  obtain ⟨h9, h10, h11, h12, h13⟩ := chained_indices_eq t h
  unfold enabledIndices
  rw [forall_mem_enabled_iff]
  simp only [quantities, numEq, numPhases, h1, h2, h3, h4, h5,
    h6, h7, h8, h9, h10, h11, h12, h13, hns, hne, hnp, hnE, hnm, numFoam, numBrine,
    enableSolvent, enableExtbo,
    enablePolymer, enableEnergy, enableMICP, List.pairwise_cons, List.mem_cons,
    forall_eq_or_imp, decide_eq_true_eq, decide_eq_false_iff_not, List.not_mem_nil,
    List.Pairwise.nil, and_true, true_implies, IsEmpty.forall_iff, implies_true]
  clear h1 h2 h3 h4 h5 h6 h7 h8 h9 h10 h11 h12 h13 hns hne hnp hnE hnm
  obtain ⟨c1, c2, c3, c4, c5, b0, b1, b2, b3, b4, b5⟩ := h
  clear b0 b1 b2 b3 b4 b5
  cases hF : t.enableFoam <;> cases hB : t.enableBrine <;>
    simp only [Bool.false_eq_true, if_false, if_true,
      true_implies, false_implies, and_true, true_and, reduceCtorEq] <;>
    (repeat' apply And.intro) <;>
    intros <;> (try split_ifs) <;> first | trivial | omega

theorem enabledIndices_nodup (t : BlackOilOnePhaseIndices)
    (hmod : [t.enableExtbo, t.enablePolymer, t.enableMICP].count true ≤ 1)
    (hfoam : ¬ (t.enableExtbo = true ∧ t.enableFoam = true))
    (h : t.NoWrap) :
    t.enabledIndices.Nodup := by
  obtain ⟨hns, hne, hnp, hnE, hnm⟩ := counts_eq t h
  obtain ⟨h1, h2, h3, h4, h5, h6, h7, h8⟩ := indices_eq t h
  obtain ⟨h9, h10, h11, h12, h13⟩ := chained_indices_eq t h
  obtain ⟨hm1, hm2⟩ := modules_exclusive t hmod
  have hfoam2 : t.numExtbosV = 0 ∨ t.enableFoam = false := by
    simp only [enableExtbo, decide_eq_true_eq, not_and, Bool.not_eq_true] at hfoam
    rcases Nat.eq_zero_or_pos t.numExtbosV with h0 | h0
    · exact Or.inl h0
    · exact Or.inr (hfoam h0)
  unfold enabledIndices
  rw [nodup_filter_map_iff]
  simp only [quantities, numEq, numPhases, h1, h2, h3, h4, h5,
    h6, h7, h8, h9, h10, h11, h12, h13, hns, hne, hnp, hnE, hnm, numFoam, numBrine,
    enableSolvent, enableExtbo,
    enablePolymer, enableEnergy, enableMICP, List.pairwise_cons, List.mem_cons,
    forall_eq_or_imp, decide_eq_true_eq, decide_eq_false_iff_not, List.not_mem_nil,
    List.Pairwise.nil, and_true, true_implies, IsEmpty.forall_iff, implies_true]
  clear h1 h2 h3 h4 h5 h6 h7 h8 h9 h10 h11 h12 h13 hns hne hnp hnE hnm
  obtain ⟨c1, c2, c3, c4, c5, b0, b1, b2, b3, b4, b5⟩ := h
  clear b0 b1 b2 b3 b4 b5 hmod hfoam
  cases hF : t.enableFoam <;> cases hB : t.enableBrine <;>
    simp only [hF, Bool.false_eq_true, if_false, if_true, or_false, or_true,
      true_implies, false_implies, and_true, true_and, reduceCtorEq] at hfoam2 ⊢ <;>
    (repeat' apply And.intro) <;>
    intros <;> (try split_ifs) <;> first | trivial | omega

/-- What the statement `IndicesSeparate` says about a single quantity and about a
pair of quantities of the list. -/
theorem indicesSeparate_at (t : BlackOilOnePhaseIndices) (hsep : t.IndicesSeparate) :
    (∀ q ∈ t.quantities, q.1 = true →
      (t.PVOffset : Int) ≤ q.2 ∧ q.2 < (t.PVOffset : Int) + t.numEq) ∧
    ∀ (i j : Nat) (hi : i < t.quantities.length) (hj : j < t.quantities.length), i < j →
      (t.quantities.get ⟨i, hi⟩).1 = true → (t.quantities.get ⟨j, hj⟩).1 = true →
      (t.quantities.get ⟨i, hi⟩).2 ≠ (t.quantities.get ⟨j, hj⟩).2 := by
  obtain ⟨hnod, hrng, _⟩ := hsep
  unfold enabledIndices at hnod hrng
  rw [nodup_filter_map_iff] at hnod
  rw [forall_mem_enabled_iff] at hrng
  refine ⟨hrng, ?_⟩
  intro i j hi hj hij
  exact (List.pairwise_iff_getElem.1 hnod) i j hi hj hij

/-- Two of the extensions Extbo, polymer and MICP enabled together have the same
index, and so have Extbo and foam when polymer and MICP are disabled. -/
theorem shared_slot (t : BlackOilOnePhaseIndices) :
    (t.enableExtbo = true → t.enablePolymer = true →
      t.zFractionIdx = t.polymerConcentrationIdx) ∧
    (t.enableExtbo = true → t.enableMICP = true →
      t.zFractionIdx = t.microbialConcentrationIdx) ∧
    (t.enablePolymer = true → t.enableMICP = true →
      t.polymerConcentrationIdx = t.microbialConcentrationIdx) ∧
    (t.enableExtbo = true → t.enableFoam = true → t.enablePolymer = false →
      t.enableMICP = false → t.zFractionIdx = t.foamConcentrationIdx) := by
  refine ⟨?_, ?_, ?_, ?_⟩
  · intro h1 h2
    simp only [zFractionIdx, polymerConcentrationIdx, h1, h2, if_true]
  · intro h1 h2
    simp only [zFractionIdx, microbialConcentrationIdx, h1, h2, if_true]
  · intro h1 h2
    simp only [polymerConcentrationIdx, microbialConcentrationIdx, h1, h2, if_true]
  · intro h1 h2 h3 h4
    simp only [zFractionIdx, foamConcentrationIdx, numPolymers, numMICPs, h1, h2, h3, h4,
      if_true, Bool.false_eq_true, if_false, afterSolvents, unsignedAdd, toUnsigned, toInt]
    split_ifs <;> omega

/-- What the statement `IndicesSeparate` says about the pressure index and about
each other quantity together with the pressure index. -/
theorem indicesSeparate_pressure (t : BlackOilOnePhaseIndices) (hsep : t.IndicesSeparate) :
    (t.PVOffset : Int) ≤ t.pressureSwitchIdx ∧
    (t.enableSolvent = true → (t.PVOffset : Int) ≤ t.solventSaturationIdx ∧
      t.pressureSwitchIdx ≠ t.solventSaturationIdx) ∧
    (t.enableExtbo = true → (t.PVOffset : Int) ≤ t.zFractionIdx ∧
      t.pressureSwitchIdx ≠ t.zFractionIdx) ∧
    (t.enablePolymer = true → (t.PVOffset : Int) ≤ t.polymerConcentrationIdx ∧
      t.pressureSwitchIdx ≠ t.polymerConcentrationIdx) ∧
    (t.enableMICP = true → (t.PVOffset : Int) ≤ t.microbialConcentrationIdx ∧
      t.pressureSwitchIdx ≠ t.microbialConcentrationIdx) ∧
    (t.enableFoam = true → (t.PVOffset : Int) ≤ t.foamConcentrationIdx ∧
      t.pressureSwitchIdx ≠ t.foamConcentrationIdx) ∧
    (t.enableBrine = true → (t.PVOffset : Int) ≤ t.saltConcentrationIdx ∧
      t.pressureSwitchIdx ≠ t.saltConcentrationIdx) ∧
    (t.enableEnergy = true → (t.PVOffset : Int) ≤ t.temperatureIdx ∧
      t.pressureSwitchIdx ≠ t.temperatureIdx) := by
  obtain ⟨hr0, hp⟩ := indicesSeparate_at t hsep
  have hr : ∀ (j : Nat) (hj : j < t.quantities.length), (t.quantities.get ⟨j, hj⟩).1 = true →
      (t.PVOffset : Int) ≤ (t.quantities.get ⟨j, hj⟩).2 := fun j hj h =>
    (hr0 _ (List.get_mem _ _ _) h).1
  have hq : ∀ (j : Nat) (hj : j < t.quantities.length), 0 < j →
      (t.quantities.get ⟨j, hj⟩).1 = true →
      (t.PVOffset : Int) ≤ (t.quantities.get ⟨j, hj⟩).2 ∧
      t.pressureSwitchIdx ≠ (t.quantities.get ⟨j, hj⟩).2 := by
    intro j hj h0 hen
    refine ⟨hr j hj hen, ?_⟩
    have h := hp 0 j (by simp [quantities]) hj h0
    simp only [quantities, List.get_eq_getElem] at h
    rw [List.getElem_cons_zero] at h
    dsimp only at h
    simp only [quantities, List.get_eq_getElem] at hen ⊢
    exact h rfl hen
  refine ⟨?_, ?_, ?_, ?_, ?_, ?_, ?_, ?_⟩
  · have h := hr 0 (by simp [quantities])
    simp only [quantities, List.get_eq_getElem] at h
    rw [List.getElem_cons_zero] at h
    dsimp only at h
    exact h rfl
  · have h := hq 1 (by simp [quantities]) (by decide)
    simp only [quantities, List.get_eq_getElem, List.getElem_cons_succ,
      List.getElem_cons_zero] at h
    exact h
  · have h := hq 2 (by simp [quantities]) (by decide)
    simp only [quantities, List.get_eq_getElem, List.getElem_cons_succ,
      List.getElem_cons_zero] at h
    exact h
  · have h := hq 3 (by simp [quantities]) (by decide)
    simp only [quantities, List.get_eq_getElem, List.getElem_cons_succ,
      List.getElem_cons_zero] at h
    exact h
  · have h := hq 5 (by simp [quantities]) (by decide)
    simp only [quantities, List.get_eq_getElem, List.getElem_cons_succ,
      List.getElem_cons_zero] at h
    exact h
  · have h := hq 10 (by simp [quantities]) (by decide)
    simp only [quantities, List.get_eq_getElem, List.getElem_cons_succ,
      List.getElem_cons_zero] at h
    exact h
  · have h := hq 11 (by simp [quantities]) (by decide)
    simp only [quantities, List.get_eq_getElem, List.getElem_cons_succ,
      List.getElem_cons_zero] at h
    exact h
  · have h := hq 12 (by simp [quantities]) (by decide)
    simp only [quantities, List.get_eq_getElem, List.getElem_cons_succ,
      List.getElem_cons_zero] at h
    exact h

theorem exclusions_forced (t : BlackOilOnePhaseIndices) (hsep : t.IndicesSeparate) :
    (t.enableExtbo = true → t.enablePolymer = true → False) ∧
    (t.enableExtbo = true → t.enableMICP = true → False) ∧
    (t.enablePolymer = true → t.enableMICP = true → False) ∧
    (t.enableExtbo = true → t.enableFoam = true → False) := by
  obtain ⟨-, hp⟩ := indicesSeparate_at t hsep
  obtain ⟨s1, s2, s3, s4⟩ := shared_slot t
  have hXP : t.enableExtbo = true → t.enablePolymer = true → False := by
    intro h1 h2
    have h := hp 2 3 (by simp [quantities]) (by simp [quantities]) (by decide)
    simp only [quantities, List.get_eq_getElem, List.getElem_cons_succ,
      List.getElem_cons_zero] at h
    exact h h1 h2 (s1 h1 h2)
  have hXM : t.enableExtbo = true → t.enableMICP = true → False := by
    intro h1 h2
    have h := hp 2 5 (by simp [quantities]) (by simp [quantities]) (by decide)
    simp only [quantities, List.get_eq_getElem, List.getElem_cons_succ,
      List.getElem_cons_zero] at h
    exact h h1 h2 (s2 h1 h2)
  have hPM : t.enablePolymer = true → t.enableMICP = true → False := by
    intro h1 h2
    have h := hp 3 5 (by simp [quantities]) (by simp [quantities]) (by decide)
    simp only [quantities, List.get_eq_getElem, List.getElem_cons_succ,
      List.getElem_cons_zero] at h
    exact h h1 h2 (s3 h1 h2)
  refine ⟨hXP, hXM, hPM, ?_⟩
  intro h1 h2
  have h3 : t.enablePolymer = false := by
    cases h : t.enablePolymer
    · rfl
    · exact absurd (hXP h1 h) id
  have h4 : t.enableMICP = false := by
    cases h : t.enableMICP
    · rfl
    · exact absurd (hXM h1 h) id
  have h := hp 2 10 (by simp [quantities]) (by simp [quantities]) (by decide)
  simp only [quantities, List.get_eq_getElem, List.getElem_cons_succ,
    List.getElem_cons_zero] at h
  exact h h1 h2 (s4 h1 h2 h3 h4)

/-- An index which is the sum `p + s` of type `unsigned`, converted to `int`, and
which is not below `p`: the sum is a value of the type `int`, provided it wraps
around at most to `0` and the index is not `p` itself unless `s` is `0`. -/
theorem sum_fits (p s : Nat) (x : Int) (hx : x = toInt (((p : Int) + s) % 4294967296))
    (hp : p < 2147483648) (hs : p + s ≤ 4294967296) (hlow : (p : Int) ≤ x)
    (hne : s ≠ 0 → x ≠ p) : p + s < 2147483648 := by
  rw [hx] at hlow hne
  simp only [toInt] at hlow hne
  by_cases h0 : s = 0
  · split_ifs at hlow <;> omega
  · have hne2 := hne h0
    split_ifs at hlow hne2 <;> omega

/-- The indices which are sums of type `unsigned`, for counts which are values
of the type `int`: the sum of `PVOffset` and a natural number, reduced modulo
`2^32` and converted to `int`. -/
theorem index_sums (t : BlackOilOnePhaseIndices)
    (c1 : t.numSolventsV < 2147483648) (c2 : t.numExtbosV < 2147483648)
    (c3 : t.numPolymersV < 2147483648) (c5 : t.numMICPsV < 2147483648) :
    t.pressureSwitchIdx = toInt (((t.PVOffset : Int) + (0 : Nat)) % 4294967296) ∧
    (t.enableSolvent = true →
      t.solventSaturationIdx = toInt (((t.PVOffset : Int) + (1 : Nat)) % 4294967296)) ∧
    (t.afterSolvents = ((t.PVOffset : Int) + (1 + t.numSolventsV : Nat)) % 4294967296) ∧
    (t.enableFoam = true → t.foamConcentrationIdx
      = toInt (((t.PVOffset : Int) + (1 + t.numSolventsV + t.numPolymersV + t.numMICPsV : Nat))
          % 4294967296)) ∧
    (t.enableBrine = true → t.saltConcentrationIdx
      = toInt (((t.PVOffset : Int) + (1 + t.numSolventsV + t.numExtbosV + t.numPolymersV
          + t.numMICPsV + (if t.enableFoam then 1 else 0) : Nat)) % 4294967296)) ∧
    (t.enableEnergy = true → t.temperatureIdx
      = toInt (((t.PVOffset : Int) + (1 + t.numSolventsV + t.numExtbosV + t.numPolymersV
          + t.numMICPsV + (if t.enableFoam then 1 else 0)
          + (if t.enableBrine then 1 else 0) : Nat)) % 4294967296)) := by
  have hns : t.numSolvents = t.numSolventsV := count_eq _ c1
  have hne : t.numExtbos = t.numExtbosV := count_eq _ c2
  have hnp : t.numPolymers = t.numPolymersV := count_eq _ c3
  have hnm : t.numMICPs = t.numMICPsV := count_eq _ c5
  have haft : t.afterSolvents
      = ((t.PVOffset : Int) + (1 + t.numSolventsV : Nat)) % 4294967296 := by
    simp only [afterSolvents, hns, numPhases, unsignedAdd, toUnsigned]
    omega
  refine ⟨?_, ?_, haft, ?_, ?_, ?_⟩
  · simp only [pressureSwitchIdx, unsignedAdd, toUnsigned]
    congr 1
  · intro h
    simp only [solventSaturationIdx, h, if_true, numPhases, unsignedAdd, toUnsigned]
    congr 1
  · intro h
    simp only [foamConcentrationIdx, h, if_true, haft, hnp, hnm, unsignedAdd, toUnsigned]
    congr 1
    omega
  · intro h
    cases hF : t.enableFoam <;>
      simp only [saltConcentrationIdx, h, if_true, Bool.false_eq_true, if_false, haft, hne,
        hnp, hnm, numFoam, hF, unsignedAdd, toUnsigned] <;>
      congr 1 <;> omega
  · intro h
    cases hF : t.enableFoam <;> cases hB : t.enableBrine <;>
      simp only [temperatureIdx, h, if_true, Bool.false_eq_true, if_false, haft, hne,
        hnp, hnm, numFoam, numBrine, hF, hB, unsignedAdd, toUnsigned] <;>
      congr 1 <;> omega

/-- The conditions of the amended claim are forced.  When the five counts are
values of the type `int` and the indices of the enabled quantities are pairwise
distinct and in range, then no sum wraps around, at most one of Extbo, polymer
and MICP is enabled, and foam is not enabled together with Extbo. -/
theorem indicesSeparate_forces (t : BlackOilOnePhaseIndices)
    (c1 : t.numSolventsV < 2147483648) (c2 : t.numExtbosV < 2147483648)
    (c3 : t.numPolymersV < 2147483648) (c4 : t.numEnergyV < 2147483648)
    (c5 : t.numMICPsV < 2147483648) (hsep : t.IndicesSeparate) :
    t.NoWrap ∧ [t.enableExtbo, t.enablePolymer, t.enableMICP].count true ≤ 1 ∧
    ¬ (t.enableExtbo = true ∧ t.enableFoam = true) := by
  obtain ⟨hXP, hXM, hPM, hXF⟩ := exclusions_forced t hsep
  obtain ⟨low0, q1, q2, q3, q5, q10, q11, q12⟩ := indicesSeparate_pressure t hsep
  obtain ⟨f0, f1, faft, f3, f4, f5⟩ := index_sums t c1 c2 c3 c5
  have hmod : [t.enableExtbo, t.enablePolymer, t.enableMICP].count true ≤ 1 := by
    cases h1 : t.enableExtbo <;> cases h2 : t.enablePolymer <;> cases h3 : t.enableMICP <;>
      first
      | decide
      | exact absurd (hXP h1 h2) id
      | exact absurd (hXM h1 h3) id
      | exact absurd (hPM h2 h3) id
  refine ⟨?_, hmod, fun h => hXF h.1 h.2⟩
  have m1 : t.numExtbosV = 0 ∨ t.numPolymersV = 0 := by
    by_contra hcon
    exact hXP (by simp only [enableExtbo, decide_eq_true_eq]; omega)
      (by simp only [enablePolymer, decide_eq_true_eq]; omega)
  have m2 : t.numExtbosV = 0 ∨ t.numMICPsV = 0 := by
    by_contra hcon
    exact hXM (by simp only [enableExtbo, decide_eq_true_eq]; omega)
      (by simp only [enableMICP, decide_eq_true_eq]; omega)
  have m3 : t.numPolymersV = 0 ∨ t.numMICPsV = 0 := by
    by_contra hcon
    exact hPM (by simp only [enablePolymer, decide_eq_true_eq]; omega)
      (by simp only [enableMICP, decide_eq_true_eq]; omega)
  have b0 : t.PVOffset < 2147483648 := by
    rw [f0] at low0
    simp only [toInt] at low0
    split_ifs at low0 <;> omega
  have hpress : t.pressureSwitchIdx = t.PVOffset := by
    rw [f0]
    simp only [toInt]
    split_ifs <;> omega
  rw [hpress] at q1 q2 q3 q5 q10 q11 q12
  have b1 : t.numSolventsV > 0 → t.PVOffset + 1 < 2147483648 := by
    intro h
    have hen : t.enableSolvent = true := by
      simp only [enableSolvent, decide_eq_true_eq]
      exact h
    exact sum_fits t.PVOffset 1 _ (f1 hen) b0 (by omega) (q1 hen).1
      (fun _ => ((q1 hen).2).symm)
  have b2 : t.numExtbosV > 0 ∨ t.numPolymersV > 0 ∨ t.numMICPsV > 0 →
      t.PVOffset + 1 + t.numSolventsV < 2147483648 := by
    rintro (h | h | h)
    · have hen : t.enableExtbo = true := by
        simp only [enableExtbo, decide_eq_true_eq]
        exact h
      have hx : t.zFractionIdx = toInt (((t.PVOffset : Int) + (1 + t.numSolventsV : Nat))
          % 4294967296) := by
        simp only [zFractionIdx, hen, if_true, faft]
      have := sum_fits t.PVOffset (1 + t.numSolventsV) _ hx b0 (by omega) (q2 hen).1
        (fun _ => ((q2 hen).2).symm)
      omega
    · have hen : t.enablePolymer = true := by
        simp only [enablePolymer, decide_eq_true_eq]
        exact h
      have hx : t.polymerConcentrationIdx
          = toInt (((t.PVOffset : Int) + (1 + t.numSolventsV : Nat)) % 4294967296) := by
        simp only [polymerConcentrationIdx, hen, if_true, faft]
      have := sum_fits t.PVOffset (1 + t.numSolventsV) _ hx b0 (by omega) (q3 hen).1
        (fun _ => ((q3 hen).2).symm)
      omega
    · have hen : t.enableMICP = true := by
        simp only [enableMICP, decide_eq_true_eq]
        exact h
      have hx : t.microbialConcentrationIdx
          = toInt (((t.PVOffset : Int) + (1 + t.numSolventsV : Nat)) % 4294967296) := by
        simp only [microbialConcentrationIdx, hen, if_true, faft]
      have := sum_fits t.PVOffset (1 + t.numSolventsV) _ hx b0 (by omega) (q5 hen).1
        (fun _ => ((q5 hen).2).symm)
      omega
  have b3 : t.enableFoam = true →
      t.PVOffset + 1 + t.numSolventsV + t.numPolymersV + t.numMICPsV < 2147483648 := by
    intro hen
    have := sum_fits t.PVOffset (1 + t.numSolventsV + t.numPolymersV + t.numMICPsV) _
      (f3 hen) b0 (by omega) (q10 hen).1 (fun _ => ((q10 hen).2).symm)
    omega
  have b4 : t.enableBrine = true →
      t.PVOffset + 1 + t.numSolventsV + t.numExtbosV + t.numPolymersV + t.numMICPsV
        + (if t.enableFoam then 1 else 0) < 2147483648 := by
    intro hen
    have hs : t.PVOffset + (1 + t.numSolventsV + t.numExtbosV + t.numPolymersV
        + t.numMICPsV + (if t.enableFoam then 1 else 0)) ≤ 4294967296 := by
      by_cases hf : t.enableFoam = true
      · have := b3 hf
        simp only [hf, if_true]
        omega
      · simp only [hf, Bool.false_eq_true, if_false]
        omega
    have := sum_fits t.PVOffset (1 + t.numSolventsV + t.numExtbosV + t.numPolymersV
        + t.numMICPsV + (if t.enableFoam then 1 else 0)) _
      (f4 hen) b0 hs (q11 hen).1 (fun _ => ((q11 hen).2).symm)
    omega
  have b5 : t.numEnergyV > 0 →
      t.PVOffset + 1 + t.numSolventsV + t.numExtbosV + t.numPolymersV + t.numMICPsV
        + (if t.enableFoam then 1 else 0) + (if t.enableBrine then 1 else 0)
        < 2147483648 := by
    intro h
    have hen : t.enableEnergy = true := by
      simp only [enableEnergy, decide_eq_true_eq]
      exact h
    have hs : t.PVOffset + (1 + t.numSolventsV + t.numExtbosV + t.numPolymersV
        + t.numMICPsV + (if t.enableFoam then 1 else 0) + (if t.enableBrine then 1 else 0))
        ≤ 4294967296 := by
      by_cases hb : t.enableBrine = true
      · have := b4 hb
        simp only [hb, if_true]
        omega
      · by_cases hf : t.enableFoam = true
        · have := b3 hf
          simp only [hf, hb, Bool.false_eq_true, if_true, if_false]
          omega
        · simp only [hf, hb, Bool.false_eq_true, if_false]
          omega
    have := sum_fits t.PVOffset (1 + t.numSolventsV + t.numExtbosV + t.numPolymersV
        + t.numMICPsV + (if t.enableFoam then 1 else 0) + (if t.enableBrine then 1 else 0)) _
      (f5 hen) b0 hs (q12 hen).1 (fun _ => ((q12 hen).2).symm)
    omega
  exact ⟨c1, c2, c3, c4, c5, b0, b1, b2, b3, b4, b5⟩

/-- C26 as stated fails for four choices of the template parameters.  With
one Extbo and one polymer component both `zFractionIdx` and
`polymerConcentrationIdx` are `1`.  With one Extbo component and foam both
`zFractionIdx` and `foamConcentrationIdx` are `1`.  With `PVOffset = 2^32 - 1`
the sum `PVOffset + 0` does not fit an `int` and `pressureSwitchIdx` is `-1`,
which is not in the range starting at `PVOffset`.  With `2^31` energy equations
the count does not fit an `int`, `numEq` is `1 - 2^31` and the range starting at
`PVOffset = 0` is empty, so that it does not contain `pressureSwitchIdx = 0`. -/
theorem indices_separate_fails :
    (extboPolymerIndices.IsUnsigned ∧
      extboPolymerIndices.enableExtbo = true ∧ extboPolymerIndices.enablePolymer = true ∧
      extboPolymerIndices.zFractionIdx = 1 ∧ extboPolymerIndices.polymerConcentrationIdx = 1 ∧
      ¬ extboPolymerIndices.IndicesSeparate) ∧
    (extboFoamIndices.IsUnsigned ∧
      extboFoamIndices.enableExtbo = true ∧ extboFoamIndices.enableFoam = true ∧
      extboFoamIndices.zFractionIdx = 1 ∧ extboFoamIndices.foamConcentrationIdx = 1 ∧
      ¬ extboFoamIndices.IndicesSeparate) ∧
    (largeOffsetIndices.IsUnsigned ∧ largeOffsetIndices.pressureSwitchIdx = -1 ∧
      ¬ largeOffsetIndices.IndicesSeparate) ∧
    (hugeEnergyIndices.IsUnsigned ∧ hugeEnergyIndices.pressureSwitchIdx = 0 ∧
      hugeEnergyIndices.numEq = -2147483647 ∧
      ¬ (∀ x ∈ hugeEnergyIndices.enabledIndices, (hugeEnergyIndices.PVOffset : Int) ≤ x ∧
          x < (hugeEnergyIndices.PVOffset : Int) + hugeEnergyIndices.numEq) ∧
      ¬ hugeEnergyIndices.IndicesSeparate) := by
  refine ⟨?_, ?_, ?_, ?_⟩ <;>
    unfold IsUnsigned IndicesSeparate <;>
    decide

/-- C26, amended: for every choice of the template parameters the index of
every disabled quantity is negative.  When no sum wraps around (the five counts
are values of the type `int`, and so is, for each enabled quantity whose index
is a sum of type `unsigned`, that sum taken in the natural numbers), the index
of every enabled quantity lies in the range from `PVOffset` to
`PVOffset + numEq` (excluded); the indices of the enabled quantities are then
pairwise distinct when moreover at most one of Extbo, polymer and MICP is
enabled and foam is not enabled together with Extbo.  The indices
`waterSwitchIdx` and `compositionSwitchIdx`, which the class always disables,
are negative. -/
theorem indices_separate (t : BlackOilOnePhaseIndices) :
    (∀ x ∈ t.disabledIndices, x < 0) ∧
    (t.NoWrap →
      ∀ x ∈ t.enabledIndices, (t.PVOffset : Int) ≤ x ∧ x < (t.PVOffset : Int) + t.numEq) ∧
    (t.NoWrap →
      [t.enableExtbo, t.enablePolymer, t.enableMICP].count true ≤ 1 →
      ¬ (t.enableExtbo = true ∧ t.enableFoam = true) →
      t.IndicesSeparate) ∧
    t.waterSwitchIdx < 0 ∧ t.compositionSwitchIdx < 0 := by
  refine ⟨disabledIndices_negative t, enabledIndices_range t, ?_, ?_, ?_⟩
  · intro h hmod hfoam
    exact ⟨enabledIndices_nodup t hmod hfoam h, enabledIndices_range t h,
      disabledIndices_negative t⟩
  · unfold waterSwitchIdx
    decide
  · unfold compositionSwitchIdx
    decide

/-- C26 amended, evaluated.  On the gas model at offset `3` with two solvents,
five MICP components, foam, brine and one energy equation `numEq` is `11` and
the enabled quantities have the indices `3`, `4`, `6` to `13`.  On the plain oil
model at the offset `2^31 - 1` the only enabled index is `2^31 - 1`.  With one
Extbo and one polymer component the two disabled MICP and polymer indices are
still negative. -/
theorem indices_separate_witness :
    micpIndices.NoWrap ∧
    micpIndices.numEq = 11 ∧
    micpIndices.enabledIndices = [3, 4, 6, 7, 8, 9, 10, 11, 12, 13] ∧
    micpIndices.disabledIndices = [-1000, -1000, -1000] ∧
    micpIndices.IndicesSeparate ∧
    largestOffsetIndices.NoWrap ∧
    largestOffsetIndices.enabledIndices = [2147483647] ∧
    largestOffsetIndices.IndicesSeparate ∧
    (∀ x ∈ extboPolymerIndices.disabledIndices, x < 0) := by
  have h1 : micpIndices.NoWrap := by
    unfold NoWrap
    decide
  have h2 : largestOffsetIndices.NoWrap := by
    unfold NoWrap
    decide
  exact ⟨h1, by decide, by decide, by decide,
    (indices_separate micpIndices).2.2.1 h1 (by decide) (by decide),
    h2, by decide,
    (indices_separate largestOffsetIndices).2.2.1 h2 (by decide) (by decide),
    (indices_separate extboPolymerIndices).1⟩

/-- C27: `canonicalToActiveComponentIndex` returns `0` for every argument.  When
`canonicalCompIdx` is `0` (oil), `1` (water) or `2` (gas),
`activeToCanonicalComponentIndex (0)` returns `canonicalCompIdx`, neither of its
assertions failing, so the two maps undo each other on the active index `0` and
on the canonical index `canonicalCompIdx`, and exactly one of `oilEnabled`,
`waterEnabled`, `gasEnabled` is true. -/
theorem componentIndex_roundtrip (t : BlackOilOnePhaseIndices) (h : t.canonicalCompIdx ≤ 2) :
    (∀ compIdx, t.canonicalToActiveComponentIndex compIdx = 0) ∧
    t.activeToCanonicalComponentIndex 0 = some t.canonicalCompIdx ∧
    (t.activeToCanonicalComponentIndex 0).map t.canonicalToActiveComponentIndex = some 0 ∧
    t.activeToCanonicalComponentIndex (t.canonicalToActiveComponentIndex t.canonicalCompIdx)
      = some t.canonicalCompIdx ∧
    [t.oilEnabled, t.waterEnabled, t.gasEnabled].count true = 1 := by
  have hc : t.canonicalCompIdx = 0 ∨ t.canonicalCompIdx = 1 ∨ t.canonicalCompIdx = 2 := by
    omega
  rcases hc with hc | hc | hc <;>
    simp [canonicalToActiveComponentIndex, activeToCanonicalComponentIndex, oilEnabled,
      waterEnabled, gasEnabled, hc]

/-- C27, evaluated: the plain model is an oil model (`canonicalCompIdx = 0`) and
the model `micpIndices` is a gas model (`canonicalCompIdx = 2`). -/
theorem componentIndex_roundtrip_witness :
    plainIndices.canonicalCompIdx ≤ 2 ∧
    plainIndices.activeToCanonicalComponentIndex 0 = some 0 ∧
    micpIndices.activeToCanonicalComponentIndex 0 = some 2 ∧
    micpIndices.canonicalToActiveComponentIndex 2 = 0 ∧
    [micpIndices.oilEnabled, micpIndices.waterEnabled, micpIndices.gasEnabled]
      = [false, false, true] :=
  ⟨by decide, (componentIndex_roundtrip plainIndices (by decide)).2.1,
    (componentIndex_roundtrip micpIndices (by decide)).2.1, rfl, rfl⟩

end Dumux
